import Mathlib

/-!
# Shallow embedding of the consort graph/count consistency engine

This file embeds the core model of the `hyeenus/consort` CONSORT-diagram
editor (files `src/model/types.ts`, `src/model/numbers.ts`,
`src/model/graph.ts`, `src/model/layout.ts`) into Lean 4 and proves the
frozen claims about it.

Modelling conventions:
* JavaScript objects keyed by `nanoid` strings are modelled as association
  lists `List (String × α)` in insertion order; `Object.values` is `map
  Prod.snd`, property lookup is first-match lookup, and property update
  rewrites the value in place (appending when the key is new), exactly as
  JS object semantics for non-integer string keys.
* `number | null` count fields become `Option Int`; layout coordinates
  become `Rat` (JS numbers divide by 2 when centering children).
* `undefined` versus `null` on optional fields (`countOverride?: string |
  null`) is modelled as `Option (Option String)`: `none` is "absent /
  undefined", `some none` is `null`.
* Functions that can `throw` return `Except String`; a `TypeError` from a
  property access on `undefined` is modelled as an `Except.error` as well.
* Calls to `nanoid()` are modelled by explicit id arguments (or an id
  supply function), since the generated ids are arbitrary fresh strings.
-/

set_option maxHeartbeats 1000000
set_option linter.unusedVariables false

namespace Consort

/-! ## Association-list maps (JS objects in insertion order) -/

/-- First-match lookup, the JS property read `obj[k]`. -/
def alookup (l : List (String × α)) (k : String) : Option α :=
  (l.find? (fun p => p.1 = k)).map Prod.snd

/-- Rewrite the value stored at key `k` in place (JS `obj[k].field = v`
mutation of an existing entry). Keys and order are unchanged; missing keys
are untouched. -/
def amodify (l : List (String × α)) (k : String) (f : α → α) : List (String × α) :=
  l.map (fun p => if p.1 = k then (p.1, f p.2) else p)

/-- JS assignment `obj[k] = v`: overwrite in place if present, else append. -/
def ainsert (l : List (String × α)) (k : String) (v : α) : List (String × α) :=
  if (l.find? (fun p => p.1 = k)).isSome then amodify l k (fun _ => v) else l ++ [(k, v)]

/-- JS `delete obj[k]` (also used for bulk deletes): drop the entry, keep order. -/
def aerase (l : List (String × α)) (k : String) : List (String × α) :=
  l.filter (fun p => ¬ p.1 = k)

/-! ## Entity records (`src/model/types.ts`, final revision with
`childIds`, `countOverride`, `totalOverride`, phases and `CountFormat`) -/

inductive ExclusionReasonKind where
  | user
  | auto
  deriving DecidableEq, Repr

structure ExclusionReason where
  id : String
  label : String
  n : Option Int
  kind : ExclusionReasonKind
  countOverride : Option (Option String) := none
  deriving DecidableEq, Repr

structure ExclusionBox where
  label : String
  total : Option Int
  reasons : List ExclusionReason
  totalOverride : Option (Option String) := none
  deriving DecidableEq, Repr

structure Interval where
  id : String
  parentId : String
  childId : String
  exclusion : Option ExclusionBox
  delta : Int
  arrow : Bool
  deriving DecidableEq, Repr

structure Position where
  x : Rat
  y : Rat
  deriving DecidableEq, Repr

structure BoxNode where
  id : String
  textLines : List String
  n : Option Int
  position : Position
  column : Int
  autoLocked : Bool
  childIds : List String
  countOverride : Option (Option String) := none
  deriving DecidableEq, Repr

structure PhaseBox where
  id : String
  label : String
  startNodeId : String
  endNodeId : String
  deriving DecidableEq, Repr

structure GraphState where
  nodes : List (String × BoxNode)
  intervals : List (String × Interval)
  phases : List PhaseBox
  startNodeId : Option String
  selectedId : Option String
  deriving DecidableEq, Repr

inductive CountFormat where
  | upper
  | parenthetical
  deriving DecidableEq, Repr

structure AppSettings where
  autoCalc : Bool
  arrowsGlobal : Bool
  countFormat : CountFormat
  freeEdit : Bool
  deriving DecidableEq, Repr

/-! ## Number formatting (`src/model/numbers.ts`)

Strings are handled as `List Char`; the public functions pack them into
`String`. The em dash placeholder (stored as UTF-8 in the source) is the
character `'—'`. -/

/-- Fuel-driven decimal digit expansion, most significant first; the fuel
is an upper bound that makes the division loop structural. -/
def natDigitsGo : Nat → Nat → List Char → List Char
  | 0, _, acc => acc
  | fuel + 1, n, acc =>
    if n < 10 then Char.ofNat (48 + n) :: acc
    else natDigitsGo fuel (n / 10) (Char.ofNat (48 + n % 10) :: acc)

/-- Decimal digit characters of a natural number, most significant first
(the JS `Math.trunc(n).toString()` for a non-negative integer). -/
def natDigitsChars (n : Nat) : List Char :=
  natDigitsGo (n + 1) n []

/-- Character sequence of `Math.trunc(n).toString()` for an integer. -/
def intChars (i : Int) : List Char :=
  if i < 0 then '-' :: natDigitsChars i.natAbs else natDigitsChars i.toNat

/-- The grouping loop of `formatInteger`: the source walks the characters
from the last to the first, unshifting each one and a separator after every
third character that is not the first. Here `rev` is the remaining
characters in reverse order, `counter` the running count, `out` the
accumulated output. -/
def groupLoop (sep : Char) : List Char → Nat → List Char → List Char
  | [], _, out => out
  | c :: rest, counter, out =>
    if counter + 1 = 3 ∧ rest ≠ [] then groupLoop sep rest 0 (sep :: c :: out)
    else groupLoop sep rest (counter + 1) (c :: out)

/-- `formatInteger` from `numbers.ts`: `null` renders as an em dash,
otherwise digits are grouped with the `'en-space'` separator. (`NaN` does
not exist for `Option Int`; the `Number.isNaN` branch merges with `null`.) -/
def formatIntegerChars (n : Option Int) : List Char :=
  match n with
  | none => ['—']
  | some i => groupLoop ' ' (intChars i).reverse 0 []

def formatInteger (n : Option Int) : String :=
  String.mk (formatIntegerChars n)

/-- `formatCount` from `numbers.ts`. -/
def formatCountChars (n : Option Int) (format : CountFormat) : List Char :=
  match format with
  | CountFormat.parenthetical => ('(' :: 'n' :: ' ' :: '=' :: ' ' :: []) ++ formatIntegerChars n ++ [')']
  | CountFormat.upper => ('N' :: ' ' :: '=' :: ' ' :: []) ++ formatIntegerChars n

def formatCount (n : Option Int) (format : CountFormat := CountFormat.upper) : String :=
  String.mk (formatCountChars n format)

/-- JS whitespace for `String.prototype.trim` (the characters that can
actually occur in this code base). -/
def isJsWs (c : Char) : Bool :=
  c = ' ' ∨ c = '\t' ∨ c = '\n' ∨ c = '\r'

def jsTrim (cs : List Char) : List Char :=
  ((cs.dropWhile isJsWs).reverse.dropWhile isJsWs).reverse

/-- The character class kept by the `replace(/[^0-9-]/g, '')` in
`parseCount`: digits and the minus sign. -/
def isDigitOrMinus (c : Char) : Bool :=
  c.isDigit ∨ c = '-'

/-- Numeric value of a big-endian digit string. -/
def digitsVal (cs : List Char) : Nat :=
  cs.foldl (fun acc c => 10 * acc + (c.toNat - 48)) 0

/-- JS `Number(s)` restricted to digit/minus strings, the only inputs it
receives after the character filter of `parseCount`: an optional single
leading minus followed by at least one digit parses; a minus anywhere else
is `NaN` (`none` here); `Number('')` is `0` (unreachable behind the
emptiness guard). -/
def jsNumberOfDigits (cs : List Char) : Option Int :=
  match cs with
  | [] => some 0
  | c :: rest =>
    if c = '-' then
      if rest ≠ [] ∧ rest.all Char.isDigit then some (-(digitsVal rest : Int)) else none
    else if (c :: rest).all Char.isDigit then some ((digitsVal (c :: rest) : Int)) else none

/-- `parseCount` from `numbers.ts`. -/
def parseCount (text : String) : Option Int :=
  let trimmed := jsTrim text.toList
  if trimmed = [] then none
  else
    let digitsOnly := trimmed.filter isDigitOrMinus
    if digitsOnly = [] then none
    else jsNumberOfDigits digitsOnly

/-! ### Exact rational arithmetic helpers

JS numbers are modelled by `Rat`. The layout arithmetic is written with
the explicit cross-multiplication forms below (all produced through
`mkRat`, hence always normalized) rather than `Rat.add`/`Rat.mul`, which
are equal operations but are marked irreducible upstream; the forms below
let concrete states evaluate. -/

def ratAdd (a b : Rat) : Rat := mkRat (a.num * b.den + b.num * a.den) (a.den * b.den)

def ratSub (a b : Rat) : Rat := mkRat (a.num * b.den - b.num * a.den) (a.den * b.den)

def ratMul (a b : Rat) : Rat := mkRat (a.num * b.num) (a.den * b.den)

/-- Division by two (the only division the layout performs). -/
def ratDiv2 (a : Rat) : Rat := mkRat a.num (a.den * 2)

def ratOfNat (n : Nat) : Rat := mkRat (Int.ofNat n) 1

def ratLe (a b : Rat) : Bool := decide (a.num * b.den ≤ b.num * a.den)

def ratLt (a b : Rat) : Bool := decide (a.num * b.den < b.num * a.den)

def ratMax (a b : Rat) : Rat := if ratLe a b then b else a

/-! ## Layout engine (`src/model/layout.ts`)

Only the pieces reachable from `graph.ts` are embedded: text wrapping,
node heights, and the tree placement that assigns `position` and is what
`getMainFlowNodes` later sorts by. The `order` return value feeds the
`__order` cache consumed by `orderNodes` only; no claim reads it, so it is
not modelled. `layoutTree` in `src/model/layout.ts` takes only
`(nodes, startNodeId)`; the extra `countFormat`/`freeEdit` arguments that
`graph.ts` passes are silently ignored in JS and are ignored here too. -/

def LINE_HEIGHT : Rat := 20

def NODE_MIN_HEIGHT : Rat := 120

def LEVEL_GAP_Y : Rat := 64

def BRANCH_GAP_X : Rat := 80

def NODE_VERTICAL_PADDING : Rat := 32

def NODE_MAX_CHARS : Nat := 26

/-- Modelled from the spec: `BOX_WIDTH` comes from the repository's
`constants` module, which is not included under `src/`; the spec fixes no
value and it only scales x-coordinates, which no claim observes. A fixed
positive width is used. -/
def BOX_WIDTH : Rat := 260

/-- The chunking loop of `splitLongWord` (`for (i = 0; i < len; i += max)`).
Never called with `maxChars = 0` (the budgets are 26 and 22). -/
def chunkLoop (maxChars : Nat) (cs : List Char) : List (List Char) :=
  if hg : cs = [] ∨ maxChars = 0 then []
  else cs.take maxChars :: chunkLoop maxChars (cs.drop maxChars)
termination_by cs.length
decreasing_by
  push_neg at hg
  obtain ⟨h1, h2⟩ := hg
  have hlen : 0 < cs.length := List.length_pos.mpr h1
  simp only [List.length_drop]
  omega

def splitLongWord (word : List Char) (maxChars : Nat) : List (List Char) :=
  if word.length ≤ maxChars then [word] else chunkLoop maxChars word

/-- `String.prototype.split(/\s+/)` on an already-trimmed string: maximal
runs of non-whitespace characters. -/
def splitWsGo : List Char → List Char → List (List Char)
  | [], cur => if cur = [] then [] else [cur.reverse]
  | c :: rest, cur =>
    if isJsWs c then
      if cur = [] then splitWsGo rest [] else cur.reverse :: splitWsGo rest []
    else splitWsGo rest (c :: cur)

def splitWs (cs : List Char) : List (List Char) :=
  splitWsGo cs []

/-- `wrapLine` from `layout.ts`: greedy word wrap to a character budget. -/
def wrapLine (line : List Char) (maxChars : Nat) : List (List Char) :=
  let trimmed := jsTrim line
  if trimmed = [] then [[]]
  else
    let words := splitWs trimmed
    let state := words.foldl
      (fun (acc : List (List Char) × List Char) word =>
        (splitLongWord word maxChars).foldl
          (fun (acc2 : List (List Char) × List Char) seg =>
            let wrapped := acc2.1
            let current := acc2.2
            if current = [] then (wrapped, seg)
            else if current.length + 1 + seg.length ≤ maxChars then
              (wrapped, current ++ ' ' :: seg)
            else (wrapped ++ [current], seg)) acc)
      ([], [])
    let wrapped := if state.2 ≠ [] then state.1 ++ [state.2] else state.1
    if wrapped = [] then [[]] else wrapped

def wrapTextLines (lines : List String) (maxChars : Nat) : List String :=
  let wrapped := lines.foldl
    (fun acc line => acc ++ (wrapLine line.toList maxChars).map String.mk) []
  if wrapped = [] then [""] else wrapped

def getNodeDisplayLines (node : BoxNode) : List String :=
  let baseLines := if node.textLines = [] then [""] else node.textLines
  wrapTextLines baseLines NODE_MAX_CHARS ++ [formatCount node.n]

def computeNodeHeight (node : BoxNode) : Rat :=
  ratMax NODE_MIN_HEIGHT
    (ratAdd (ratMul (ratOfNat (getNodeDisplayLines node).length) LINE_HEIGHT)
      NODE_VERTICAL_PADDING)

/-- The post-order subtree-width pass of `layoutTree`. The accumulator is
the `widths` map; the fuel makes the tree recursion structural (the JS
recursion would not terminate on a cyclic `childIds` graph, which no
reachable state has). -/
def computeWidthGo (nodes : List (String × BoxNode)) :
    Nat → List (String × Rat) → String → List (String × Rat) × Rat
  | 0, widths, _ => (widths, 0)
  | fuel + 1, widths, nodeId =>
    match alookup nodes nodeId with
    | none => (widths, 0)
    | some node =>
      if node.childIds = [] then (ainsert widths nodeId BOX_WIDTH, BOX_WIDTH)
      else
        let state := node.childIds.enum.foldl
          (fun (acc : List (String × Rat) × Rat) ic =>
            let res := computeWidthGo nodes fuel acc.1 ic.2
            let withGap := if 0 < ic.1 then ratAdd acc.2 BRANCH_GAP_X else acc.2
            (res.1, ratAdd withGap res.2))
          (widths, 0)
        let width := ratMax BOX_WIDTH state.2
        (ainsert state.1 nodeId width, width)

/-- The pre-order placement pass of `layoutTree`: centers each child run
under its parent and advances `y` by the node height plus the level gap. -/
def assignGo (widths : List (String × Rat)) :
    Nat → List (String × BoxNode) → String → Rat → Rat → List (String × BoxNode)
  | 0, nodes, _, _, _ => nodes
  | fuel + 1, nodes, nodeId, center, currentY =>
    match alookup nodes nodeId with
    | none => nodes
    | some node =>
      let nodes := amodify nodes nodeId
        (fun nd => { nd with position := { x := center, y := currentY } })
      let nodeHeight := computeNodeHeight node
      if node.childIds = [] then nodes
      else
        let childWidths := node.childIds.map (fun cid => (alookup widths cid).getD BOX_WIDTH)
        let totalWidth :=
          ratAdd (childWidths.foldl ratAdd 0)
            (ratMul BRANCH_GAP_X (ratSub (ratOfNat childWidths.length) 1))
        let start0 := ratSub center (ratDiv2 totalWidth)
        let nextY := ratAdd (ratAdd currentY nodeHeight) LEVEL_GAP_Y
        (List.foldl
          (fun (acc : List (String × BoxNode) × Rat) cw =>
            let childCenter := ratAdd acc.2 (ratDiv2 cw.2)
            (assignGo widths fuel acc.1 cw.1 childCenter nextY,
              ratAdd (ratAdd acc.2 cw.2) BRANCH_GAP_X))
          (nodes, start0) (node.childIds.zip childWidths)).1

/-- `layoutTree` from `src/model/layout.ts` (position assignment; the
returned visit order is not modelled, see the section comment). -/
def layoutTree (nodes : List (String × BoxNode)) (startNodeId : Option String) :
    List (String × BoxNode) :=
  match startNodeId with
  | none => nodes
  | some s =>
    if (alookup nodes s).isSome then
      let widths := (computeWidthGo nodes (nodes.length + 1) [] s).1
      assignGo widths (nodes.length + 1) nodes s 0 0
    else nodes

/-! ## Graph operations (`src/model/graph.ts`) -/

/-- `cloneGraph` deep-copies and re-normalizes `childIds` to arrays; in the
typed model every graph value is already of the declared shape and values
are immutable, so the clone is the identity. -/
def cloneGraph (g : GraphState) : GraphState := g

def getParentId (g : GraphState) (nodeId : String) : Option String :=
  ((g.intervals.map Prod.snd).find? (fun iv => iv.childId = nodeId)).map (fun iv => iv.parentId)

def createDefaultExclusion : ExclusionBox :=
  { label := "Excluded", total := none, reasons := [] }

/-- The `userReasons` local of `ensureOtherReason` (the user-kind rows). -/
def userReasonsOf (e : ExclusionBox) : List ExclusionReason :=
  e.reasons.filter (fun r => r.kind = ExclusionReasonKind.user)

/-- The `sumUser` local of `ensureOtherReason`: user counts, nulls as 0. -/
def sumUserOf (e : ExclusionBox) : Int :=
  (userReasonsOf e).foldl (fun acc r => acc + r.n.getD 0) 0

/-- The auto reason object `ensureOtherReason` works with: the existing
`auto` row if present (`existingAuto`), else a fresh one carrying the
remainder. -/
def baseAutoReason (freshId : String) (e : ExclusionBox) (remainder : Int) :
    ExclusionReason :=
  (e.reasons.find? (fun r => r.kind = ExclusionReasonKind.auto)).getD
    { id := freshId, label := "Other", n := some remainder,
      kind := ExclusionReasonKind.auto, countOverride := some none }

/-- The label the remainder rule gives the auto reason: a previously
customized (non-empty) label is preserved, otherwise the default
string for the remainder row. -/
def autoLabelOf (e : ExclusionBox) : String :=
  match e.reasons.find? (fun r => r.kind = ExclusionReasonKind.auto) with
  | some a => if a.label = "" then "Other" else a.label
  | none => "Other"

/-- `ensureOtherReason`: rebuild the reason list as the user reasons plus,
when warranted, the single synthesized `auto` remainder row. `freshId`
stands for the `nanoid()` used when no `auto` reason existed. The JS
locals `userReasons` / `sumUser` / `existingAuto` are the named helper
functions above. -/
def ensureOtherReason (freshId : String) (exclusion : ExclusionBox) : ExclusionBox :=
  match exclusion.total with
  | none => { exclusion with reasons := userReasonsOf exclusion }
  | some t =>
    if (userReasonsOf exclusion).length > 0 ∧ t - sumUserOf exclusion ≠ 0 then
      { exclusion with
        reasons := userReasonsOf exclusion ++
          [{ baseAutoReason freshId exclusion (t - sumUserOf exclusion) with
              n := some (t - sumUserOf exclusion),
              label :=
                if (baseAutoReason freshId exclusion (t - sumUserOf exclusion)).label = ""
                then "Other"
                else (baseAutoReason freshId exclusion (t - sumUserOf exclusion)).label }] }
    else { exclusion with reasons := userReasonsOf exclusion }

/-- One insertion step of the stable sort below: the inserted element goes
in front of the first element whose key is not strictly smaller, so
earlier elements precede later equal-keyed ones. -/
def insertByY (x : BoxNode) : List BoxNode → List BoxNode
  | [] => [x]
  | y :: ys => if ratLt y.position.y x.position.y then y :: insertByY x ys else x :: y :: ys

/-- Stable sort by `position.y` (insertion sort, matching the stable
`Array.prototype.sort` with comparator `a.position.y - b.position.y`). -/
def sortByY : List BoxNode → List BoxNode
  | [] => []
  | x :: xs => insertByY x (sortByY xs)

/-- Main-flow nodes: `column === 0`, sorted by `position.y`. -/
def getMainFlowNodes (g : GraphState) : List BoxNode :=
  sortByY ((g.nodes.map Prod.snd).filter (fun nd => nd.column = 0))

def childIdsAt (g : GraphState) (id : String) : List String :=
  ((alookup g.nodes id).map (fun nd => nd.childIds)).getD []

def initializeBranchChildren (g : GraphState) (parent : BoxNode) : GraphState :=
  let childIds := parent.childIds
  if childIds.length < 2 then g
  else
    match parent.n with
    | none => g
    | some n =>
      let childKeys := childIds.filter (fun cid => (alookup g.nodes cid).isSome)
      if childKeys.length = 0 then g
      else
        let childNodes := childKeys.filterMap (fun cid => alookup g.nodes cid)
        if childNodes.any (fun c => c.n.isSome) then g
        else
          let totalChildren : Int := (childKeys.length : Int)
          let baseShare := Int.fdiv n totalChildren
          let remStart := n - baseShare * totalChildren
          (childKeys.foldl
            (fun (acc : GraphState × Int) cid =>
              let value := if acc.2 > 0 then baseShare + 1 else baseShare
              let rem := if acc.2 > 0 then acc.2 - 1 else acc.2
              ({ acc.1 with
                  nodes := amodify acc.1.nodes cid (fun c => { c with n := some value }) },
                rem))
            (g, remStart)).1

/-- `rebalanceBranchAfterUpdate`: strict binary split. Setting
`countOverride := none` models the conditional `otherChild.countOverride =
undefined` (a no-op when it was already absent). -/
def rebalanceBranchAfterUpdate (g : GraphState) (parentId updatedChildId : String) :
    GraphState :=
  match alookup g.nodes parentId with
  | none => g
  | some parent =>
    if parent.childIds.length = 2 then
      match parent.n with
      | none => g
      | some pn =>
        match alookup g.nodes updatedChildId,
            parent.childIds.find? (fun i => ¬ i = updatedChildId) with
        | some updatedChild, some otherChildId =>
          if (alookup g.nodes otherChildId).isSome then
            let updatedValue := updatedChild.n.getD 0
            let remaining := pn - updatedValue
            { g with
              nodes := amodify g.nodes otherChildId (fun oc =>
                { oc with
                  n := some (if remaining ≥ 0 then remaining else 0),
                  countOverride := none }) }
          else g
        | _, _ => g
    else g

def modifyFirst (l : List α) (p : α → Bool) (f : α → α) : List α :=
  match l with
  | [] => []
  | x :: rest => if p x then f x :: rest else x :: modifyFirst rest p f

/-- `layoutGraphInPlace`: prune dangling `childIds` against the current
key set, then run the tree layout. -/
def layoutGraphInPlace (g : GraphState) : GraphState :=
  let keys := g.nodes.map Prod.fst
  let pruned := g.nodes.map
    (fun p => (p.1, { p.2 with childIds := p.2.childIds.filter (fun cid => keys.contains cid) }))
  { g with nodes := layoutTree pruned g.startNodeId }

def addNodeBelow (g : GraphState) (parentId newNodeId newIntervalId : String) :
    Except String GraphState :=
  if (alookup g.nodes parentId).isSome then
    let cloned := cloneGraph g
    let newNode : BoxNode :=
      { id := newNodeId, textLines := ["New step"], n := none,
        position := { x := 0, y := 0 }, column := 0, autoLocked := false,
        childIds := [] }
    let cloned := { cloned with nodes := ainsert cloned.nodes newNodeId newNode }
    let newIvl : Interval :=
      { id := newIntervalId, parentId := parentId, childId := newNodeId,
        exclusion := some createDefaultExclusion, delta := 0, arrow := true }
    let cloned := { cloned with intervals := ainsert cloned.intervals newIntervalId newIvl }
    let cloned := { cloned with
      nodes := amodify cloned.nodes parentId
        (fun p => { p with childIds := p.childIds ++ [newNodeId] }) }
    let cloned := { cloned with selectedId := some newNodeId }
    Except.ok (layoutGraphInPlace cloned)
  else Except.error ("Parent node " ++ parentId ++ " does not exist")

def updateNodeText (g : GraphState) (nodeId : String) (textLines : List String) :
    Except String GraphState :=
  let cloned := cloneGraph g
  match alookup cloned.nodes nodeId with
  | none => Except.error "Node not found"
  | some _ =>
    Except.ok { cloned with
      nodes := amodify cloned.nodes nodeId (fun nd => { nd with textLines := textLines }) }

def updateNodeCount (g : GraphState) (nodeId : String) (n : Option Int)
    (override : Option (Option String) := none) (skipBranchRebalance : Bool := false) :
    Except String GraphState :=
  let cloned := cloneGraph g
  match alookup cloned.nodes nodeId with
  | none => Except.error "Node not found"
  | some _ =>
    let cloned := { cloned with
      nodes := amodify cloned.nodes nodeId (fun nd =>
        { nd with
          n := n,
          countOverride := if override.isSome then override else nd.countOverride }) }
    let cloned :=
      if skipBranchRebalance then cloned
      else
        match getParentId cloned nodeId with
        | some parentId => rebalanceBranchAfterUpdate cloned parentId nodeId
        | none => cloned
    Except.ok cloned

def updateExclusionCount (g : GraphState) (intervalId : String) (n : Option Int)
    (override : Option (Option String) := none) : Except String GraphState :=
  let cloned := cloneGraph g
  match alookup cloned.intervals intervalId with
  | none => Except.error "Interval not found"
  | some _ =>
    Except.ok { cloned with
      intervals := amodify cloned.intervals intervalId (fun iv =>
        let ex := iv.exclusion.getD createDefaultExclusion
        { iv with
          exclusion := some
            { ex with
              total := n,
              totalOverride := if override.isSome then override else ex.totalOverride } }) }

def updatePhaseLabel (g : GraphState) (phaseId label : String) :
    Except String GraphState :=
  let cloned := cloneGraph g
  match cloned.phases.find? (fun ph => ph.id = phaseId) with
  | none => Except.error "Phase not found"
  | some _ =>
    Except.ok { cloned with
      phases := modifyFirst cloned.phases (fun ph => ph.id = phaseId)
        (fun ph => { ph with label := label }) }

def updateExclusionReasonCount (g : GraphState) (intervalId reasonId : String)
    (value : Option Int) (override : Option (Option String) := none)
    (freshId : String := "") : Except String GraphState :=
  let cloned := cloneGraph g
  match alookup cloned.intervals intervalId with
  | none => Except.error "Interval not found"
  | some iv =>
    match iv.exclusion with
    | none => Except.error "Exclusion box not found"
    | some ex =>
      match ex.reasons.find? (fun r => r.id = reasonId) with
      | none => Except.error "Reason not found"
      | some reason =>
        let ex1 :=
          { ex with
            reasons := modifyFirst ex.reasons (fun r => r.id = reasonId) (fun r =>
              { r with
                countOverride := if override.isSome then override else r.countOverride }) }
        if reason.kind = ExclusionReasonKind.auto then
          Except.ok { cloned with
            intervals := amodify cloned.intervals intervalId
              (fun iv => { iv with exclusion := some ex1 }) }
        else
          let ex2 :=
            { ex1 with
              reasons := modifyFirst ex1.reasons (fun r => r.id = reasonId)
                (fun r => { r with n := value }) }
          Except.ok { cloned with
            intervals := amodify cloned.intervals intervalId
              (fun iv => { iv with exclusion := some (ensureOtherReason freshId ex2) }) }

def removeExclusionReason (g : GraphState) (intervalId reasonId : String)
    (freshId : String := "") : Except String GraphState :=
  let cloned := cloneGraph g
  match alookup cloned.intervals intervalId with
  | none => Except.error "Interval not found"
  | some iv =>
    match iv.exclusion with
    | none => Except.error "Interval not found"
    | some ex =>
      let ex := { ex with reasons := ex.reasons.filter (fun r => ¬ r.id = reasonId) }
      Except.ok { cloned with
        intervals := amodify cloned.intervals intervalId
          (fun iv => { iv with exclusion := some (ensureOtherReason freshId ex) }) }

def toggleArrow (g : GraphState) (intervalId : String) : Except String GraphState :=
  let cloned := cloneGraph g
  match alookup cloned.intervals intervalId with
  | none => Except.error "Interval not found"
  | some _ =>
    Except.ok { cloned with
      intervals := amodify cloned.intervals intervalId
        (fun iv => { iv with arrow := ¬ iv.arrow }) }

/-- JS array indexing `arr[i]` with a possibly negative index: negative or
out-of-range indices read `undefined`. -/
def listGetInt (l : List α) (i : Int) : Option α :=
  if 0 ≤ i then l.get? i.toNat else none

/-- One step of the `reflowPhaseRanges` loop over `graph.phases`;
`previousEnd` and `index` are the loop-carried values. Produces an error
when the clamped index is negative, where the JS reads `.id` of
`undefined`. -/
def reflowGo (mainNodes : List BoxNode) (lastIndex : Int) (total : Nat) :
    List PhaseBox → Int → Nat → Except String (List PhaseBox)
  | [], _, _ => Except.ok []
  | ph :: rest, previousEnd, index =>
    let idxOf := fun (id : String) =>
      ((((mainNodes.map (fun nd => nd.id)).enum.filter (fun p => p.2 = id)).getLast?).map
        (fun p => (p.1 : Int)))
    let startIndex0 := (idxOf ph.startNodeId).getD 0
    let endIndex0 := (idxOf ph.endNodeId).getD lastIndex
    let startIndex1 := max 0 (min startIndex0 lastIndex)
    let endIndex1 := max startIndex1 (min endIndex0 lastIndex)
    let minStart := previousEnd + 1
    let startIndex2 := if startIndex1 < minStart then minStart else startIndex1
    let maxEndAllowed := lastIndex - ((total : Int) - (index : Int) - 1)
    let endIndex2 := if endIndex1 > maxEndAllowed then maxEndAllowed else endIndex1
    let startIndex3 := if startIndex2 > maxEndAllowed then maxEndAllowed else startIndex2
    let startIndex4 := if startIndex3 > endIndex2 then endIndex2 else startIndex3
    match listGetInt mainNodes startIndex4, listGetInt mainNodes endIndex2 with
    | some sNode, some eNode =>
      (reflowGo mainNodes lastIndex total rest endIndex2 (index + 1)).map
        (fun r => { ph with startNodeId := sNode.id, endNodeId := eNode.id } :: r)
    | _, _ => Except.error "TypeError: cannot read id of undefined"

/-- `reflowPhaseRanges` from `graph.ts`: clamp every phase range into a
monotone, non-overlapping run of main-flow indices. The JS crashes (reads
a property of `undefined`) when more phases remain than main-flow nodes;
that surfaces here as `Except.error`. -/
def reflowPhaseRanges (g : GraphState) (mainNodes : List BoxNode) :
    Except String GraphState :=
  if g.phases = [] then Except.ok g
  else
    let lastIndex : Int := (mainNodes.length : Int) - 1
    (reflowGo mainNodes lastIndex g.phases.length g.phases (-1) 0).map
      (fun phases => { g with phases := phases })

def normalizePhases (g : GraphState) : Except String GraphState :=
  let mainNodes := getMainFlowNodes g
  if mainNodes = [] then Except.ok { g with phases := [] }
  else reflowPhaseRanges g mainNodes

/-- `addPhase`: append a phase spanning from just after the last existing
phase to the end of the main flow, reflowing before and after. `phaseId`
stands for the generated `nanoid()`. -/
def addPhase (g : GraphState) (phaseId : String) : Except String GraphState :=
  let cloned := cloneGraph g
  let mainNodes := getMainFlowNodes cloned
  if mainNodes = [] then Except.ok cloned
  else
    let lastIndex := mainNodes.length - 1
    match reflowPhaseRanges cloned mainNodes with
    | Except.error e => Except.error e
    | Except.ok cloned =>
      let existingPhases := cloned.phases
      let idxOf := fun (id : String) =>
        ((((mainNodes.map (fun nd => nd.id)).enum.filter (fun p => p.2 = id)).getLast?).map
          (fun p => (p.1 : Int)))
      let lastExistingEnd : Int :=
        match existingPhases.getLast? with
        | some lastExisting => (idxOf lastExisting.endNodeId).getD (lastIndex : Int)
        | none => -1
      let newStartIndex : Int := min (lastIndex : Int) (max 0 (lastExistingEnd + 1))
      let nextIndex := existingPhases.length + 1
      match listGetInt mainNodes newStartIndex, listGetInt mainNodes (lastIndex : Int) with
      | some sNode, some eNode =>
        let newPhase : PhaseBox :=
          { id := phaseId, label := "Phase " ++ toString nextIndex,
            startNodeId := sNode.id, endNodeId := eNode.id }
        let cloned := { cloned with phases := existingPhases ++ [newPhase] }
        match reflowPhaseRanges cloned mainNodes with
        | Except.error e => Except.error e
        | Except.ok cloned => Except.ok { cloned with selectedId := some newPhase.id }
      | _, _ => Except.error "TypeError: cannot read id of undefined"

/-! ### Subtree removal -/

/-- The id universe that bounds the visited set of the removal DFS: all
node keys and all child references. -/
def collectUniverse (g : GraphState) : List String :=
  g.nodes.map Prod.fst ++ (g.nodes.map (fun p => p.2.childIds)).flatten

/-- The recursive `collect` of `removeNode`: depth-first traversal with a
visited list (`seen`, in insertion order). The fuel only bounds the
recursion depth; `collectFuel` below always suffices, so the function
computes exactly the JS fixpoint. -/
def collectGo (g : GraphState) : Nat → List String → String → List String
  | 0, seen, _ => seen
  | fuel + 1, seen, id =>
    if id ∈ seen then seen
    else (childIdsAt g id).foldl (collectGo g fuel) (seen ++ [id])

def collectFuel (g : GraphState) : Nat :=
  (collectUniverse g).length + 1

/-- Ids of the universe not yet visited: the measure that shows
`collectFuel` is enough fuel for the DFS. -/
def collectPending (g : GraphState) (seen : List String) : Nat :=
  ((collectUniverse g).filter (fun x => ¬ x ∈ seen)).length

def collectSubtree (g : GraphState) (nodeId : String) : List String :=
  collectGo g (collectFuel g) [] nodeId

/-- `removeNode` from `graph.ts`. -/
def removeNode (g : GraphState) (nodeId : String) : GraphState :=
  let cloned := cloneGraph g
  if cloned.startNodeId = some nodeId then cloned
  else
    let parentId := getParentId cloned nodeId
    let nodesToRemove := collectSubtree cloned nodeId
    let cloned := { cloned with
      intervals := cloned.intervals.filter
        (fun p => ¬ (p.2.childId ∈ nodesToRemove ∨ p.2.parentId ∈ nodesToRemove)) }
    let cloned := { cloned with
      nodes := cloned.nodes.filter (fun p => ¬ p.1 ∈ nodesToRemove) }
    let cloned :=
      match parentId with
      | some pid =>
        if (alookup cloned.nodes pid).isSome then
          { cloned with
            nodes := amodify cloned.nodes pid (fun p =>
              { p with childIds := p.childIds.filter (fun c => ¬ c ∈ nodesToRemove) }) }
        else cloned
      | none => cloned
    let cloned := { cloned with
      selectedId := match parentId with
        | some pid => some pid
        | none => cloned.startNodeId }
    layoutGraphInPlace cloned

/-! ### Recompute engine

`recomputeGraph` makes four passes. The `intervalMap` of the source maps
`parentId:childId` keys to the live interval objects; since neither ids nor
the `parentId`/`childId` fields change during recompute, a map read is a
lookup for the last interval entry with those endpoints in the current
state, which `ivlEntryFor` performs. -/

def ivlEntryFor (g : GraphState) (pid cid : String) : Option (String × Interval) :=
  (g.intervals.filter (fun p => p.2.parentId = pid ∧ p.2.childId = cid)).getLast?

/-- Pass 1, per interval: clear the exclusion of branch intervals; give
linear intervals a default exclusion and re-run the remainder rule. The
`Nat` component indexes the interval for the fresh-id supply. -/
def recomputeExcStep (fresh : Nat → String) (g : GraphState) (ik : Nat × String) :
    GraphState :=
  match alookup g.intervals ik.2 with
  | none => g
  | some iv =>
    let parentChildren := childIdsAt g iv.parentId
    if parentChildren.length > 1 then
      { g with
        intervals := amodify g.intervals ik.2 (fun iv => { iv with exclusion := none }) }
    else
      let ex := iv.exclusion.getD createDefaultExclusion
      { g with
        intervals := amodify g.intervals ik.2 (fun iv =>
          { iv with exclusion := some (ensureOtherReason (fresh ik.1) ex) }) }

/-- Pass 2, per node: first-time even split of branch children. -/
def recomputeInitStep (settings : AppSettings) (g : GraphState) (k : String) :
    GraphState :=
  match alookup g.nodes k with
  | none => g
  | some node =>
    if node.childIds.length > 1 ∧ ¬ settings.freeEdit then
      initializeBranchChildren g node
    else g

/-- Pass 3 (auto-calc only), per node: fill the last branch child with the
non-negative remainder of the parent count. -/
def recomputeLastFillStep (g : GraphState) (k : String) : GraphState :=
  match alookup g.nodes k with
  | none => g
  | some node =>
    let childIds := node.childIds
    if childIds.length > 1 then
      match node.n with
      | none => g
      | some n =>
        match childIds.getLast? with
        | none => g
        | some lastChildId =>
          let remaining := childIds.dropLast.foldl
            (fun rem cid =>
              let exclusionValue :=
                ((((ivlEntryFor g node.id cid).map Prod.snd).bind
                  (fun iv => iv.exclusion)).bind (fun ex => ex.total)).getD 0
              let childN := ((alookup g.nodes cid).bind (fun c => c.n)).getD 0
              rem - (childN + exclusionValue)) n
          match alookup g.nodes lastChildId with
          | none => g
          | some lastChildNode =>
            match lastChildNode.n with
            | some _ => g
            | none =>
              let adjustment :=
                ((((ivlEntryFor g node.id lastChildId).map Prod.snd).bind
                  (fun iv => iv.exclusion)).bind (fun ex => ex.total)).getD 0
              let value := remaining - adjustment
              if value ≥ 0 then
                { g with
                  nodes := amodify g.nodes lastChildId
                    (fun c => { c with n := some value }) }
              else g
    else g

/-- Pass 4, per node with children: re-run the branch split if needed,
broadcast the branch delta, or handle the linear two-way inference and
per-interval delta. The `TypeError`s of the JS (`exclusion.total = …` on an
`undefined` exclusion, `childNode.n = …` on a missing child) surface as
errors. -/
def recomputeDeltaStep (settings : AppSettings) (g : GraphState) (k : String) :
    Except String GraphState :=
  match alookup g.nodes k with
  | none => Except.ok g
  | some parentNode =>
    let childIds := parentNode.childIds
    if childIds = [] then Except.ok g
    else if childIds.length > 1 then
      let g1 := if ¬ settings.freeEdit then initializeBranchChildren g parentNode else g
      let parentValue := ((alookup g1.nodes k).bind (fun nd => nd.n)).getD 0
      let entries := childIds.filterMap (fun cid => ivlEntryFor g1 parentNode.id cid)
      let totalChildren := entries.foldl
        (fun acc e =>
          acc + (((alookup g1.nodes e.2.childId).bind (fun c => c.n)).getD 0)) 0
      let diff := parentValue - totalChildren
      Except.ok (entries.foldl
        (fun gg e =>
          { gg with
            intervals := amodify gg.intervals e.1 (fun iv => { iv with delta := diff }) })
        g1)
    else
      match childIds.head? with
      | none => Except.ok g
      | some childId =>
        match ivlEntryFor g parentNode.id childId with
        | none => Except.ok g
        | some (ik, iv) =>
          let childN := (alookup g.nodes childId).bind (fun c => c.n)
          let inferred : Except String GraphState :=
            match parentNode.n with
            | some pn =>
              if settings.autoCalc ∧ ¬ settings.freeEdit then
                if (iv.exclusion.bind (fun ex => ex.total)).isNone ∧ childN.isSome then
                  match iv.exclusion with
                  | none => Except.error "TypeError: cannot set total of undefined"
                  | some _ =>
                    let diff := pn - childN.getD 0
                    Except.ok { g with
                      intervals := amodify g.intervals ik (fun iv =>
                        { iv with
                          exclusion := iv.exclusion.map (fun ex =>
                            { ex with total := if diff > 0 then some diff else none }) }) }
                else if (iv.exclusion.bind (fun ex => ex.total)).isSome ∧ childN.isNone then
                  match iv.exclusion.bind (fun ex => ex.total) with
                  | some t =>
                    if (alookup g.nodes childId).isSome then
                      Except.ok { g with
                        nodes := amodify g.nodes childId
                          (fun c => { c with n := some (pn - t) }) }
                    else Except.error "TypeError: cannot set n of undefined"
                  | none => Except.ok g
                else Except.ok g
              else Except.ok g
            | none => Except.ok g
          match inferred with
          | Except.error e => Except.error e
          | Except.ok g2 =>
            let exclusionValue :=
              (((alookup g2.intervals ik).bind (fun iv => iv.exclusion)).bind
                (fun ex => ex.total)).getD 0
            let childValue := ((alookup g2.nodes childId).bind (fun c => c.n)).getD 0
            let parentValue := ((alookup g2.nodes k).bind (fun nd => nd.n)).getD 0
            Except.ok { g2 with
              intervals := amodify g2.intervals ik (fun iv =>
                { iv with delta := parentValue - (childValue + exclusionValue) }) }

/-- Pass 1 of `recomputeGraph`: the `Object.entries(intervals)` loop. -/
def recomputePassA (fresh : Nat → String) (g : GraphState) : GraphState :=
  (g.intervals.map Prod.fst).enum.foldl (recomputeExcStep fresh) g

/-- Pass 2 of `recomputeGraph`: the first `Object.values(nodes)` loop. -/
def recomputePassB (settings : AppSettings) (g : GraphState) : GraphState :=
  (g.nodes.map Prod.fst).foldl (recomputeInitStep settings) g

/-- Pass 3 of `recomputeGraph` (auto-calc only): the last-child fill loop. -/
def recomputePassC (settings : AppSettings) (g : GraphState) : GraphState :=
  if settings.autoCalc ∧ ¬ settings.freeEdit then
    (g.nodes.map Prod.fst).foldl recomputeLastFillStep g
  else g

/-- `recomputeGraph` from `graph.ts`. `fresh` supplies the `nanoid()`
results for auto reasons created in pass 1, indexed by interval position. -/
def recomputeGraph (g : GraphState) (settings : AppSettings) (fresh : Nat → String) :
    Except String GraphState :=
  let cloned := cloneGraph g
  let g3 := recomputePassC settings (recomputePassB settings (recomputePassA fresh cloned))
  match (g3.nodes.map Prod.fst).foldlM (recomputeDeltaStep settings) g3 with
  | Except.error e => Except.error e
  | Except.ok g4 => normalizePhases (layoutGraphInPlace g4)

/-- `createInitialGraph`; `startId` stands for the generated `nanoid()`. -/
def createInitialGraph (startId : String) : GraphState :=
  { nodes := [(startId,
      { id := startId, textLines := ["Start"], n := some 0,
        position := { x := 0, y := 0 }, column := 0, autoLocked := false,
        childIds := [] })],
    intervals := [], phases := [],
    startNodeId := some startId, selectedId := some startId }

/-- Spec-side formulation of the even split of claim C4, written from the
claim's words: floor of `n / m` plus one extra unit for the first
`n mod m` children. Compared against the iterative fold of
`initializeBranchChildren`. -/
def evenSplitValue (n : Int) (m : Nat) (i : Nat) : Int :=
  Int.fdiv n m + (if (i : Int) < n - Int.fdiv n m * m then 1 else 0)

/-- Frame facts of one `recomputeDeltaStep` call at key `k` taking the
state `g` to `h2` (a proof-device predicate, not program code): keys are
unchanged on both maps, nodes outside `k`'s children are untouched, a
defined count is never overwritten, records keep their identity fields,
and (given unique interval keys and consistent node ids) intervals of
other parents are untouched. -/
def DSPack (g : GraphState) (k : String) (h2 : GraphState) : Prop :=
  h2.nodes.map Prod.fst = g.nodes.map Prod.fst ∧
  h2.intervals.map Prod.fst = g.intervals.map Prod.fst ∧
  (∀ x, ¬ x ∈ childIdsAt g k → alookup h2.nodes x = alookup g.nodes x) ∧
  (∀ x nd v, alookup g.nodes x = some nd → nd.n = some v → alookup h2.nodes x = some nd) ∧
  (∀ pr, pr ∈ h2.nodes → ∃ pr0 ∈ g.nodes, pr.1 = pr0.1 ∧ pr.2.id = pr0.2.id ∧
    pr.2.childIds = pr0.2.childIds) ∧
  (∀ pr, pr ∈ h2.intervals → ∃ pr0 ∈ g.intervals, pr.1 = pr0.1 ∧
    pr.2.parentId = pr0.2.parentId ∧ pr.2.childId = pr0.2.childId) ∧
  ((g.intervals.map Prod.fst).Nodup → (∀ nd, alookup g.nodes k = some nd → nd.id = k) →
    ∀ j jv, alookup g.intervals j = some jv → jv.parentId ≠ k →
      alookup h2.intervals j = some jv)

/-- Proof-device invariant for the even-split argument (claim C4): the
designated parent still has its child list and count, the children are
still null, and no other node lists one of the children. -/
def C4Inv (p : String) (cids : List String) (n : Int) (h : GraphState) : Prop :=
  (∃ P2, alookup h.nodes p = some P2 ∧ P2.childIds = cids ∧ P2.n = some n) ∧
  (∀ c ∈ cids, ∃ C, alookup h.nodes c = some C ∧ C.n = none) ∧
  (∀ pr ∈ h.nodes, pr.1 ≠ p → ∀ c ∈ cids, ¬ c ∈ pr.2.childIds)

/-- Proof-device predicate: each child of the designated parent carries
its even-split value. -/
def childrenAssigned (cids : List String) (n : Int) (h : GraphState) : Prop :=
  ∀ (i : Nat) (c : String), cids.get? i = some c →
    ∃ C, alookup h.nodes c = some C ∧ C.n = some (evenSplitValue n cids.length i)

/-- Concrete branch scenario for the C4 witness: parent of 100 with two
null children. -/
def splitNodeP : BoxNode :=
  { id := "p", textLines := ["Start"], n := some 100, position := { x := 0, y := 0 },
    column := 0, autoLocked := false, childIds := ["a", "b"] }

def splitNodeA : BoxNode :=
  { id := "a", textLines := ["A"], n := none, position := { x := 0, y := 0 },
    column := 0, autoLocked := false, childIds := [] }

def splitNodeB : BoxNode :=
  { id := "b", textLines := ["B"], n := none, position := { x := 0, y := 0 },
    column := 0, autoLocked := false, childIds := [] }

def splitIvlA : Interval :=
  { id := "ivA", parentId := "p", childId := "a",
    exclusion := some createDefaultExclusion, delta := 0, arrow := true }

def splitIvlB : Interval :=
  { id := "ivB", parentId := "p", childId := "b",
    exclusion := some createDefaultExclusion, delta := 0, arrow := true }

def gSplit : GraphState :=
  { nodes := [("p", splitNodeP), ("a", splitNodeA), ("b", splitNodeB)],
    intervals := [("ivA", splitIvlA), ("ivB", splitIvlB)], phases := [],
    startNodeId := some "p", selectedId := some "p" }

def c4settings : AppSettings :=
  { autoCalc := true, arrowsGlobal := true, countFormat := CountFormat.upper,
    freeEdit := false }

def c4fresh (i : Nat) : String := String.append "c4auto" (toString i)

/-- Proof-device invariant for the last-child fill argument (claim C5):
the designated parent keeps its child list, count and id, the last child
still carries its original (null-count) record, the earlier children still
carry their original defined records, and no other node lists one of the
children. -/
def C5Inv (p : String) (cids : List String) (cl : String) (CL : BoxNode) (n : Int)
    (g : GraphState) (h : GraphState) : Prop :=
  (∃ P2, alookup h.nodes p = some P2 ∧ P2.childIds = cids ∧ P2.n = some n ∧
    P2.id = p) ∧
  alookup h.nodes cl = some CL ∧
  (∀ c ∈ cids.dropLast, ∃ C v, alookup g.nodes c = some C ∧ C.n = some v ∧
    alookup h.nodes c = some C) ∧
  (∀ pr ∈ h.nodes, pr.1 ≠ p → ∀ c ∈ cids, ¬ c ∈ pr.2.childIds)

/-- The count of node `x` in the graph of a successful result. -/
def okNodeN (e : Except String GraphState) (x : String) : Option (Option Int) :=
  match e with
  | Except.error _ => none
  | Except.ok g2 => (alookup g2.nodes x).map (fun nd => nd.n)

/-- Concrete branch scenario refuting the literal C5: the unset child `a`
is not the last one. -/
def wideNodeP : BoxNode :=
  { id := "p", textLines := ["Start"], n := some 100, position := { x := 0, y := 0 },
    column := 0, autoLocked := false, childIds := ["a", "b", "c"] }

def wideNodeA : BoxNode :=
  { id := "a", textLines := ["A"], n := none, position := { x := 0, y := 0 },
    column := 0, autoLocked := false, childIds := [] }

def wideNodeB : BoxNode :=
  { id := "b", textLines := ["B"], n := some 30, position := { x := 0, y := 0 },
    column := 0, autoLocked := false, childIds := [] }

def wideNodeC : BoxNode :=
  { id := "c", textLines := ["C"], n := some 40, position := { x := 0, y := 0 },
    column := 0, autoLocked := false, childIds := [] }

def wideIvlA : Interval :=
  { id := "ivA", parentId := "p", childId := "a",
    exclusion := some createDefaultExclusion, delta := 0, arrow := true }

def wideIvlB : Interval :=
  { id := "ivB", parentId := "p", childId := "b",
    exclusion := some createDefaultExclusion, delta := 0, arrow := true }

def wideIvlC : Interval :=
  { id := "ivC", parentId := "p", childId := "c",
    exclusion := some createDefaultExclusion, delta := 0, arrow := true }

def gWide : GraphState :=
  { nodes := [("p", wideNodeP), ("a", wideNodeA), ("b", wideNodeB), ("c", wideNodeC)],
    intervals := [("ivA", wideIvlA), ("ivB", wideIvlB), ("ivC", wideIvlC)], phases := [],
    startNodeId := some "p", selectedId := some "p" }

/-- Concrete branch scenario for the amended C5: the unset child `c` is
the last one and receives 100 - (30 + 40) = 30. -/
def fillNodeP : BoxNode :=
  { id := "p", textLines := ["Start"], n := some 100, position := { x := 0, y := 0 },
    column := 0, autoLocked := false, childIds := ["a", "b", "c"] }

def fillNodeA : BoxNode :=
  { id := "a", textLines := ["A"], n := some 30, position := { x := 0, y := 0 },
    column := 0, autoLocked := false, childIds := [] }

def fillNodeB : BoxNode :=
  { id := "b", textLines := ["B"], n := some 40, position := { x := 0, y := 0 },
    column := 0, autoLocked := false, childIds := [] }

def fillNodeC : BoxNode :=
  { id := "c", textLines := ["C"], n := none, position := { x := 0, y := 0 },
    column := 0, autoLocked := false, childIds := [] }

def gWideFill : GraphState :=
  { nodes := [("p", fillNodeP), ("a", fillNodeA), ("b", fillNodeB), ("c", fillNodeC)],
    intervals := [("ivA", wideIvlA), ("ivB", wideIvlB), ("ivC", wideIvlC)], phases := [],
    startNodeId := some "p", selectedId := some "p" }

/-- Proof-device invariant for the linear two-way inference (claim C1),
holding up to the designated pass-4 step: the parent and child keep their
original records, the designated interval keeps its parent/child links and
original total behind a present exclusion, interval keys stay unique, the
designated key holds the only interval of parent `p`, node ids match their
keys, and no other node lists the child. -/
def C1Inv (p c ik0 : String) (P C : BoxNode) (T : Option Int) (h : GraphState) : Prop :=
  alookup h.nodes p = some P ∧
  alookup h.nodes c = some C ∧
  (∃ iv1, alookup h.intervals ik0 = some iv1 ∧ iv1.parentId = p ∧ iv1.childId = c ∧
    iv1.exclusion.isSome = true ∧ iv1.exclusion.bind (fun e2 => e2.total) = T) ∧
  (h.intervals.map Prod.fst).Nodup ∧
  (∀ pr ∈ h.intervals, pr.2.parentId = p → pr.1 = ik0) ∧
  (∀ pr ∈ h.nodes, pr.2.id = pr.1) ∧
  (∀ pr ∈ h.nodes, pr.1 ≠ p → ¬ c ∈ pr.2.childIds)

/-- Proof-device invariant after the designated pass-4 step (claim C1):
the designated interval keeps its exact value and the child its count. -/
def C1Post (c ik0 : String) (iv2 : Interval) (w : Int) (h : GraphState) : Prop :=
  alookup h.intervals ik0 = some iv2 ∧
  (h.intervals.map Prod.fst).Nodup ∧
  (∀ pr ∈ h.nodes, pr.2.id = pr.1) ∧
  (∃ C2, alookup h.nodes c = some C2 ∧ C2.n = some w)

/-- The total and delta of interval `j` in the graph of a successful
result. -/
def okIvlTD (e : Except String GraphState) (j : String) : Option (Option Int × Int) :=
  match e with
  | Except.error _ => none
  | Except.ok g2 =>
    (alookup g2.intervals j).map (fun iv => (iv.exclusion.bind (fun e2 => e2.total), iv.delta))

/-- Concrete linear scenario refuting the literal C1: parent 5, child 7,
total unset; the difference is negative, so no total is inferred and the
delta is -2. -/
def linC1NodeP : BoxNode :=
  { id := "p", textLines := ["Start"], n := some 5, position := { x := 0, y := 0 },
    column := 0, autoLocked := false, childIds := ["c"] }

def linC1NodeC : BoxNode :=
  { id := "c", textLines := ["C"], n := some 7, position := { x := 0, y := 0 },
    column := 0, autoLocked := false, childIds := [] }

def linC1Ivl : Interval :=
  { id := "iv", parentId := "p", childId := "c",
    exclusion := some createDefaultExclusion, delta := 0, arrow := true }

def gLinC1 : GraphState :=
  { nodes := [("p", linC1NodeP), ("c", linC1NodeC)],
    intervals := [("iv", linC1Ivl)], phases := [],
    startNodeId := some "p", selectedId := some "p" }

/-- Concrete linear scenario for the amended C1: parent 10, child 7,
total unset; the inferred total is 3 and the delta 0. -/
def linC1FNodeP : BoxNode :=
  { id := "p", textLines := ["Start"], n := some 10, position := { x := 0, y := 0 },
    column := 0, autoLocked := false, childIds := ["c"] }

def linC1FNodeC : BoxNode :=
  { id := "c", textLines := ["C"], n := some 7, position := { x := 0, y := 0 },
    column := 0, autoLocked := false, childIds := [] }

def gLinC1F : GraphState :=
  { nodes := [("p", linC1FNodeP), ("c", linC1FNodeC)],
    intervals := [("iv", linC1Ivl)], phases := [],
    startNodeId := some "p", selectedId := some "p" }

/-- Spec-side formulation of the grouping contract, written from the
spec's words ("an integer is grouped with a single separator character
every three digits from the right"): given the digit characters in reverse
(least significant first), take chunks of three from the right and join
them with single separators. Used only to compare with `formatInteger`. -/
def groupedEveryThreeFromRight (rev : List Char) : List Char :=
  if rev.length ≤ 3 then rev.reverse
  else groupedEveryThreeFromRight (rev.drop 3) ++ ' ' :: (rev.take 3).reverse
termination_by rev.length
decreasing_by
  simp only [List.length_drop]
  omega

def reasonExampleC3 : ExclusionReason :=
  { id := "u1", label := "", n := some 40, kind := ExclusionReasonKind.user }

def exclusionExampleC3 : ExclusionBox :=
  { label := "Excluded", total := some 150, reasons := [reasonExampleC3] }

/-- Concrete binary-branch graph: parent with count 100 and two children
with counts 50/50, one interval per child. -/
def branchNodeP : BoxNode :=
  { id := "p", textLines := ["Start"], n := some 100, position := { x := 0, y := 0 },
    column := 0, autoLocked := false, childIds := ["a", "b"] }

def branchNodeA : BoxNode :=
  { id := "a", textLines := ["A"], n := some 50, position := { x := 0, y := 0 },
    column := 0, autoLocked := false, childIds := [] }

def branchNodeB : BoxNode :=
  { id := "b", textLines := ["B"], n := some 50, position := { x := 0, y := 0 },
    column := 0, autoLocked := false, childIds := [] }

def branchIvlA : Interval :=
  { id := "iv1", parentId := "p", childId := "a", exclusion := none,
    delta := 0, arrow := true }

def branchIvlB : Interval :=
  { id := "iv2", parentId := "p", childId := "b", exclusion := none,
    delta := 0, arrow := true }

def gBranch : GraphState :=
  { nodes := [("p", branchNodeP), ("a", branchNodeA), ("b", branchNodeB)],
    intervals := [("iv1", branchIvlA), ("iv2", branchIvlB)],
    phases := [], startNodeId := some "p", selectedId := none }

/-- The same branch with a negative parent count, used to refute the claim
that a null edit always hands the sibling the full parent count. -/
def gBranchNeg : GraphState :=
  { nodes := [("p", { branchNodeP with n := some (-1) }),
      ("a", branchNodeA), ("b", branchNodeB)],
    intervals := [("iv1", branchIvlA), ("iv2", branchIvlB)],
    phases := [], startNodeId := some "p", selectedId := none }

/-! ## Missing-id mutations (claim C9) -/

/-- Concrete linear graph: start node with count 200, one child with count
100, a single interval with a default exclusion box. -/
def linNodeP : BoxNode :=
  { id := "p", textLines := ["Start"], n := some 200, position := { x := 0, y := 0 },
    column := 0, autoLocked := false, childIds := ["c"] }

def linNodeC : BoxNode :=
  { id := "c", textLines := ["New step"], n := some 100, position := { x := 0, y := 184 },
    column := 0, autoLocked := false, childIds := [] }

def linIvl : Interval :=
  { id := "iv1", parentId := "p", childId := "c",
    exclusion := some createDefaultExclusion, delta := 0, arrow := true }

def gLinear : GraphState :=
  { nodes := [("p", linNodeP), ("c", linNodeC)],
    intervals := [("iv1", linIvl)],
    phases := [], startNodeId := some "p", selectedId := none }

/-! ## Recompute totality (claim C6)

The spec promises that recompute never fails, but a state reachable through
the public mutations crashes it: grow the main flow to three nodes, add
three phases (one per node), then remove the last node. `removeNode` does
not reflow phases, so three phases survive with two main-flow nodes; the
next `recomputeGraph` runs `reflowPhaseRanges`, computes
`maxEndAllowed = -1` for the first phase, clamps its indices to `-1` and
reads `mainNodes[-1].id` - a TypeError in JS, an error here. -/

def c6Settings : AppSettings :=
  { autoCalc := true, arrowsGlobal := true, countFormat := CountFormat.upper,
    freeEdit := false }

def c6Fresh (i : Nat) : String :=
  String.append "autoReason" (toString i)

/-- The reachable pre-crash state: three main nodes, three phases, then
the last node removed. -/
def c6State : Except String GraphState :=
  (updateNodeCount (createInitialGraph "start") "start" (some 200)).bind (fun g1 =>
  (addNodeBelow g1 "start" "n1" "iv1").bind (fun g2 =>
  (addNodeBelow g2 "n1" "n2" "iv2").bind (fun g3 =>
  (addPhase g3 "ph1").bind (fun g4 =>
  (addPhase g4 "ph2").bind (fun g5 =>
  (addPhase g5 "ph3").map (fun g6 =>
  removeNode g6 "n2"))))))

def exceptErr (e : Except String GraphState) : Option String :=
  match e with
  | Except.error s => some s
  | Except.ok _ => none

@[simp] theorem alookup_nil (k : String) : alookup ([] : List (String × α)) k = none := rfl

theorem alookup_cons (p : String × α) (l : List (String × α)) (k : String) :
    alookup (p :: l) k = if p.1 = k then some p.2 else alookup l k := by
  by_cases h : p.1 = k <;> simp [alookup, List.find?_cons, h]

theorem alookup_amodify (l : List (String × α)) (k k' : String) (f : α → α) :
    alookup (amodify l k f) k' =
      if k' = k then (alookup l k').map f else alookup l k' := by
  induction l with
  | nil => by_cases hk : k' = k <;> simp [amodify, hk]
  | cons p t ih =>
    obtain ⟨a, b⟩ := p
    rcases eq_or_ne a k with hak | hak
    · rcases eq_or_ne k' k with hk | hk
      · have hak' : a = k' := by rw [hak, hk]
        simp [amodify, alookup_cons, hak, hk, hak']
      · have hkk' : ¬ k = k' := fun h => hk h.symm
        simpa [amodify, alookup_cons, hak, hk, hkk'] using ih
    · rcases eq_or_ne k' k with hk | hk
      · have hak' : ¬ a = k' := by rw [hk]; exact hak
        simpa [amodify, alookup_cons, hak, hk, hak'] using ih
      · rcases eq_or_ne a k' with hak' | hak' <;>
        · rw [show amodify ((a, b) :: t) k f = (a, b) :: amodify t k f by simp [amodify, hak]]
          rw [alookup_cons, alookup_cons]
          simp [hak', ih, hk]

theorem alookup_amodify_self (l : List (String × α)) (k : String) (f : α → α) :
    alookup (amodify l k f) k = (alookup l k).map f := by
  simp [alookup_amodify]

theorem alookup_amodify_ne (l : List (String × α)) (k k' : String) (f : α → α)
    (h : k' ≠ k) : alookup (amodify l k f) k' = alookup l k' := by
  simp [alookup_amodify, h]

theorem amodify_keys (l : List (String × α)) (k : String) (f : α → α) :
    (amodify l k f).map Prod.fst = l.map Prod.fst := by
  induction l with
  | nil => rfl
  | cons p t ih =>
    by_cases hp : p.1 = k <;> simp [amodify, hp] at ih ⊢ <;> simpa using ih

/-! ## Lemmas about the number formatting (claim C8) -/

theorem digitChar_isDigit (d : Nat) (h : d < 10) : (Char.ofNat (48 + d)).isDigit = true := by
  interval_cases d <;> decide

theorem digitChar_toNat (d : Nat) (h : d < 10) : (Char.ofNat (48 + d)).toNat = 48 + d := by
  interval_cases d <;> decide

theorem natDigitsGo_eq (fuel : Nat) : ∀ (n : Nat) (acc : List Char), n < fuel →
    natDigitsGo fuel n acc =
      (if n = 0 then ['0']
       else (Nat.digits 10 n).reverse.map (fun d => Char.ofNat (48 + d))) ++ acc := by
  induction fuel with
  | zero => intro n acc h; omega
  | succ f ih =>
    intro n acc h
    by_cases h10 : n < 10
    · by_cases h0 : n = 0
      · subst h0
        simp [natDigitsGo]
      · have hpos : 0 < n := Nat.pos_of_ne_zero h0
        have hdig : Nat.digits 10 n = [n] := by
          rw [Nat.digits_def' (by norm_num) hpos]
          have hmod : n % 10 = n := Nat.mod_eq_of_lt h10
          have hdiv : n / 10 = 0 := Nat.div_eq_of_lt h10
          rw [hmod, hdiv]
          simp
        simp [natDigitsGo, h10, h0, hdig]
    · have hge : 10 ≤ n := Nat.le_of_not_lt h10
      have hne : ¬ n = 0 := by omega
      have hdivlt : n / 10 < f := by
        have h1 : n / 10 < n := Nat.div_lt_self (by omega) (by norm_num)
        omega
      have hdivne : ¬ n / 10 = 0 := by
        have := Nat.div_pos hge (by norm_num : 0 < 10)
        omega
      simp only [natDigitsGo, if_neg h10]
      rw [ih (n / 10) _ hdivlt, if_neg hdivne]
      conv_rhs =>
        rw [if_neg hne, Nat.digits_def' (b := 10) (by norm_num) (by omega)]
      simp

theorem natDigitsChars_eq (n : Nat) :
    natDigitsChars n =
      (if n = 0 then ['0']
       else (Nat.digits 10 n).reverse.map (fun d => Char.ofNat (48 + d))) := by
  have h := natDigitsGo_eq (n + 1) n [] (by omega)
  simpa [natDigitsChars] using h

theorem natDigitsChars_ne_nil (n : Nat) : natDigitsChars n ≠ [] := by
  rw [natDigitsChars_eq]
  split
  · simp
  · next h =>
    simp [Nat.digits_ne_nil_iff_ne_zero.mpr h]

theorem natDigitsChars_all_digit (n : Nat) :
    ∀ c ∈ natDigitsChars n, c.isDigit = true := by
  rw [natDigitsChars_eq]
  split
  · intro c hc
    simp at hc
    subst hc
    decide
  · intro c hc
    simp only [List.mem_map, List.mem_reverse] at hc
    obtain ⟨d, hd, rfl⟩ := hc
    exact digitChar_isDigit d (Nat.digits_lt_base (by norm_num) hd)

theorem foldl_digitsVal (l : List Nat) (h : ∀ d ∈ l, d < 10) : ∀ (acc : Nat),
    List.foldl (fun a c => 10 * a + (c.toNat - 48)) acc
        (l.map (fun d => Char.ofNat (48 + d)))
      = acc * 10 ^ l.length + Nat.ofDigits 10 l.reverse := by
  induction l with
  | nil => intro acc; simp [Nat.ofDigits]
  | cons d rest ih =>
    intro acc
    simp only [List.map_cons, List.foldl_cons]
    rw [digitChar_toNat d (h d (by simp))]
    have hstep : 10 * acc + (48 + d - 48) = 10 * acc + d := by omega
    rw [hstep, ih (fun x hx => h x (by simp [hx]))]
    rw [List.reverse_cons, Nat.ofDigits_append]
    simp only [Nat.ofDigits_singleton, List.length_reverse, List.length_cons]
    ring

theorem digitsVal_natDigitsChars (n : Nat) : digitsVal (natDigitsChars n) = n := by
  rw [natDigitsChars_eq]
  split
  · next h => subst h; decide
  · next h =>
    have hlt : ∀ d ∈ (Nat.digits 10 n).reverse, d < 10 := by
      intro d hd
      exact Nat.digits_lt_base (by norm_num) (List.mem_reverse.mp hd)
    unfold digitsVal
    rw [foldl_digitsVal _ hlt 0]
    simp [Nat.ofDigits_digits]

theorem groupLoop_append (sep : Char) : ∀ (rev : List Char) (counter : Nat)
    (out extra : List Char),
    groupLoop sep rev counter (out ++ extra) = groupLoop sep rev counter out ++ extra := by
  intro rev
  induction rev with
  | nil => intro counter out extra; simp [groupLoop]
  | cons c rest ih =>
    intro counter out extra
    by_cases hb : counter + 1 = 3 ∧ rest ≠ []
    · rw [groupLoop, if_pos hb,
        show sep :: c :: (out ++ extra) = (sep :: c :: out) ++ extra from rfl,
        ih 0 (sep :: c :: out) extra]
      conv_rhs => rw [groupLoop, if_pos hb]
    · rw [groupLoop, if_neg hb, show c :: (out ++ extra) = (c :: out) ++ extra from rfl,
        ih (counter + 1) (c :: out) extra]
      conv_rhs => rw [groupLoop, if_neg hb]

theorem groupLoop_filter (P : Char → Bool) (sep : Char) (hsep : P sep = false) :
    ∀ (rev : List Char) (counter : Nat) (out : List Char),
      (∀ c ∈ rev, P c = true) →
      (groupLoop sep rev counter out).filter P = rev.reverse ++ out.filter P := by
  intro rev
  induction rev with
  | nil => intro counter out hall; simp [groupLoop]
  | cons c rest ih =>
    intro counter out hall
    have hc : P c = true := hall c (by simp)
    have hrest : ∀ x ∈ rest, P x = true := fun x hx => hall x (by simp [hx])
    by_cases hb : counter + 1 = 3 ∧ rest ≠ []
    · rw [groupLoop, if_pos hb, ih 0 (sep :: c :: out) hrest]
      simp [List.filter_cons, hsep, hc]
    · rw [groupLoop, if_neg hb, ih (counter + 1) (c :: out) hrest]
      simp [List.filter_cons, hc]

theorem groupLoop_getLast (sep c : Char) (rest : List Char) (counter : Nat) :
    (groupLoop sep (c :: rest) counter []).getLast? = some c := by
  by_cases hb : counter + 1 = 3 ∧ rest ≠ []
  · rw [groupLoop, if_pos hb,
      show (sep :: c :: [] : List Char) = [] ++ ([sep] ++ [c]) from rfl,
      groupLoop_append sep rest 0 [] ([sep] ++ [c])]
    rw [show groupLoop sep rest 0 [] ++ ([sep] ++ [c])
        = (groupLoop sep rest 0 [] ++ [sep]) ++ [c] by simp]
    exact List.getLast?_concat _
  · rw [groupLoop, if_neg hb,
      show (c :: [] : List Char) = [] ++ [c] from rfl,
      groupLoop_append sep rest (counter + 1) [] [c]]
    exact List.getLast?_concat _

theorem groupLoop_eq_grouped : ∀ (N : Nat) (rev : List Char), rev.length ≤ N →
    groupLoop ' ' rev 0 [] = groupedEveryThreeFromRight rev := by
  intro N
  induction N with
  | zero =>
    intro rev h
    have : rev = [] := List.length_eq_zero.mp (Nat.le_zero.mp h)
    subst this
    simp [groupLoop, groupedEveryThreeFromRight]
  | succ N ih =>
    intro rev h
    match rev with
    | [] => simp [groupLoop, groupedEveryThreeFromRight]
    | [a] => simp [groupLoop, groupedEveryThreeFromRight]
    | [a, b] => simp [groupLoop, groupedEveryThreeFromRight]
    | [a, b, c] => simp [groupLoop, groupedEveryThreeFromRight]
    | a :: b :: c :: d :: rest =>
      have hne : (d :: rest : List Char) ≠ [] := by simp
      have hstep : groupLoop ' ' (a :: b :: c :: d :: rest) 0 []
          = groupLoop ' ' (d :: rest) 0 [] ++ [' ', c, b, a] := by
        rw [groupLoop, if_neg (by simp)]
        rw [groupLoop, if_neg (by simp)]
        rw [groupLoop, if_pos ⟨rfl, hne⟩]
        rw [show (' ' :: c :: [b, a] : List Char) = [] ++ [' ', c, b, a] from rfl,
          groupLoop_append ' ' (d :: rest) 0 [] [' ', c, b, a]]
        simp
      rw [hstep]
      have hlen : (d :: rest : List Char).length ≤ N := by
        simp at h ⊢
        omega
      rw [ih (d :: rest) hlen]
      have hlong : ¬ (a :: b :: c :: d :: rest : List Char).length ≤ 3 := by
        simp
      conv_rhs => rw [groupedEveryThreeFromRight]
      rw [if_neg hlong]
      simp

theorem isDigit_not_ws (c : Char) (h : c.isDigit = true) : isJsWs c = false := by
  simp only [isJsWs, decide_eq_false_iff_not]
  rintro (rfl | rfl | rfl | rfl) <;> exact absurd h (by decide)

theorem isDigit_isDigitOrMinus (c : Char) (h : c.isDigit = true) :
    isDigitOrMinus c = true := by
  simp [isDigitOrMinus, h]

theorem isDigit_ne_minus (c : Char) (h : c.isDigit = true) : c ≠ '-' := by
  intro hc
  subst hc
  exact absurd h (by decide)

theorem jsTrim_of_ends (c : Char) (mid : List Char) (d : Char)
    (hc : isJsWs c = false) (hd : isJsWs d = false) :
    jsTrim (c :: (mid ++ [d])) = c :: (mid ++ [d]) := by
  unfold jsTrim
  rw [List.dropWhile_cons_of_neg (by simp [hc])]
  rw [show (c :: (mid ++ [d]) : List Char).reverse = d :: (mid.reverse ++ [c]) by simp]
  rw [List.dropWhile_cons_of_neg (by simp [hd])]
  simp

theorem string_mk_toList (cs : List Char) : (String.mk cs).toList = cs := rfl

theorem jsNumberOfDigits_natDigitsChars (v : Int) (hv : 0 ≤ v) :
    jsNumberOfDigits (natDigitsChars v.toNat) = some v := by
  have hne : natDigitsChars v.toNat ≠ [] := natDigitsChars_ne_nil _
  have hdig : ∀ c ∈ natDigitsChars v.toNat, c.isDigit = true := natDigitsChars_all_digit _
  obtain ⟨d0, ds0, hds⟩ := List.exists_cons_of_ne_nil hne
  have hd0 : d0.isDigit = true := by
    apply hdig
    rw [hds]
    exact List.mem_cons_self _ _
  have hall : (d0 :: ds0).all Char.isDigit = true := by
    rw [List.all_eq_true]
    intro c hc
    exact hdig c (hds ▸ hc)
  rw [hds]
  rw [show jsNumberOfDigits (d0 :: ds0)
      = (if d0 = '-' then
          if ds0 ≠ [] ∧ ds0.all Char.isDigit then some (-(digitsVal ds0 : Int)) else none
        else if (d0 :: ds0).all Char.isDigit then some ((digitsVal (d0 :: ds0) : Int))
        else none) from rfl]
  rw [if_neg (isDigit_ne_minus d0 hd0)]
  simp only [hall, if_true]
  rw [← hds, digitsVal_natDigitsChars]
  rw [Int.toNat_of_nonneg hv]

theorem parseCount_formatCount (v : Int) (hv : 0 ≤ v) (fmt : CountFormat) :
    parseCount (formatCount (some v) fmt) = some v := by
  have hnn : ¬ v < 0 := not_lt.mpr hv
  have hne : natDigitsChars v.toNat ≠ [] := natDigitsChars_ne_nil _
  have hdig : ∀ c ∈ natDigitsChars v.toNat, c.isDigit = true := natDigitsChars_all_digit _
  have hchars : formatIntegerChars (some v)
      = groupLoop ' ' (natDigitsChars v.toNat).reverse 0 [] := by
    simp [formatIntegerChars, intChars, hnn]
  have hGfilter : (groupLoop ' ' (natDigitsChars v.toNat).reverse 0 []).filter isDigitOrMinus
      = natDigitsChars v.toNat := by
    rw [groupLoop_filter isDigitOrMinus ' ' (by decide) _ 0 []
      (fun c hc => isDigit_isDigitOrMinus c (hdig c (List.mem_reverse.mp hc)))]
    simp
  have hval := jsNumberOfDigits_natDigitsChars v hv
  cases fmt with
  | upper =>
    have hrevne : (natDigitsChars v.toNat).reverse ≠ [] := by simpa using hne
    obtain ⟨c0, t0, hrev⟩ := List.exists_cons_of_ne_nil hrevne
    have hc0 : c0.isDigit = true := by
      apply hdig
      rw [← List.mem_reverse, hrev]
      exact List.mem_cons_self _ _
    have hGlast : (groupLoop ' ' (natDigitsChars v.toNat).reverse 0 []).getLast?
        = some c0 := by
      rw [hrev]
      exact groupLoop_getLast ' ' c0 t0 0
    obtain ⟨G', hG⟩ := List.getLast?_eq_some_iff.mp hGlast
    have hfc : (formatCount (some v) CountFormat.upper).toList
        = 'N' :: ((' ' :: '=' :: ' ' :: G') ++ [c0]) := by
      rw [show (formatCount (some v) CountFormat.upper).toList
          = formatCountChars (some v) CountFormat.upper from rfl]
      simp [formatCountChars, hchars, hG]
    have hback : ('N' :: ((' ' :: '=' :: ' ' :: G') ++ [c0]) : List Char)
        = ['N', ' ', '=', ' '] ++ groupLoop ' ' (natDigitsChars v.toNat).reverse 0 [] := by
      simp [hG]
    unfold parseCount
    rw [hfc, jsTrim_of_ends 'N' (' ' :: '=' :: ' ' :: G') c0 (by decide)
      (isDigit_not_ws c0 hc0)]
    rw [if_neg (by simp)]
    rw [hback, List.filter_append, hGfilter]
    rw [show List.filter isDigitOrMinus ['N', ' ', '=', ' '] = [] from by decide]
    rw [List.nil_append, if_neg hne]
    exact hval
  | parenthetical =>
    have hfc : (formatCount (some v) CountFormat.parenthetical).toList
        = '(' :: ((('n' :: ' ' :: '=' :: ' ' :: [])
            ++ groupLoop ' ' (natDigitsChars v.toNat).reverse 0 []) ++ [')']) := by
      rw [show (formatCount (some v) CountFormat.parenthetical).toList
          = formatCountChars (some v) CountFormat.parenthetical from rfl]
      simp [formatCountChars, hchars]
    unfold parseCount
    rw [hfc, jsTrim_of_ends '('
      (('n' :: ' ' :: '=' :: ' ' :: [])
        ++ groupLoop ' ' (natDigitsChars v.toNat).reverse 0 []) ')'
      (by decide) (by decide)]
    rw [if_neg (by simp)]
    rw [show ('(' :: ((('n' :: ' ' :: '=' :: ' ' :: [])
        ++ groupLoop ' ' (natDigitsChars v.toNat).reverse 0 []) ++ [')']) : List Char)
      = ['(', 'n', ' ', '=', ' ']
        ++ (groupLoop ' ' (natDigitsChars v.toNat).reverse 0 [] ++ [')']) from by simp]
    rw [List.filter_append, List.filter_append, hGfilter]
    rw [show List.filter isDigitOrMinus ['(', 'n', ' ', '=', ' '] = [] from by decide]
    rw [show List.filter isDigitOrMinus [')'] = [] from by decide]
    rw [List.nil_append, List.append_nil, if_neg hne]
    exact hval

/-- C8: for every non-negative integer count, the formatted count groups
the digit characters in blocks of three from the right joined by single
separators (stated against the spec-side regrouping
function), and parsing the formatted string recovers the value for both
count formats; the null count renders as the em dash placeholder line in
both formats. -/
theorem C8_count_format_roundtrip :
    (∀ v : Int, 0 ≤ v →
      formatIntegerChars (some v)
          = groupedEveryThreeFromRight (natDigitsChars v.toNat).reverse ∧
        ∀ fmt : CountFormat, parseCount (formatCount (some v) fmt) = some v) ∧
    formatCount none CountFormat.upper = "N = —" ∧
    formatCount none CountFormat.parenthetical = "(n = —)" := by
  refine ⟨fun v hv => ⟨?_, fun fmt => parseCount_formatCount v hv fmt⟩, by decide, by decide⟩
  have hnn : ¬ v < 0 := not_lt.mpr hv
  rw [show formatIntegerChars (some v) = groupLoop ' ' (intChars v).reverse 0 [] from rfl]
  rw [show intChars v = natDigitsChars v.toNat from by simp [intChars, hnn]]
  exact groupLoop_eq_grouped ((natDigitsChars v.toNat).reverse.length) _ le_rfl

theorem C8_count_format_roundtrip_witness :
    (0 : Int) ≤ 1234567 ∧
      parseCount (formatCount (some 1234567) CountFormat.upper) = some 1234567 :=
  ⟨by decide, (C8_count_format_roundtrip.1 1234567 (by decide)).2 CountFormat.upper⟩

/-! ## The auto remainder reason invariant (claim C3) -/

theorem mem_userReasonsOf (e : ExclusionBox) (r : ExclusionReason)
    (hr : r ∈ userReasonsOf e) : r.kind = ExclusionReasonKind.user := by
  have := (List.mem_filter.mp hr).2
  simpa using this

theorem countP_auto_user (l : List ExclusionReason)
    (hl : ∀ r ∈ l, r.kind = ExclusionReasonKind.user) :
    l.countP (fun r => r.kind == ExclusionReasonKind.auto) = 0 := by
  rw [List.countP_eq_zero]
  intro a ha
  simp [hl a ha]

/-- C3: after the remainder rule runs on an exclusion box, an auto reason
is present iff there is at least one user reason and the total is set and
differs from the user sum; any auto reason present is unique, carries the
remainder as its count, and keeps a customized label (defaulting to
"Other"). -/
theorem ensureOtherReason_total (freshId : String) (e : ExclusionBox) :
    (ensureOtherReason freshId e).total = e.total := by
  unfold ensureOtherReason
  split
  · rfl
  · split <;> rfl

theorem ensureOtherReason_label (freshId : String) (e : ExclusionBox) :
    (ensureOtherReason freshId e).label = e.label := by
  unfold ensureOtherReason
  split
  · rfl
  · split <;> rfl

theorem ensureOtherReason_reasons_none (freshId : String) (e : ExclusionBox)
    (hT : e.total = none) :
    (ensureOtherReason freshId e).reasons = userReasonsOf e := by
  unfold ensureOtherReason
  rw [hT]

theorem ensureOtherReason_reasons_neg (freshId : String) (e : ExclusionBox) (t : Int)
    (hT : e.total = some t)
    (hc : ¬ ((userReasonsOf e).length > 0 ∧ t - sumUserOf e ≠ 0)) :
    (ensureOtherReason freshId e).reasons = userReasonsOf e := by
  unfold ensureOtherReason
  split
  · rfl
  · next t' heq =>
    rw [hT] at heq
    injection heq with h2
    subst h2
    split
    · next h => exact absurd h hc
    · rfl

theorem ensureOtherReason_reasons_pos (freshId : String) (e : ExclusionBox) (t : Int)
    (hT : e.total = some t)
    (hc : (userReasonsOf e).length > 0 ∧ t - sumUserOf e ≠ 0) :
    (ensureOtherReason freshId e).reasons = userReasonsOf e ++
      [{ baseAutoReason freshId e (t - sumUserOf e) with
          n := some (t - sumUserOf e), label := autoLabelOf e }] := by
  have hlab : (if (baseAutoReason freshId e (t - sumUserOf e)).label = ""
      then "Other" else (baseAutoReason freshId e (t - sumUserOf e)).label)
      = autoLabelOf e := by
    unfold baseAutoReason autoLabelOf
    rcases hfind : e.reasons.find? (fun r => r.kind = ExclusionReasonKind.auto) with _ | a
    · rw [hfind]
      simp
    · rw [hfind]
      simp
  unfold ensureOtherReason
  split
  · next heq =>
    rw [hT] at heq
    exact absurd heq (by simp)
  · next t' heq =>
    rw [hT] at heq
    injection heq with h2
    subst h2
    split
    · rw [← hlab]
    · next h => exact absurd hc h

theorem baseAutoReason_kind (freshId : String) (e : ExclusionBox) (remainder : Int) :
    (baseAutoReason freshId e remainder).kind = ExclusionReasonKind.auto := by
  unfold baseAutoReason
  rcases hfind : e.reasons.find? (fun r => r.kind = ExclusionReasonKind.auto) with _ | a
  · rw [hfind]
    simp
  · rw [hfind]
    have := List.find?_some hfind
    simp only [Option.getD_some]
    simpa using this

/-- C3: after the remainder rule runs on an exclusion box, an auto reason
is present iff there is at least one user reason and the total is set and
differs from the user-reason sum (nulls as 0); any auto reason present is
unique, carries the remainder as its count, and keeps a previously
customized label, defaulting to "Other". -/
theorem C3_auto_reason_invariant (freshId : String) (e : ExclusionBox) :
    ((∃ a ∈ (ensureOtherReason freshId e).reasons, a.kind = ExclusionReasonKind.auto) ↔
      (userReasonsOf e ≠ [] ∧ ∃ t, e.total = some t ∧ t - sumUserOf e ≠ 0)) ∧
    ((ensureOtherReason freshId e).reasons.countP
        (fun r => r.kind == ExclusionReasonKind.auto) ≤ 1) ∧
    (∀ a ∈ (ensureOtherReason freshId e).reasons, a.kind = ExclusionReasonKind.auto →
      ∃ t, e.total = some t ∧ a.n = some (t - sumUserOf e) ∧ a.label = autoLabelOf e) := by
  have huser := mem_userReasonsOf e
  have husers_only : ∀ rs, rs = userReasonsOf e →
      ((∃ a ∈ rs, a.kind = ExclusionReasonKind.auto) → False) ∧
      (rs.countP (fun r => r.kind == ExclusionReasonKind.auto) ≤ 1) := by
    rintro rs rfl
    constructor
    · rintro ⟨a, ha, hka⟩
      exact absurd (huser a ha ▸ hka) (by decide)
    · rw [countP_auto_user _ huser]
      omega
  rcases hT : e.total with _ | t
  · have hr := ensureOtherReason_reasons_none freshId e hT
    rw [hr]
    refine ⟨⟨?_, ?_⟩, (husers_only _ rfl).2, ?_⟩
    · intro h
      exact absurd h (husers_only _ rfl).1
    · rintro ⟨-, t, ht, -⟩
      exact Option.noConfusion ht
    · intro a ha hka
      exact absurd (huser a ha ▸ hka) (by decide)
  · by_cases hc : (userReasonsOf e).length > 0 ∧ t - sumUserOf e ≠ 0
    · have hr := ensureOtherReason_reasons_pos freshId e t hT hc
      rw [hr]
      have hkind : ({ baseAutoReason freshId e (t - sumUserOf e) with
          n := some (t - sumUserOf e), label := autoLabelOf e } :
            ExclusionReason).kind = ExclusionReasonKind.auto := by
        have := baseAutoReason_kind freshId e (t - sumUserOf e)
        simpa using this
      refine ⟨⟨?_, ?_⟩, ?_, ?_⟩
      · intro _
        refine ⟨?_, t, rfl, hc.2⟩
        have hl := hc.1
        intro hnil
        rw [hnil] at hl
        simp at hl
      · intro _
        exact ⟨_, by simp, hkind⟩
      · rw [List.countP_append, countP_auto_user _ huser]
        simp [List.countP_cons, baseAutoReason_kind]
      · intro a ha hka
        rcases List.mem_append.mp ha with hmem | hmem
        · exact absurd (huser a hmem ▸ hka) (by decide)
        · have ha' : a = { baseAutoReason freshId e (t - sumUserOf e) with
              n := some (t - sumUserOf e), label := autoLabelOf e } := by
            simpa using hmem
          subst ha'
          exact ⟨t, rfl, rfl, rfl⟩
    · have hr := ensureOtherReason_reasons_neg freshId e t hT hc
      rw [hr]
      refine ⟨⟨?_, ?_⟩, (husers_only _ rfl).2, ?_⟩
      · intro h
        exact absurd h (husers_only _ rfl).1
      · rintro ⟨hne, t', ht', hrem⟩
        injection ht' with h2
        subst h2
        exfalso
        apply hc
        refine ⟨?_, hrem⟩
        cases hu : userReasonsOf e with
        | nil => exact absurd hu hne
        | cons x xs => simp [hu]
      · intro a ha hka
        exact absurd (huser a ha ▸ hka) (by decide)

theorem C3_auto_reason_invariant_witness :
    ∃ a ∈ (ensureOtherReason "fid" exclusionExampleC3).reasons,
      a.kind = ExclusionReasonKind.auto :=
  (C3_auto_reason_invariant "fid" exclusionExampleC3).1.mpr
    ⟨by decide, 150, rfl, by decide⟩

/-! ## Binary branch rebalance (claims C2 and C10) -/

/-- Core behavior of an `updateNodeCount` that triggers the binary
rebalance: the edited child gets the new count while the sibling is forced
to the floored remainder and loses its free-edit override. Shared by the
claims about the explicit-edit case and the null-edit case. -/
theorem updateNodeCount_rebalance_spec (g : GraphState)
    (p edited sib a b : String) (P E S : BoxNode) (N : Int) (nv : Option Int)
    (ov : Option (Option String))
    (hpar : getParentId g edited = some p)
    (hp : alookup g.nodes p = some P)
    (hchild : P.childIds = [a, b])
    (hab : a ≠ b)
    (hpos : (edited = a ∧ sib = b) ∨ (edited = b ∧ sib = a))
    (hn : P.n = some N)
    (hpe : p ≠ edited)
    (hE : alookup g.nodes edited = some E)
    (hS : alookup g.nodes sib = some S) :
    ∃ g', updateNodeCount g edited nv ov false = Except.ok g' ∧
      alookup g'.nodes sib = some
        { S with
          n := some (if N - nv.getD 0 ≥ 0 then N - nv.getD 0 else 0),
          countOverride := none } ∧
      (alookup g'.nodes edited).map (fun nd => nd.n) = some nv := by
  have hes : edited ≠ sib := by
    rcases hpos with ⟨rfl, rfl⟩ | ⟨rfl, rfl⟩
    · exact hab
    · exact hab.symm
  have hlp : alookup (amodify g.nodes edited (fun nd => { nd with n := nv, countOverride := if ov.isSome then ov else nd.countOverride })) p = some P := by
    rw [alookup_amodify_ne _ _ _ _ hpe]
    exact hp
  have hle : alookup (amodify g.nodes edited (fun nd => { nd with n := nv, countOverride := if ov.isSome then ov else nd.countOverride })) edited
      = some ({ E with n := nv, countOverride := if ov.isSome then ov else E.countOverride }) := by
    rw [alookup_amodify_self, hE]
    rfl
  have hls : alookup (amodify g.nodes edited (fun nd => { nd with n := nv, countOverride := if ov.isSome then ov else nd.countOverride })) sib = some S := by
    rw [alookup_amodify_ne _ _ _ _ (fun h => hes h.symm)]
    exact hS
  have hfind2 : List.find? (fun i => !decide (i = edited)) [a, b] = some sib := by
    rcases hpos with ⟨rfl, rfl⟩ | ⟨rfl, rfl⟩
    · rw [List.find?_cons_of_neg _ (by simp), List.find?_cons_of_pos _ (by simp [hab.symm])]
    · rw [List.find?_cons_of_pos _ (by simp [hab])]
  have hfind3 : List.find? (fun i => decide ¬ i = edited) [a, b] = some sib := by
    rcases hpos with ⟨rfl, rfl⟩ | ⟨rfl, rfl⟩
    · rw [List.find?_cons_of_neg _ (by simp), List.find?_cons_of_pos _ (by simp [hab.symm])]
    · rw [List.find?_cons_of_pos _ (by simp [hab])]
  have hreb : rebalanceBranchAfterUpdate
      { g with nodes := amodify g.nodes edited (fun nd => { nd with n := nv, countOverride := if ov.isSome then ov else nd.countOverride }) } p edited
      = { g with nodes := amodify (amodify g.nodes edited (fun nd => { nd with n := nv, countOverride := if ov.isSome then ov else nd.countOverride })) sib (fun oc => { oc with n := some (if N - nv.getD 0 ≥ 0 then N - nv.getD 0 else 0), countOverride := none }) } := by
    unfold rebalanceBranchAfterUpdate
    simp only [hlp, hn, hle, hchild, hls, List.length_cons, List.length_nil,
      Option.isSome_some, if_true, hfind2, hfind3]
  have hrun : updateNodeCount g edited nv ov false
      = Except.ok ({ g with nodes := amodify (amodify g.nodes edited (fun nd => { nd with n := nv, countOverride := if ov.isSome then ov else nd.countOverride })) sib (fun oc => { oc with n := some (if N - nv.getD 0 ≥ 0 then N - nv.getD 0 else 0), countOverride := none }) }) := by
    simp only [updateNodeCount, cloneGraph, hE, Bool.false_eq_true, if_false]
    simp only [show getParentId
      { g with nodes := amodify g.nodes edited (fun nd => { nd with n := nv, countOverride := if ov.isSome then ov else nd.countOverride }) } edited = some p from hpar]
    rw [hreb]
  refine ⟨_, hrun, ?_, ?_⟩
  · show alookup (amodify (amodify g.nodes edited (fun nd => { nd with n := nv, countOverride := if ov.isSome then ov else nd.countOverride })) sib (fun oc => { oc with n := some (if N - nv.getD 0 ≥ 0 then N - nv.getD 0 else 0), countOverride := none })) sib = _
    rw [alookup_amodify_self, hls]
    rfl
  · show Option.map (fun nd => nd.n)
      (alookup (amodify (amodify g.nodes edited (fun nd => { nd with n := nv, countOverride := if ov.isSome then ov else nd.countOverride })) sib (fun oc => { oc with n := some (if N - nv.getD 0 ≥ 0 then N - nv.getD 0 else 0), countOverride := none })) edited) = some nv
    rw [alookup_amodify_ne _ _ _ _ (fun h => hes h), hle]
    rfl

/-- C2: editing one child of a two-child parent (rebalance not skipped)
forces the sibling to the floored remainder max(0, parent.n - v) and
clears the sibling's free-edit override. -/
theorem C2_binary_branch_rebalance (g : GraphState)
    (p edited sib a b : String) (P E S : BoxNode) (N v : Int)
    (ov : Option (Option String))
    (hpar : getParentId g edited = some p)
    (hp : alookup g.nodes p = some P)
    (hchild : P.childIds = [a, b])
    (hab : a ≠ b)
    (hpos : (edited = a ∧ sib = b) ∨ (edited = b ∧ sib = a))
    (hn : P.n = some N)
    (hpe : p ≠ edited)
    (hE : alookup g.nodes edited = some E)
    (hS : alookup g.nodes sib = some S) :
    ∃ g', updateNodeCount g edited (some v) ov false = Except.ok g' ∧
      ∃ S', alookup g'.nodes sib = some S' ∧
        S'.n = some (max 0 (N - v)) ∧ S'.countOverride = none := by
  obtain ⟨g', hrun, hsib, -⟩ := updateNodeCount_rebalance_spec g p edited sib a b
    P E S N (some v) ov hpar hp hchild hab hpos hn hpe hE hS
  have hiv : (if N - (some v : Option Int).getD 0 ≥ 0
      then N - (some v : Option Int).getD 0 else 0) = max 0 (N - v) := by
    simp only [Option.getD_some]
    rcases le_or_lt 0 (N - v) with h | h
    · rw [if_pos (by omega), max_eq_right (by omega)]
    · rw [if_neg (by omega), max_eq_left (by omega)]
  refine ⟨g', hrun, _, hsib, ?_, rfl⟩
  show some (if N - (some v : Option Int).getD 0 ≥ 0
      then N - (some v : Option Int).getD 0 else 0) = some (max 0 (N - v))
  rw [hiv]

theorem C2_binary_branch_rebalance_witness :
    ∃ g', updateNodeCount gBranch "a" (some 70) none false = Except.ok g' ∧
      ∃ S', alookup g'.nodes "b" = some S' ∧
        S'.n = some (max 0 (100 - 70)) ∧ S'.countOverride = none :=
  C2_binary_branch_rebalance gBranch "p" "a" "b" "a" "b"
    branchNodeP branchNodeA branchNodeB 100 70 none
    (by decide) (by decide) (by decide) (by decide) (Or.inl ⟨rfl, rfl⟩)
    (by decide) (by decide) (by decide) (by decide)

/-- C10 counterexample: with parent count -1 and a null edit, the sibling
is floored to 0 rather than receiving the full parent count -1. -/
theorem C10_null_edit_counterexample :
    ((updateNodeCount gBranchNeg "a" none none false).toOption.bind
      (fun g' => (alookup g'.nodes "b").bind (fun nd => nd.n))) = some 0 ∧
    (alookup gBranchNeg.nodes "p").bind (fun nd => nd.n) = some (-1) ∧
    (0 : Int) ≠ -1 := by decide

/-- C10 (amended): a null edit is treated as zero, so the sibling receives
max(0, parent.n) — the full parent count whenever it is non-negative — and
the edited child's own count stays null. -/
theorem C10_null_edit_rebalance (g : GraphState)
    (p edited sib a b : String) (P E S : BoxNode) (N : Int)
    (ov : Option (Option String))
    (hpar : getParentId g edited = some p)
    (hp : alookup g.nodes p = some P)
    (hchild : P.childIds = [a, b])
    (hab : a ≠ b)
    (hpos : (edited = a ∧ sib = b) ∨ (edited = b ∧ sib = a))
    (hn : P.n = some N)
    (hpe : p ≠ edited)
    (hE : alookup g.nodes edited = some E)
    (hS : alookup g.nodes sib = some S) :
    ∃ g', updateNodeCount g edited none ov false = Except.ok g' ∧
      ∃ S', alookup g'.nodes sib = some S' ∧
        S'.n = some (max 0 N) ∧ S'.countOverride = none ∧
        (alookup g'.nodes edited).map (fun nd => nd.n) = some none := by
  obtain ⟨g', hrun, hsib, hed⟩ := updateNodeCount_rebalance_spec g p edited sib a b
    P E S N none ov hpar hp hchild hab hpos hn hpe hE hS
  have hiv : (if N - (none : Option Int).getD 0 ≥ 0
      then N - (none : Option Int).getD 0 else 0) = max 0 N := by
    simp only [Option.getD_none, sub_zero]
    rcases le_or_lt 0 N with h | h
    · rw [if_pos (by omega), max_eq_right (by omega)]
    · rw [if_neg (by omega), max_eq_left (by omega)]
  refine ⟨g', hrun, _, hsib, ?_, rfl, hed⟩
  show some (if N - (none : Option Int).getD 0 ≥ 0
      then N - (none : Option Int).getD 0 else 0) = some (max 0 N)
  rw [hiv]

theorem C10_null_edit_rebalance_witness :
    ∃ g', updateNodeCount gBranch "a" none none false = Except.ok g' ∧
      ∃ S', alookup g'.nodes "b" = some S' ∧
        S'.n = some (max 0 100) ∧ S'.countOverride = none ∧
        (alookup g'.nodes "a").map (fun nd => nd.n) = some none :=
  C10_null_edit_rebalance gBranch "p" "a" "b" "a" "b"
    branchNodeP branchNodeA branchNodeB 100 none
    (by decide) (by decide) (by decide) (by decide) (Or.inl ⟨rfl, rfl⟩)
    (by decide) (by decide) (by decide) (by decide)

/-- C9 counterexample: removeExclusionReason with an existing interval but
a reason id that does not exist does NOT throw - it returns a new state. -/
theorem C9_missing_reason_counterexample :
    (removeExclusionReason gLinear "iv1" "nope" "fid").toOption.isSome = true := by
  decide

/-- C9 (amended): every listed mutation invoked with a missing primary id
fails with an error and, the embedding being pure, the input snapshot is
untouched; the one exception forced by the code is removeExclusionReason,
which only requires the interval and its exclusion to exist - a missing
reason id is silently ignored (the reason list survives the filter and
only the remainder rule re-runs). -/
theorem C9_missing_id_mutations (g : GraphState) (nid ivl ph ivl2 rs : String)
    (iv2 : Interval) (ex2 : ExclusionBox)
    (v : Option Int) (ov : Option (Option String)) (sk : Bool)
    (tl : List String) (fid n1 n2 lbl : String)
    (hn : alookup g.nodes nid = none)
    (hi : alookup g.intervals ivl = none)
    (hph : g.phases.find? (fun x => x.id = ph) = none)
    (hiv2 : alookup g.intervals ivl2 = some iv2)
    (hex : iv2.exclusion = some ex2)
    (hrs : ∀ r ∈ ex2.reasons, ¬ r.id = rs) :
    updateNodeCount g nid v ov sk = Except.error "Node not found" ∧
    updateNodeText g nid tl = Except.error "Node not found" ∧
    updateExclusionCount g ivl v ov = Except.error "Interval not found" ∧
    updateExclusionReasonCount g ivl rs v ov fid = Except.error "Interval not found" ∧
    removeExclusionReason g ivl rs fid = Except.error "Interval not found" ∧
    toggleArrow g ivl = Except.error "Interval not found" ∧
    addNodeBelow g nid n1 n2
      = Except.error ("Parent node " ++ nid ++ " does not exist") ∧
    updatePhaseLabel g ph lbl = Except.error "Phase not found" ∧
    updateExclusionReasonCount g ivl2 rs v ov fid = Except.error "Reason not found" ∧
    removeExclusionReason g ivl2 rs fid
      = Except.ok { g with
          intervals := amodify g.intervals ivl2 (fun iv =>
            { iv with exclusion := some (ensureOtherReason fid
              { ex2 with reasons := ex2.reasons.filter (fun r => ¬ r.id = rs) }) }) } := by
  have hfindr : ex2.reasons.find? (fun r => r.id = rs) = none := by
    rw [List.find?_eq_none]
    intro r hr
    simp [hrs r hr]
  refine ⟨?_, ?_, ?_, ?_, ?_, ?_, ?_, ?_, ?_, ?_⟩
  · simp only [updateNodeCount, cloneGraph, hn]
  · simp only [updateNodeText, cloneGraph, hn]
  · simp only [updateExclusionCount, cloneGraph, hi]
  · simp only [updateExclusionReasonCount, cloneGraph, hi]
  · simp only [removeExclusionReason, cloneGraph, hi]
  · simp only [toggleArrow, cloneGraph, hi]
  · simp only [addNodeBelow, cloneGraph, hn, Option.isSome_none, Bool.false_eq_true,
      if_false]
  · simp only [updatePhaseLabel, cloneGraph, hph]
  · simp only [updateExclusionReasonCount, cloneGraph, hiv2, hex, hfindr]
  · simp only [removeExclusionReason, cloneGraph, hiv2, hex]

theorem C9_missing_id_mutations_witness :
    updateNodeCount gLinear "zz" (some 1) none false
        = Except.error "Node not found" ∧
    toggleArrow gLinear "zz" = Except.error "Interval not found" := by
  have h := C9_missing_id_mutations gLinear "zz" "zz" "zz" "iv1" "nope"
    linIvl createDefaultExclusion (some 1) none false ["x"] "fid" "n1" "n2" "lbl"
    (by decide) (by decide) (by decide) (by decide) (by decide)
    (by intro r hr; simp [createDefaultExclusion] at hr)
  exact ⟨h.1, h.2.2.2.2.2.1⟩

/-- C6: the claim that recompute never throws is wrong on the code - on
the reachable state above it reads a property of `undefined`. The spec's
"recompute never fails" is the evident intent, so this is a code bug. -/
theorem C6_recompute_crashes_on_reachable_state :
    (c6State.toOption.map (fun g => (g.phases.length, (getMainFlowNodes g).length))
      = some (3, 2)) ∧
    exceptErr (c6State.bind (fun g => recomputeGraph g c6Settings c6Fresh))
      = some "TypeError: cannot read id of undefined" := by
  decide

/-! ## Subtree removal (claim C7) -/

theorem alookup_eq_none_iff (l : List (String × α)) (k : String) :
    alookup l k = none ↔ ¬ k ∈ l.map Prod.fst := by
  induction l with
  | nil => simp
  | cons p t ih =>
    rw [alookup_cons]
    by_cases hp : p.1 = k
    · simp [hp]
    · have hk : ¬ k = p.1 := fun hh => hp hh.symm
      simp [hp, hk, ih]

theorem mem_keys_of_alookup (l : List (String × α)) (k : String) (v : α)
    (h : alookup l k = some v) : k ∈ l.map Prod.fst := by
  by_contra hn
  rw [← alookup_eq_none_iff] at hn
  rw [hn] at h
  exact Option.noConfusion h

theorem alookup_prune (nodes : List (String × BoxNode)) (keys : List String) (k : String) :
    alookup (nodes.map (fun p =>
        (p.1, { p.2 with childIds := p.2.childIds.filter (fun cid => keys.contains cid) }))) k
      = (alookup nodes k).map
          (fun nd => { nd with childIds := nd.childIds.filter (fun cid => keys.contains cid) }) := by
  induction nodes with
  | nil => rfl
  | cons p t ih =>
    simp only [List.map_cons]
    rw [alookup_cons, alookup_cons]
    by_cases hp : p.1 = k
    · simp [hp]
    · simp only [hp, if_false, ite_false]
      exact ih

theorem prune_keys (nodes : List (String × BoxNode)) (keys : List String) :
    (nodes.map (fun p =>
        (p.1, { p.2 with childIds := p.2.childIds.filter (fun cid => keys.contains cid) }))).map
          Prod.fst = nodes.map Prod.fst := by
  induction nodes with
  | nil => rfl
  | cons p t ih => simp only [List.map_cons, ih]

/-- Folds whose step only touches the first component through an
invariant-preserving function preserve the invariant. -/
theorem foldl_fst_invariant (h : σ → δ) (step : σ × γ → β → σ × γ)
    (hstep : ∀ acc x, h ((step acc x).1) = h acc.1) :
    ∀ (l : List β) (acc : σ × γ), h ((l.foldl step acc).1) = h acc.1 := by
  intro l
  induction l with
  | nil => intro acc; rfl
  | cons c cs ih =>
    intro acc
    rw [List.foldl_cons, ih]
    exact hstep acc c

/-- The child-placement fold of `assignGo` keeps the key list. -/
theorem assignGo_foldl_keys (widths : List (String × Rat)) (f : Nat) (nextY : Rat)
    (ih : ∀ (nodes : List (String × BoxNode)) (nodeId : String) (c y : Rat),
      (assignGo widths f nodes nodeId c y).map Prod.fst = nodes.map Prod.fst) :
    ∀ (l : List (String × Rat)) (acc : List (String × BoxNode) × Rat),
      ((l.foldl (fun (acc : List (String × BoxNode) × Rat) cw =>
          (assignGo widths f acc.1 cw.1 (ratAdd acc.2 (ratDiv2 cw.2)) nextY,
            ratAdd (ratAdd acc.2 cw.2) BRANCH_GAP_X)) acc).1).map Prod.fst
        = (acc.1).map Prod.fst := by
  intro l
  induction l with
  | nil => intro acc; rfl
  | cons cw cs ihl =>
    intro acc
    rw [List.foldl_cons, ihl]
    exact ih acc.1 cw.1 _ _

/-- The child-placement fold of `assignGo` keeps every entry's `childIds`. -/
theorem assignGo_foldl_childIds (widths : List (String × Rat)) (f : Nat) (nextY : Rat)
    (k : String)
    (ih : ∀ (nodes : List (String × BoxNode)) (nodeId : String) (c y : Rat),
      (alookup (assignGo widths f nodes nodeId c y) k).map (fun nd => nd.childIds)
        = (alookup nodes k).map (fun nd => nd.childIds)) :
    ∀ (l : List (String × Rat)) (acc : List (String × BoxNode) × Rat),
      (alookup ((l.foldl (fun (acc : List (String × BoxNode) × Rat) cw =>
          (assignGo widths f acc.1 cw.1 (ratAdd acc.2 (ratDiv2 cw.2)) nextY,
            ratAdd (ratAdd acc.2 cw.2) BRANCH_GAP_X)) acc).1) k).map (fun nd => nd.childIds)
        = (alookup acc.1 k).map (fun nd => nd.childIds) := by
  intro l
  induction l with
  | nil => intro acc; rfl
  | cons cw cs ihl =>
    intro acc
    rw [List.foldl_cons, ihl]
    exact ih acc.1 cw.1 _ _

theorem assignGo_keys (widths : List (String × Rat)) :
    ∀ (fuel : Nat) (nodes : List (String × BoxNode)) (nodeId : String) (c y : Rat),
      (assignGo widths fuel nodes nodeId c y).map Prod.fst = nodes.map Prod.fst := by
  intro fuel
  induction fuel with
  | zero => intro nodes nodeId c y; rfl
  | succ f ih =>
    intro nodes nodeId c y
    rw [show assignGo widths (f + 1) nodes nodeId c y =
      (match alookup nodes nodeId with
       | none => nodes
       | some node =>
         let nodes2 := amodify nodes nodeId
           (fun nd => { nd with position := { x := c, y := y } })
         let nodeHeight := computeNodeHeight node
         if node.childIds = [] then nodes2
         else
           let childWidths := node.childIds.map (fun cid => (alookup widths cid).getD BOX_WIDTH)
           let totalWidth :=
             ratAdd (childWidths.foldl ratAdd 0)
               (ratMul BRANCH_GAP_X (ratSub (ratOfNat childWidths.length) 1))
           let start0 := ratSub c (ratDiv2 totalWidth)
           let nextY := ratAdd (ratAdd y nodeHeight) LEVEL_GAP_Y
           (List.foldl
             (fun (acc : List (String × BoxNode) × Rat) cw =>
               (assignGo widths f acc.1 cw.1 (ratAdd acc.2 (ratDiv2 cw.2)) nextY,
                 ratAdd (ratAdd acc.2 cw.2) BRANCH_GAP_X))
             (nodes2, start0) (node.childIds.zip childWidths)).1) from rfl]
    rcases halk : alookup nodes nodeId with _ | node
    · rfl
    · simp only []
      by_cases hch : node.childIds = []
      · rw [if_pos hch]
        exact amodify_keys nodes nodeId _
      · rw [if_neg hch]
        exact (assignGo_foldl_keys widths f _ ih _ _).trans
          (amodify_keys nodes nodeId (fun nd => { nd with position := { x := c, y := y } }))

theorem assignGo_childIds (widths : List (String × Rat)) :
    ∀ (fuel : Nat) (nodes : List (String × BoxNode)) (nodeId : String) (c y : Rat)
      (k : String),
      (alookup (assignGo widths fuel nodes nodeId c y) k).map (fun nd => nd.childIds)
        = (alookup nodes k).map (fun nd => nd.childIds) := by
  intro fuel
  induction fuel with
  | zero => intro nodes nodeId c y k; rfl
  | succ f ih =>
    intro nodes nodeId c y k
    rw [show assignGo widths (f + 1) nodes nodeId c y =
      (match alookup nodes nodeId with
       | none => nodes
       | some node =>
         let nodes2 := amodify nodes nodeId
           (fun nd => { nd with position := { x := c, y := y } })
         let nodeHeight := computeNodeHeight node
         if node.childIds = [] then nodes2
         else
           let childWidths := node.childIds.map (fun cid => (alookup widths cid).getD BOX_WIDTH)
           let totalWidth :=
             ratAdd (childWidths.foldl ratAdd 0)
               (ratMul BRANCH_GAP_X (ratSub (ratOfNat childWidths.length) 1))
           let start0 := ratSub c (ratDiv2 totalWidth)
           let nextY := ratAdd (ratAdd y nodeHeight) LEVEL_GAP_Y
           (List.foldl
             (fun (acc : List (String × BoxNode) × Rat) cw =>
               (assignGo widths f acc.1 cw.1 (ratAdd acc.2 (ratDiv2 cw.2)) nextY,
                 ratAdd (ratAdd acc.2 cw.2) BRANCH_GAP_X))
             (nodes2, start0) (node.childIds.zip childWidths)).1) from rfl]
    rcases halk : alookup nodes nodeId with _ | node
    · rfl
    · simp only []
      have hmod : (alookup (amodify nodes nodeId
          (fun nd => { nd with position := { x := c, y := y } })) k).map
            (fun nd => nd.childIds) = (alookup nodes k).map (fun nd => nd.childIds) := by
        rw [alookup_amodify]
        by_cases hk : k = nodeId
        · rw [if_pos hk, Option.map_map]
          rfl
        · rw [if_neg hk]
      by_cases hch : node.childIds = []
      · rw [if_pos hch]
        exact hmod
      · rw [if_neg hch]
        exact (assignGo_foldl_childIds widths f _ k (fun a b c d => ih a b c d k) _ _).trans hmod

theorem layoutTree_keys (nodes : List (String × BoxNode)) (s : Option String) :
    (layoutTree nodes s).map Prod.fst = nodes.map Prod.fst := by
  rcases s with _ | s
  · rfl
  · rw [show layoutTree nodes (some s) =
      (if (alookup nodes s).isSome then
        assignGo (computeWidthGo nodes (nodes.length + 1) [] s).1 (nodes.length + 1) nodes s 0 0
      else nodes) from rfl]
    by_cases h : (alookup nodes s).isSome
    · rw [if_pos h]
      exact assignGo_keys _ _ nodes s 0 0
    · rw [if_neg h]

theorem layoutTree_childIds (nodes : List (String × BoxNode)) (s : Option String)
    (k : String) :
    (alookup (layoutTree nodes s) k).map (fun nd => nd.childIds)
      = (alookup nodes k).map (fun nd => nd.childIds) := by
  rcases s with _ | s
  · rfl
  · rw [show layoutTree nodes (some s) =
      (if (alookup nodes s).isSome then
        assignGo (computeWidthGo nodes (nodes.length + 1) [] s).1 (nodes.length + 1) nodes s 0 0
      else nodes) from rfl]
    by_cases h : (alookup nodes s).isSome
    · rw [if_pos h]
      exact assignGo_childIds _ _ nodes s 0 0 k
    · rw [if_neg h]

theorem layoutGraphInPlace_intervals (g : GraphState) :
    (layoutGraphInPlace g).intervals = g.intervals := rfl

theorem layoutGraphInPlace_selectedId (g : GraphState) :
    (layoutGraphInPlace g).selectedId = g.selectedId := rfl

theorem layoutGraphInPlace_startNodeId (g : GraphState) :
    (layoutGraphInPlace g).startNodeId = g.startNodeId := rfl

theorem layoutGraphInPlace_phases (g : GraphState) :
    (layoutGraphInPlace g).phases = g.phases := rfl

theorem layoutGraphInPlace_keys (g : GraphState) :
    (layoutGraphInPlace g).nodes.map Prod.fst = g.nodes.map Prod.fst := by
  rw [show (layoutGraphInPlace g).nodes =
    layoutTree (g.nodes.map (fun p => (p.1,
      { p.2 with childIds := p.2.childIds.filter (fun cid => (g.nodes.map Prod.fst).contains cid) })))
      g.startNodeId from rfl]
  rw [layoutTree_keys, prune_keys]

theorem layoutGraphInPlace_alookup_none (g : GraphState) (k : String) :
    alookup (layoutGraphInPlace g).nodes k = none ↔ alookup g.nodes k = none := by
  rw [alookup_eq_none_iff, alookup_eq_none_iff, layoutGraphInPlace_keys]

theorem layoutGraphInPlace_childIds (g : GraphState) (k : String) :
    (alookup (layoutGraphInPlace g).nodes k).map (fun nd => nd.childIds)
      = (alookup g.nodes k).map (fun nd => nd.childIds.filter
          (fun cid => (g.nodes.map Prod.fst).contains cid)) := by
  rw [show (layoutGraphInPlace g).nodes =
    layoutTree (g.nodes.map (fun p => (p.1,
      { p.2 with childIds := p.2.childIds.filter (fun cid => (g.nodes.map Prod.fst).contains cid) })))
      g.startNodeId from rfl]
  rw [layoutTree_childIds, alookup_prune, Option.map_map]
  rfl

theorem filter_not_mem_sublist (l : List String) (s t : List String)
    (hst : ∀ x, x ∈ s → x ∈ t) :
    List.Sublist (l.filter (fun x => ¬ x ∈ t)) (l.filter (fun x => ¬ x ∈ s)) := by
  apply List.monotone_filter_right
  intro a ha
  simp at ha ⊢
  exact fun hx => ha (hst a hx)

theorem collectPending_mono (g : GraphState) (s t : List String)
    (h : ∀ x, x ∈ s → x ∈ t) : collectPending g t ≤ collectPending g s :=
  (filter_not_mem_sublist (collectUniverse g) s t h).length_le

theorem collectPending_strict (g : GraphState) (s : List String) (id : String)
    (hid : id ∈ collectUniverse g) (hns : ¬ id ∈ s) :
    collectPending g (s ++ [id]) < collectPending g s := by
  have hsub := filter_not_mem_sublist (collectUniverse g) s (s ++ [id])
    (fun x hx => List.mem_append.mpr (Or.inl hx))
  refine Nat.lt_of_le_of_ne hsub.length_le (fun he => ?_)
  have heq := hsub.eq_of_length he
  have hmem : id ∈ (collectUniverse g).filter (fun x => ¬ x ∈ s) := by
    simp [List.mem_filter, hid, hns]
  rw [← heq] at hmem
  have := (List.mem_filter.mp hmem).2
  simp at this

theorem childIdsAt_ne_nil_mem_universe (g : GraphState) (id : String)
    (h : childIdsAt g id ≠ []) : id ∈ collectUniverse g := by
  rcases halk : alookup g.nodes id with _ | nd
  · exact absurd (by simp [childIdsAt, halk]) h
  · exact List.mem_append.mpr (Or.inl (mem_keys_of_alookup g.nodes id nd halk))

theorem collectGo_spec (g : GraphState) :
    ∀ (fuel : Nat) (seen : List String) (id : String),
      collectPending g seen < fuel →
      (∀ x ∈ seen, x ∈ collectGo g fuel seen id) ∧
      id ∈ collectGo g fuel seen id ∧
      (∀ x ∈ collectGo g fuel seen id, ¬ x ∈ seen →
        ∀ b ∈ childIdsAt g x, b ∈ collectGo g fuel seen id) := by
  intro fuel
  induction fuel with
  | zero => intro seen id h; omega
  | succ f ih =>
    have hfold : ∀ (cs : List String) (s : List String), collectPending g s < f →
        (∀ x ∈ s, x ∈ cs.foldl (collectGo g f) s) ∧
        (∀ c ∈ cs, c ∈ cs.foldl (collectGo g f) s) ∧
        (∀ x ∈ cs.foldl (collectGo g f) s, ¬ x ∈ s →
          ∀ b ∈ childIdsAt g x, b ∈ cs.foldl (collectGo g f) s) := by
      intro cs
      induction cs with
      | nil =>
        intro s hs
        exact ⟨fun x hx => hx, fun c hc => absurd hc (List.not_mem_nil c),
          fun x hx hnx => absurd hx hnx⟩
      | cons c cs ihc =>
        intro s hs
        rw [List.foldl_cons]
        obtain ⟨a1, a2, a3⟩ := ih s c hs
        have hs' : collectPending g (collectGo g f s c) ≤ collectPending g s :=
          collectPending_mono g s (collectGo g f s c) a1
        obtain ⟨b1, b2, b3⟩ := ihc (collectGo g f s c) (by omega)
        refine ⟨fun x hx => b1 x (a1 x hx), ?_, ?_⟩
        · intro x hx
          rcases List.mem_cons.mp hx with h | h
          · subst h; exact b1 x a2
          · exact b2 x h
        · intro x hx hnx b hb
          by_cases hx1 : x ∈ collectGo g f s c
          · exact b1 b (a3 x hx1 hnx b hb)
          · exact b3 x hx hx1 b hb
    intro seen id h
    by_cases hmem : id ∈ seen
    · rw [show collectGo g (f + 1) seen id = seen from by
        simp [collectGo, hmem]]
      exact ⟨fun x hx => hx, hmem, fun x hx hnx => absurd hx hnx⟩
    · rw [show collectGo g (f + 1) seen id =
        (childIdsAt g id).foldl (collectGo g f) (seen ++ [id]) from by
        simp [collectGo, hmem]]
      by_cases hch : childIdsAt g id = []
      · rw [hch]
        refine ⟨fun x hx => List.mem_append.mpr (Or.inl hx),
          List.mem_append.mpr (Or.inr (List.mem_singleton.mpr rfl)), ?_⟩
        intro x hx hnx b hb
        rcases List.mem_append.mp hx with h1 | h1
        · exact absurd h1 hnx
        · rw [List.mem_singleton.mp h1] at hb
          rw [hch] at hb
          exact absurd hb (List.not_mem_nil b)
      · have hid : id ∈ collectUniverse g := childIdsAt_ne_nil_mem_universe g id hch
        have hpend : collectPending g (seen ++ [id]) < f := by
          have := collectPending_strict g seen id hid hmem
          omega
        obtain ⟨c1, c2, c3⟩ := hfold (childIdsAt g id) (seen ++ [id]) hpend
        refine ⟨fun x hx => c1 x (List.mem_append.mpr (Or.inl hx)),
          c1 id (List.mem_append.mpr (Or.inr (List.mem_singleton.mpr rfl))), ?_⟩
        intro x hx hnx b hb
        by_cases hxid : x = id
        · subst hxid
          exact c2 b hb
        · have hnx2 : ¬ x ∈ seen ++ [id] := by
            intro hmem2
            rcases List.mem_append.mp hmem2 with h1 | h1
            · exact hnx h1
            · exact hxid (List.mem_singleton.mp h1)
          exact c3 x hx hnx2 b hb

theorem collectSubtree_mem_self (g : GraphState) (r : String) :
    r ∈ collectSubtree g r := by
  have h := collectGo_spec g (collectFuel g) [] r (by
    simp [collectPending, collectFuel, List.filter_eq_self.mpr])
  exact h.2.1

theorem collectSubtree_closed (g : GraphState) (r : String) :
    ∀ x ∈ collectSubtree g r, ∀ b ∈ childIdsAt g x, b ∈ collectSubtree g r := by
  have h := collectGo_spec g (collectFuel g) [] r (by
    simp [collectPending, collectFuel, List.filter_eq_self.mpr])
  intro x hx b hb
  exact h.2.2 x hx (List.not_mem_nil x) b hb

theorem reachable_mem_collectSubtree (g : GraphState) (r d : String)
    (h : Relation.ReflTransGen (fun a b => b ∈ childIdsAt g a) r d) :
    d ∈ collectSubtree g r := by
  induction h with
  | refl => exact collectSubtree_mem_self g r
  | tail _ hbc ih => exact collectSubtree_closed g r _ ih _ hbc

theorem layoutGraphInPlace_childIds_sub (g : GraphState) (k c : String) (nd : BoxNode)
    (hnd : alookup (layoutGraphInPlace g).nodes k = some nd) (hc : c ∈ nd.childIds) :
    ∃ nd0, alookup g.nodes k = some nd0 ∧ c ∈ nd0.childIds := by
  have hch := congrArg (Option.map (fun nd => nd.childIds)) hnd
  rw [layoutGraphInPlace_childIds] at hch
  rcases halk : alookup g.nodes k with _ | nd0
  · rw [halk] at hch
    exact Option.noConfusion hch
  · rw [halk] at hch
    simp only [Option.map_some'] at hch
    have hinj := Option.some.inj hch
    refine ⟨nd0, rfl, ?_⟩
    rw [← hinj] at hc
    exact List.mem_of_mem_filter hc

/-- C7: subtree removal. For a non-start node `r`: `r` and all of its
`childIds`-descendants are gone from `nodes`, no surviving interval touches
a descendant of `r` at either endpoint, the surviving former parent no
longer lists `r` among its `childIds`, and the selection moves to the
parent (or to the start node when `r` had no parent). Removing the start
node returns the snapshot unchanged. -/
theorem C7_subtree_removal (g : GraphState) (r : String) :
    (g.startNodeId = some r → removeNode g r = g) ∧
    (g.startNodeId ≠ some r →
      (∀ d, Relation.ReflTransGen (fun a b => b ∈ childIdsAt g a) r d →
        alookup (removeNode g r).nodes d = none) ∧
      (∀ iv, iv ∈ (removeNode g r).intervals.map Prod.snd →
        ∀ d, Relation.ReflTransGen (fun a b => b ∈ childIdsAt g a) r d →
          iv.parentId ≠ d ∧ iv.childId ≠ d) ∧
      (∀ pid nd, getParentId g r = some pid →
        alookup (removeNode g r).nodes pid = some nd → ¬ r ∈ nd.childIds) ∧
      ((removeNode g r).selectedId =
        match getParentId g r with
        | some pid => some pid
        | none => g.startNodeId)) := by
  refine ⟨fun hroot => ?_, fun hne => ?_⟩
  · simp only [removeNode, cloneGraph]
    rw [if_pos hroot]
  · have hS : r ∈ collectSubtree g r := collectSubtree_mem_self g r
    have hbase : ∀ e, e ∈ collectSubtree g r →
        alookup (g.nodes.filter (fun p => ¬ p.1 ∈ collectSubtree g r)) e = none := by
      intro e he
      rw [alookup_eq_none_iff]
      intro hmem
      rcases List.mem_map.mp hmem with ⟨p, hpmem, hpk⟩
      have h2 := (List.mem_filter.mp hpmem).2
      simp at h2
      rw [hpk] at h2
      exact h2 he
    rcases hp : getParentId g r with _ | pid
    · have hrem : removeNode g r = layoutGraphInPlace
          { g with
            intervals := g.intervals.filter (fun p =>
              ¬ (p.2.childId ∈ collectSubtree g r ∨ p.2.parentId ∈ collectSubtree g r)),
            nodes := g.nodes.filter (fun p => ¬ p.1 ∈ collectSubtree g r),
            selectedId := g.startNodeId } := by
        simp only [removeNode, cloneGraph]
        rw [if_neg hne, hp]
      refine ⟨?_, ?_, ?_, ?_⟩
      · intro d hd
        have hdS := reachable_mem_collectSubtree g r d hd
        rw [hrem, layoutGraphInPlace_alookup_none]
        exact hbase d hdS
      · intro iv hiv d hd
        have hdS := reachable_mem_collectSubtree g r d hd
        rw [hrem, layoutGraphInPlace_intervals] at hiv
        have hiv2 : iv ∈ (g.intervals.filter (fun p =>
            ¬ (p.2.childId ∈ collectSubtree g r ∨ p.2.parentId ∈ collectSubtree g r))).map
              Prod.snd := hiv
        rcases List.mem_map.mp hiv2 with ⟨p, hpmem, hpsnd⟩
        have h2 := (List.mem_filter.mp hpmem).2
        simp at h2
        rw [hpsnd] at h2
        exact ⟨fun he => h2.2 (by rw [he]; exact hdS), fun he => h2.1 (by rw [he]; exact hdS)⟩
      · intro pid nd hpid hnd
        exact Option.noConfusion hpid
      · rw [hrem, layoutGraphInPlace_selectedId]
    · have hrem : removeNode g r = layoutGraphInPlace
          { (if (alookup (g.nodes.filter (fun p => ¬ p.1 ∈ collectSubtree g r)) pid).isSome
              = true then
              { g with
                intervals := g.intervals.filter (fun p =>
                  ¬ (p.2.childId ∈ collectSubtree g r ∨ p.2.parentId ∈ collectSubtree g r)),
                nodes := amodify (g.nodes.filter (fun p => ¬ p.1 ∈ collectSubtree g r)) pid
                  (fun p => { p with childIds :=
                    p.childIds.filter (fun c => ¬ c ∈ collectSubtree g r) }) }
            else
              { g with
                intervals := g.intervals.filter (fun p =>
                  ¬ (p.2.childId ∈ collectSubtree g r ∨ p.2.parentId ∈ collectSubtree g r)),
                nodes := g.nodes.filter (fun p => ¬ p.1 ∈ collectSubtree g r) })
            with selectedId := some pid } := by
        simp only [removeNode, cloneGraph]
        rw [if_neg hne, hp]
      by_cases hps : (alookup (g.nodes.filter (fun p => ¬ p.1 ∈ collectSubtree g r))
          pid).isSome = true
      · rw [if_pos hps] at hrem
        refine ⟨?_, ?_, ?_, ?_⟩
        · intro d hd
          have hdS := reachable_mem_collectSubtree g r d hd
          rw [hrem, layoutGraphInPlace_alookup_none]
          show alookup (amodify (g.nodes.filter (fun p => ¬ p.1 ∈ collectSubtree g r)) pid
            (fun p => { p with childIds := p.childIds.filter (fun c => ¬ c ∈ collectSubtree g r) }))
            d = none
          rw [alookup_amodify, hbase d hdS]
          by_cases hdp : d = pid
          · rw [if_pos hdp]
            rfl
          · rw [if_neg hdp]
        · intro iv hiv d hd
          have hdS := reachable_mem_collectSubtree g r d hd
          rw [hrem, layoutGraphInPlace_intervals] at hiv
          have hiv2 : iv ∈ (g.intervals.filter (fun p =>
              ¬ (p.2.childId ∈ collectSubtree g r ∨ p.2.parentId ∈ collectSubtree g r))).map
                Prod.snd := hiv
          rcases List.mem_map.mp hiv2 with ⟨p, hpmem, hpsnd⟩
          have h2 := (List.mem_filter.mp hpmem).2
          simp at h2
          rw [hpsnd] at h2
          exact ⟨fun he => h2.2 (by rw [he]; exact hdS),
            fun he => h2.1 (by rw [he]; exact hdS)⟩
        · intro pid0 nd hpid0 hnd
          obtain rfl : pid = pid0 := Option.some.inj hpid0
          intro hr
          rw [hrem] at hnd
          obtain ⟨nd0, h0, hc0⟩ := layoutGraphInPlace_childIds_sub _ pid r nd hnd hr
          have h0x : alookup (amodify (g.nodes.filter (fun p => ¬ p.1 ∈ collectSubtree g r))
              pid
              (fun p => { p with childIds := p.childIds.filter (fun c => ¬ c ∈ collectSubtree g r) }))
              pid = some nd0 := h0
          rw [alookup_amodify_self] at h0x
          rcases halk2 : alookup (g.nodes.filter (fun p => ¬ p.1 ∈ collectSubtree g r)) pid
            with _ | v
          · rw [halk2] at h0x
            exact Option.noConfusion h0x
          · rw [halk2] at h0x
            simp only [Option.map_some'] at h0x
            have hinj := Option.some.inj h0x
            rw [← hinj] at hc0
            have hc1 : r ∈ v.childIds.filter (fun c => ¬ c ∈ collectSubtree g r) := hc0
            have h5 := (List.mem_filter.mp hc1).2
            simp at h5
            exact h5 hS
        · rw [hrem, layoutGraphInPlace_selectedId]
      · rw [if_neg hps] at hrem
        refine ⟨?_, ?_, ?_, ?_⟩
        · intro d hd
          have hdS := reachable_mem_collectSubtree g r d hd
          rw [hrem, layoutGraphInPlace_alookup_none]
          exact hbase d hdS
        · intro iv hiv d hd
          have hdS := reachable_mem_collectSubtree g r d hd
          rw [hrem, layoutGraphInPlace_intervals] at hiv
          have hiv2 : iv ∈ (g.intervals.filter (fun p =>
              ¬ (p.2.childId ∈ collectSubtree g r ∨ p.2.parentId ∈ collectSubtree g r))).map
                Prod.snd := hiv
          rcases List.mem_map.mp hiv2 with ⟨p, hpmem, hpsnd⟩
          have h2 := (List.mem_filter.mp hpmem).2
          simp at h2
          rw [hpsnd] at h2
          exact ⟨fun he => h2.2 (by rw [he]; exact hdS),
            fun he => h2.1 (by rw [he]; exact hdS)⟩
        · intro pid0 nd hpid0 hnd
          obtain rfl : pid = pid0 := Option.some.inj hpid0
          intro hr
          rw [hrem] at hnd
          obtain ⟨nd0, h0, hc0⟩ := layoutGraphInPlace_childIds_sub _ pid r nd hnd hr
          have h0x : alookup (g.nodes.filter (fun p => ¬ p.1 ∈ collectSubtree g r)) pid
            = some nd0 := h0
          exact hps (by rw [h0x]; rfl)
        · rw [hrem, layoutGraphInPlace_selectedId]

/-- Witness for C7 at a concrete branch graph: removing leaf `a` deletes
it and selects the parent. -/
theorem C7_subtree_removal_witness :
    gBranch.startNodeId ≠ some "a" ∧
    alookup (removeNode gBranch "a").nodes "a" = none ∧
    (removeNode gBranch "a").selectedId = some "p" := by
  have h := (C7_subtree_removal gBranch "a").2 (by decide)
  exact ⟨by decide, h.1 "a" Relation.ReflTransGen.refl, (h.2.2.2).trans (by decide)⟩

/-! ## Recompute frame machinery (claims C1, C4, C5)

The recompute passes fold step functions over key lists. The frame lemmas
below track, per step, which entries can change and which record fields
survive, so that the behaviour at a designated parent can be read off a
whole `recomputeGraph` run. -/

theorem alookup_mem (l : List (String × α)) (k : String) (v : α)
    (h : alookup l k = some v) : (k, v) ∈ l := by
  induction l with
  | nil => exact Option.noConfusion h
  | cons p t ih =>
    rw [alookup_cons] at h
    by_cases hp : p.1 = k
    · rw [if_pos hp] at h
      have hv := Option.some.inj h
      have hpe : p = (k, v) := by
        obtain ⟨a, b⟩ := p
        simp only [] at hp hv
        rw [hp, hv]
      exact hpe ▸ List.mem_cons_self p t
    · rw [if_neg hp] at h
      exact List.mem_cons_of_mem p (ih h)

theorem alookup_of_mem_nodup (l : List (String × α)) (k : String) (v : α)
    (hnd : (l.map Prod.fst).Nodup) (hmem : (k, v) ∈ l) : alookup l k = some v := by
  induction l with
  | nil => exact absurd hmem (List.not_mem_nil _)
  | cons p t ih =>
    rw [List.map_cons] at hnd
    have hnd2 := List.nodup_cons.mp hnd
    rw [alookup_cons]
    rcases List.mem_cons.mp hmem with h | h
    · rw [← h]
      simp
    · have hp : ¬ p.1 = k := by
        intro he
        exact hnd2.1 (he ▸ (List.mem_map.mpr ⟨(k, v), h, rfl⟩))
      rw [if_neg hp]
      exact ih hnd2.2 h

theorem mem_amodify (l : List (String × α)) (k : String) (f : α → α) (pr : String × α)
    (h : pr ∈ amodify l k f) :
    ∃ pr0 ∈ l, pr.1 = pr0.1 ∧ (pr.2 = pr0.2 ∨ pr.2 = f pr0.2) := by
  rcases List.mem_map.mp h with ⟨pr0, h0, he⟩
  by_cases hp : pr0.1 = k
  · rw [if_pos hp] at he
    exact ⟨pr0, h0, by rw [← he], Or.inr (by rw [← he])⟩
  · rw [if_neg hp] at he
    exact ⟨pr0, h0, by rw [← he], Or.inl (by rw [← he])⟩

/-- Splitting a `Nodup` key list at a designated member. -/
theorem nodup_split (l : List String) (p : String) (hnd : l.Nodup) (hmem : p ∈ l) :
    ∃ l1 l2, l = l1 ++ p :: l2 ∧ ¬ p ∈ l1 ∧ ¬ p ∈ l2 := by
  rcases List.mem_iff_append.mp hmem with ⟨l1, l2, he⟩
  refine ⟨l1, l2, he, ?_, ?_⟩
  · intro h1
    rw [he] at hnd
    rcases List.nodup_append.mp hnd with ⟨_, _, hdisj⟩
    exact hdisj h1 (List.mem_cons_self p l2)
  · intro h2
    rw [he] at hnd
    rcases List.nodup_append.mp hnd with ⟨_, hnd2, _⟩
    exact (List.nodup_cons.mp hnd2).1 h2

/-- Invariant preservation along a pure fold. -/
theorem foldl_pres (P : σ → Prop) (step : σ → β → σ)
    (hstep : ∀ s x, P s → P (step s x)) :
    ∀ (l : List β) (s : σ), P s → P (l.foldl step s) := by
  intro l
  induction l with
  | nil => intro s hs; exact hs
  | cons x xs ih => intro s hs; exact ih (step s x) (hstep s x hs)

/-- Invariant preservation along an `Except` fold that succeeded. -/
theorem foldlM_pres (P : σ → Prop) (step : σ → β → Except String σ)
    (hstep : ∀ s x s2, P s → step s x = Except.ok s2 → P s2) :
    ∀ (l : List β) (s : σ) (g2 : σ),
      l.foldlM step s = Except.ok g2 → P s → P g2 := by
  intro l
  induction l with
  | nil =>
    intro s g2 hfold hs
    rw [List.foldlM_nil] at hfold
    rw [← Except.ok.inj hfold]
    exact hs
  | cons x xs ih =>
    intro s g2 hfold hs
    rw [List.foldlM_cons] at hfold
    rcases hx : step s x with e | s2
    · rw [hx] at hfold
      exact Except.noConfusion hfold
    · rw [hx] at hfold
      exact ih s2 g2 hfold (hstep s x s2 hs hx)

theorem foldl_sub_eq (f : String → Int) :
    ∀ (l : List String) (a : Int),
      l.foldl (fun acc c => acc - f c) a = a - (l.map f).sum := by
  intro l
  induction l with
  | nil => intro a; simp
  | cons c cs ih =>
    intro a
    rw [List.foldl_cons, ih]
    simp only [List.map_cons, List.sum_cons]
    omega

theorem foldl_pres_mem (P : σ → Prop) (step : σ → β → σ) :
    ∀ (l : List β), (∀ s x, x ∈ l → P s → P (step s x)) →
      ∀ (s : σ), P s → P (l.foldl step s) := by
  intro l
  induction l with
  | nil => intro _ s hs; exact hs
  | cons x xs ih =>
    intro hstep s hs
    rw [List.foldl_cons]
    exact ih (fun s2 y hy h2 => hstep s2 y (List.mem_cons_of_mem x hy) h2)
      (step s x) (hstep s x (List.mem_cons_self x xs) hs)

/-! ### Pass 1 step lemmas (`recomputeExcStep`) -/

theorem excStep_nodes (fresh : Nat → String) (g : GraphState) (ik : Nat × String) :
    (recomputeExcStep fresh g ik).nodes = g.nodes := by
  rcases h : alookup g.intervals ik.2 with _ | iv
  · simp only [recomputeExcStep, h]
  · simp only [recomputeExcStep, h]
    split <;> rfl

theorem excStep_ivl_keys (fresh : Nat → String) (g : GraphState) (ik : Nat × String) :
    (recomputeExcStep fresh g ik).intervals.map Prod.fst = g.intervals.map Prod.fst := by
  rcases h : alookup g.intervals ik.2 with _ | iv
  · simp only [recomputeExcStep, h]
  · simp only [recomputeExcStep, h]
    split
    · show (amodify g.intervals ik.2 (fun iv => { iv with exclusion := none })).map Prod.fst = g.intervals.map Prod.fst
      exact amodify_keys g.intervals ik.2 _
    · show (amodify g.intervals ik.2
        (fun iv2 => { iv2 with exclusion := some (ensureOtherReason (fresh ik.1) (iv.exclusion.getD createDefaultExclusion)) })).map Prod.fst = g.intervals.map Prod.fst
      exact amodify_keys g.intervals ik.2 _

theorem excStep_ivl_frame (fresh : Nat → String) (g : GraphState) (ik : Nat × String)
    (j : String) (hj : j ≠ ik.2) :
    alookup (recomputeExcStep fresh g ik).intervals j = alookup g.intervals j := by
  rcases h : alookup g.intervals ik.2 with _ | iv
  · simp only [recomputeExcStep, h]
  · simp only [recomputeExcStep, h]
    split
    · show alookup (amodify g.intervals ik.2 (fun iv => { iv with exclusion := none })) j = alookup g.intervals j
      exact alookup_amodify_ne g.intervals ik.2 j _ hj
    · show alookup (amodify g.intervals ik.2
        (fun iv2 => { iv2 with exclusion := some (ensureOtherReason (fresh ik.1) (iv.exclusion.getD createDefaultExclusion)) })) j = alookup g.intervals j
      exact alookup_amodify_ne g.intervals ik.2 j _ hj

theorem excStep_at (fresh : Nat → String) (g : GraphState) (ik : Nat × String)
    (iv : Interval) (h : alookup g.intervals ik.2 = some iv) :
    alookup (recomputeExcStep fresh g ik).intervals ik.2 = some
      (if (childIdsAt g iv.parentId).length > 1 then { iv with exclusion := none }
       else { iv with exclusion := some (ensureOtherReason (fresh ik.1) (iv.exclusion.getD createDefaultExclusion)) }) := by
  simp only [recomputeExcStep, h]
  split
  · show alookup (amodify g.intervals ik.2 (fun iv => { iv with exclusion := none })) ik.2
      = some ({ iv with exclusion := none })
    rw [alookup_amodify_self, h]
    rfl
  · show alookup (amodify g.intervals ik.2
      (fun iv2 => { iv2 with exclusion := some (ensureOtherReason (fresh ik.1) (iv.exclusion.getD createDefaultExclusion)) })) ik.2
      = some ({ iv with exclusion := some (ensureOtherReason (fresh ik.1) (iv.exclusion.getD createDefaultExclusion)) })
    rw [alookup_amodify_self, h]
    rfl

/-- Cumulative effect of pass 1 on an interval entry: endpoints and delta
survive; the exclusion is cleared under a branching parent, otherwise it is
ensured present with its total unchanged. -/
theorem passA_total (fresh : Nat → String) (g : GraphState)
    (hnd : (g.intervals.map Prod.fst).Nodup) (j : String) (iv : Interval)
    (h : alookup g.intervals j = some iv) :
    ∃ iv2, alookup ((g.intervals.map Prod.fst).enum.foldl
        (recomputeExcStep fresh) g).intervals j = some iv2 ∧
      iv2.parentId = iv.parentId ∧ iv2.childId = iv.childId ∧ iv2.delta = iv.delta ∧
      iv2.arrow = iv.arrow ∧
      ((childIdsAt g iv.parentId).length > 1 → iv2.exclusion = none) ∧
      (¬ (childIdsAt g iv.parentId).length > 1 →
        iv2.exclusion.isSome = true ∧
        iv2.exclusion.bind (fun e => e.total) = iv.exclusion.bind (fun e => e.total)) := by
  have hjmem : j ∈ g.intervals.map Prod.fst := mem_keys_of_alookup _ _ _ h
  have hsnd : ((g.intervals.map Prod.fst).enum.map Prod.snd) = g.intervals.map Prod.fst :=
    List.enum_map_snd _
  have hjmem2 : j ∈ ((g.intervals.map Prod.fst).enum).map Prod.snd := by
    rw [hsnd]; exact hjmem
  rcases List.mem_map.mp hjmem2 with ⟨e, he, hej⟩
  have hidx : ((e.1 : Nat), j) ∈ (g.intervals.map Prod.fst).enum := by
    rw [show ((e.1 : Nat), j) = e from by rw [← hej]]
    exact he
  rcases List.mem_iff_append.mp hidx with ⟨E1, E2, hE⟩
  set idx := e.1 with hidxdef
  have hnodupE : (((g.intervals.map Prod.fst).enum).map Prod.snd).Nodup := by
    rw [hsnd]; exact hnd
  have hnd3 : ¬ j ∈ E1.map Prod.snd ∧ ¬ j ∈ E2.map Prod.snd := by
    rw [hE] at hnodupE
    simp only [List.map_append, List.map_cons] at hnodupE
    rcases List.nodup_append.mp hnodupE with ⟨h1, h2, hdisj⟩
    have h2c := List.nodup_cons.mp h2
    exact ⟨fun hmem => (hdisj hmem) (List.mem_cons_self _ _), h2c.1⟩
  have hjE1 : ∀ x ∈ E1, x.2 ≠ j := fun x hx hxj =>
    hnd3.1 (List.mem_map.mpr ⟨x, hx, hxj⟩)
  have hjE2 : ∀ x ∈ E2, x.2 ≠ j := fun x hx hxj =>
    hnd3.2 (List.mem_map.mpr ⟨x, hx, hxj⟩)
  rw [hE, List.foldl_append, List.foldl_cons]
  -- state after E1: nodes unchanged, entry j unchanged
  have hP1 : (E1.foldl (recomputeExcStep fresh) g).nodes = g.nodes ∧
      alookup (E1.foldl (recomputeExcStep fresh) g).intervals j = some iv := by
    refine foldl_pres_mem
      (fun s => s.nodes = g.nodes ∧ alookup s.intervals j = some iv)
      (recomputeExcStep fresh) E1 ?_ g ⟨rfl, h⟩
    intro s x hx hs
    refine ⟨(excStep_nodes fresh s x).trans hs.1, ?_⟩
    rw [excStep_ivl_frame fresh s x j (hjE1 x hx).symm]
    exact hs.2
  set g1 := E1.foldl (recomputeExcStep fresh) g with hg1
  have hstep := excStep_at fresh g1 (idx, j) iv hP1.2
  have hchId : childIdsAt g1 iv.parentId = childIdsAt g iv.parentId := by
    unfold childIdsAt
    rw [hP1.1]
  rw [hchId] at hstep
  -- state after E2
  have hP2 : alookup (E2.foldl (recomputeExcStep fresh)
      (recomputeExcStep fresh g1 (idx, j))).intervals j =
      alookup (recomputeExcStep fresh g1 (idx, j)).intervals j := by
    refine foldl_pres_mem
      (fun s => alookup s.intervals j =
        alookup (recomputeExcStep fresh g1 (idx, j)).intervals j)
      (recomputeExcStep fresh) E2 ?_ _ rfl
    intro s x hx hs
    rw [excStep_ivl_frame fresh s x j (hjE2 x hx).symm]
    exact hs
  rw [hP2, hstep]
  by_cases hb : (childIdsAt g iv.parentId).length > 1
  · rw [if_pos hb]
    exact ⟨_, rfl, rfl, rfl, rfl, rfl, fun _ => rfl, fun hnb => absurd hb hnb⟩
  · rw [if_neg hb]
    refine ⟨_, rfl, rfl, rfl, rfl, rfl, fun hbb => absurd hbb hb, fun _ => ⟨rfl, ?_⟩⟩
    rcases hex : iv.exclusion with _ | ex
    · simp [Option.bind, hex, ensureOtherReason_total, createDefaultExclusion]
    · simp [Option.bind, hex, ensureOtherReason_total]

/-! ### `initializeBranchChildren` characterization -/

theorem ibc_fold_frame (base : Int) :
    ∀ (cs : List String) (st : GraphState × Int) (x : String), ¬ x ∈ cs →
      alookup ((cs.foldl (fun (acc : GraphState × Int) cid =>
          ({ acc.1 with nodes := amodify acc.1.nodes cid (fun c => { c with n := some (if acc.2 > 0 then base + 1 else base) }) },
            if acc.2 > 0 then acc.2 - 1 else acc.2)) st).1).nodes x
        = alookup st.1.nodes x := by
  intro cs
  induction cs with
  | nil => intro st x _; rfl
  | cons c0 cs ih =>
    intro st x hx
    rw [List.foldl_cons]
    have hx2 : ¬ x ∈ cs := fun h => hx (List.mem_cons_of_mem c0 h)
    rw [ih _ x hx2]
    show alookup (amodify st.1.nodes c0 (fun c => { c with n := some (if st.2 > 0 then base + 1 else base) })) x = alookup st.1.nodes x
    exact alookup_amodify_ne _ _ _ _ (fun h => hx (h ▸ List.mem_cons_self c0 cs))

theorem ibc_fold_mem (base : Int) :
    ∀ (cs : List String) (st : GraphState × Int) (pr : String × BoxNode),
      pr ∈ ((cs.foldl (fun (acc : GraphState × Int) cid =>
          ({ acc.1 with nodes := amodify acc.1.nodes cid (fun c => { c with n := some (if acc.2 > 0 then base + 1 else base) }) },
            if acc.2 > 0 then acc.2 - 1 else acc.2)) st).1).nodes →
      ∃ pr0 ∈ st.1.nodes, pr.1 = pr0.1 ∧ pr.2.id = pr0.2.id ∧
        pr.2.childIds = pr0.2.childIds := by
  intro cs
  induction cs with
  | nil => intro st pr h; exact ⟨pr, h, rfl, rfl, rfl⟩
  | cons c0 cs ih =>
    intro st pr h
    rw [List.foldl_cons] at h
    rcases ih _ pr h with ⟨pr1, h1, hk, hid, hch⟩
    have h1b : pr1 ∈ amodify st.1.nodes c0 (fun c => { c with n := some (if st.2 > 0 then base + 1 else base) }) := h1
    rcases mem_amodify st.1.nodes c0 _ pr1 h1b with ⟨pr0, h0, hk0, hv0⟩
    refine ⟨pr0, h0, hk.trans hk0, ?_, ?_⟩
    · rcases hv0 with he | he
      · rw [hid, he]
      · rw [hid, he]
    · rcases hv0 with he | he
      · rw [hch, he]
      · rw [hch, he]

theorem ibc_fold_assign (base : Int) :
    ∀ (cs : List String) (st : GraphState × Int), cs.Nodup →
      ∀ (i : Nat) (c : String), cs.get? i = some c →
        alookup ((cs.foldl (fun (acc : GraphState × Int) cid =>
            ({ acc.1 with nodes := amodify acc.1.nodes cid (fun c => { c with n := some (if acc.2 > 0 then base + 1 else base) }) },
              if acc.2 > 0 then acc.2 - 1 else acc.2)) st).1).nodes c
          = (alookup st.1.nodes c).map
              (fun C => { C with n := some (base + (if (i : Int) < st.2 then 1 else 0)) }) := by
  intro cs
  induction cs with
  | nil => intro st _ i c hc; exact Option.noConfusion hc
  | cons c0 cs ih =>
    intro st hnd i c hc
    have hnd2 := List.nodup_cons.mp hnd
    rw [List.foldl_cons]
    rcases i with _ | i
    · have hcc : c = c0 := (Option.some.inj hc).symm
      subst hcc
      rw [ibc_fold_frame base cs _ c hnd2.1]
      show alookup (amodify st.1.nodes c (fun c => { c with n := some (if st.2 > 0 then base + 1 else base) })) c = _
      rw [alookup_amodify_self]
      have hfe : (fun C : BoxNode =>
          { C with n := some (if st.2 > 0 then base + 1 else base) })
          = (fun C : BoxNode =>
          { C with n := some (base + (if ((0 : Nat) : Int) < st.2 then 1 else 0)) }) := by
        funext C
        by_cases h2 : st.2 > 0
        · simp only [if_pos h2, if_pos (show ((0 : Nat) : Int) < st.2 by exact_mod_cast h2)]
        · have h3 : ¬ ((0 : Nat) : Int) < st.2 := by
            intro hh
            exact h2 (by exact_mod_cast hh)
          simp only [if_neg h2, if_neg h3]
          rw [Int.add_zero]
      rw [hfe]
    · have hc2 : cs.get? i = some c := hc
      have hcmem : c ∈ cs := List.get?_mem hc2
      have hcc0 : ¬ c = c0 := fun h => hnd2.1 (h ▸ hcmem)
      rw [ih _ hnd2.2 i c hc2]
      show (alookup (amodify st.1.nodes c0 (fun c => { c with n := some (if st.2 > 0 then base + 1 else base) })) c).map
        (fun C : BoxNode => { C with n := some (base + (if (i : Int) < (if st.2 > 0 then st.2 - 1 else st.2) then 1 else 0)) }) = _
      rw [alookup_amodify_ne _ _ _ _ hcc0]
      have hfe : (fun C : BoxNode =>
          { C with n := some (base + (if (i : Int) < (if st.2 > 0 then st.2 - 1 else st.2)
            then 1 else 0)) })
          = (fun C : BoxNode =>
          { C with n := some (base + (if ((i + 1 : Nat) : Int) < st.2 then 1 else 0)) }) := by
        funext C
        have hiff : ((i : Int) < (if st.2 > 0 then st.2 - 1 else st.2))
            ↔ (((i + 1 : Nat) : Int) < st.2) := by
          by_cases h2 : st.2 > 0
          · rw [if_pos h2]
            push_cast
            omega
          · rw [if_neg h2]
            push_cast
            omega
        by_cases hlt : (i : Int) < (if st.2 > 0 then st.2 - 1 else st.2)
        · rw [if_pos hlt, if_pos (hiff.mp hlt)]
        · rw [if_neg hlt, if_neg (fun hh => hlt (hiff.mpr hh))]
      rw [hfe]

theorem IBC_intervals (g : GraphState) (par : BoxNode) :
    (initializeBranchChildren g par).intervals = g.intervals := by
  simp only [initializeBranchChildren]
  split
  · rfl
  · split
    · rfl
    · split
      · rfl
      · split
        · rfl
        · refine foldl_fst_invariant (fun s : GraphState => s.intervals) _ ?_ _ _
          intro acc cw
          rfl

theorem IBC_frame (g : GraphState) (par : BoxNode) (x : String)
    (hx : ¬ x ∈ par.childIds) :
    alookup (initializeBranchChildren g par).nodes x = alookup g.nodes x := by
  simp only [initializeBranchChildren]
  split
  · rfl
  · split
    · rfl
    · split
      · rfl
      · split
        · rfl
        · refine ibc_fold_frame _ _ _ x ?_
          intro hmem
          exact hx (List.mem_of_mem_filter hmem)

theorem IBC_defined_frame (g : GraphState) (par : BoxNode) (x : String) (nd : BoxNode)
    (v : Int) (hx : alookup g.nodes x = some nd) (hv : nd.n = some v) :
    alookup (initializeBranchChildren g par).nodes x = some nd := by
  simp only [initializeBranchChildren]
  split
  · exact hx
  · split
    · exact hx
    · split
      · exact hx
      · split
        · exact hx
        · next hany =>
          by_cases hxk : x ∈ par.childIds.filter (fun cid => (alookup g.nodes cid).isSome)
          · exfalso
            apply hany
            refine List.any_eq_true.mpr ⟨nd, List.mem_filterMap.mpr ⟨x, hxk, hx⟩, ?_⟩
            rw [hv]
            rfl
          · rw [ibc_fold_frame _ _ _ x hxk]
            exact hx

theorem IBC_mem (g : GraphState) (par : BoxNode) (pr : String × BoxNode)
    (h : pr ∈ (initializeBranchChildren g par).nodes) :
    ∃ pr0 ∈ g.nodes, pr.1 = pr0.1 ∧ pr.2.id = pr0.2.id ∧
      pr.2.childIds = pr0.2.childIds := by
  simp only [initializeBranchChildren] at h
  split at h
  · exact ⟨pr, h, rfl, rfl, rfl⟩
  · split at h
    · exact ⟨pr, h, rfl, rfl, rfl⟩
    · split at h
      · exact ⟨pr, h, rfl, rfl, rfl⟩
      · split at h
        · exact ⟨pr, h, rfl, rfl, rfl⟩
        · exact ibc_fold_mem _ _ _ pr h

theorem IBC_noop (g : GraphState) (par : BoxNode) (c : String) (C : BoxNode)
    (hc : c ∈ par.childIds) (hC : alookup g.nodes c = some C)
    (hs : C.n.isSome = true) : initializeBranchChildren g par = g := by
  simp only [initializeBranchChildren]
  split
  · rfl
  · split
    · rfl
    · split
      · rfl
      · split
        · rfl
        · next hany =>
          exfalso
          apply hany
          refine List.any_eq_true.mpr ⟨C, List.mem_filterMap.mpr ⟨c, ?_, hC⟩, hs⟩
          refine List.mem_filter.mpr ⟨hc, ?_⟩
          rw [hC]
          rfl

theorem IBC_assign (g : GraphState) (par : BoxNode) (n : Int)
    (hnd : par.childIds.Nodup) (hm : 2 ≤ par.childIds.length) (hn : par.n = some n)
    (hnull : ∀ c ∈ par.childIds, ∃ C, alookup g.nodes c = some C ∧ C.n = none) :
    ∀ (i : Nat) (c : String), par.childIds.get? i = some c →
      alookup (initializeBranchChildren g par).nodes c
        = (alookup g.nodes c).map (fun C => { C with n := some (evenSplitValue n par.childIds.length i) }) := by
  intro i c hc
  have hfilter : par.childIds.filter (fun cid => (alookup g.nodes cid).isSome)
      = par.childIds := by
    apply List.filter_eq_self.mpr
    intro c2 hcm
    rcases hnull c2 hcm with ⟨C, hC, _⟩
    rw [hC]
    rfl
  have hanyf : ¬ (par.childIds.filterMap (fun cid => alookup g.nodes cid)).any
      (fun c => c.n.isSome) = true := by
    intro hany
    rcases List.any_eq_true.mp hany with ⟨C, hCmem, hCs⟩
    rcases List.mem_filterMap.mp hCmem with ⟨c2, hc2, hlk⟩
    rcases hnull c2 hc2 with ⟨C2, hC2, hnone⟩
    rw [hC2] at hlk
    rw [← Option.some.inj hlk] at hCs
    rw [hnone] at hCs
    exact Bool.noConfusion hCs
  simp only [initializeBranchChildren, hn]
  rw [if_neg (Nat.not_lt.mpr hm)]
  rw [hfilter]
  rw [if_neg (show ¬ par.childIds.length = 0 by omega)]
  rw [if_neg hanyf]
  rw [ibc_fold_assign _ _ _ hnd i c hc]
  rfl

theorem ibc_fold_keys (base : Int) :
    ∀ (cs : List String) (st : GraphState × Int),
      ((cs.foldl (fun (acc : GraphState × Int) cid =>
          ({ acc.1 with nodes := amodify acc.1.nodes cid (fun c => { c with n := some (if acc.2 > 0 then base + 1 else base) }) },
            if acc.2 > 0 then acc.2 - 1 else acc.2)) st).1).nodes.map Prod.fst
        = st.1.nodes.map Prod.fst := by
  intro cs
  induction cs with
  | nil => intro st; rfl
  | cons c0 cs ih =>
    intro st
    rw [List.foldl_cons, ih]
    show (amodify st.1.nodes c0 (fun c => { c with n := some (if st.2 > 0 then base + 1 else base) })).map Prod.fst = st.1.nodes.map Prod.fst
    exact amodify_keys _ _ _

theorem IBC_keys (g : GraphState) (par : BoxNode) :
    (initializeBranchChildren g par).nodes.map Prod.fst = g.nodes.map Prod.fst := by
  simp only [initializeBranchChildren]
  split
  · rfl
  · split
    · rfl
    · split
      · rfl
      · split
        · rfl
        · exact ibc_fold_keys _ _ _

/-! ### Pass 2 step lemmas (`recomputeInitStep`) -/

theorem initStep_intervals (settings : AppSettings) (g : GraphState) (k : String) :
    (recomputeInitStep settings g k).intervals = g.intervals := by
  rcases h : alookup g.nodes k with _ | node
  · simp only [recomputeInitStep, h]
  · simp only [recomputeInitStep, h]
    split
    · exact IBC_intervals g node
    · rfl

theorem initStep_keys (settings : AppSettings) (g : GraphState) (k : String) :
    (recomputeInitStep settings g k).nodes.map Prod.fst = g.nodes.map Prod.fst := by
  rcases h : alookup g.nodes k with _ | node
  · simp only [recomputeInitStep, h]
  · simp only [recomputeInitStep, h]
    split
    · exact IBC_keys g node
    · rfl

theorem initStep_frame (settings : AppSettings) (g : GraphState) (k : String)
    (x : String) (hx : ¬ x ∈ childIdsAt g k) :
    alookup (recomputeInitStep settings g k).nodes x = alookup g.nodes x := by
  rcases h : alookup g.nodes k with _ | node
  · simp only [recomputeInitStep, h]
  · simp only [recomputeInitStep, h]
    split
    · refine IBC_frame g node x ?_
      intro hmem
      apply hx
      unfold childIdsAt
      rw [h]
      exact hmem
    · rfl

theorem initStep_defined_frame (settings : AppSettings) (g : GraphState) (k : String)
    (x : String) (nd : BoxNode) (v : Int)
    (hx : alookup g.nodes x = some nd) (hv : nd.n = some v) :
    alookup (recomputeInitStep settings g k).nodes x = some nd := by
  rcases h : alookup g.nodes k with _ | node
  · simp only [recomputeInitStep, h]
    exact hx
  · simp only [recomputeInitStep, h]
    split
    · exact IBC_defined_frame g node x nd v hx hv
    · exact hx

theorem initStep_mem (settings : AppSettings) (g : GraphState) (k : String)
    (pr : String × BoxNode) (h2 : pr ∈ (recomputeInitStep settings g k).nodes) :
    ∃ pr0 ∈ g.nodes, pr.1 = pr0.1 ∧ pr.2.id = pr0.2.id ∧
      pr.2.childIds = pr0.2.childIds := by
  rcases h : alookup g.nodes k with _ | node
  · simp only [recomputeInitStep, h] at h2
    exact ⟨pr, h2, rfl, rfl, rfl⟩
  · simp only [recomputeInitStep, h] at h2
    split at h2
    · exact IBC_mem g node pr h2
    · exact ⟨pr, h2, rfl, rfl, rfl⟩

/-! ### Pass 3 step lemmas (`recomputeLastFillStep`) -/

/-- `recomputeLastFillStep` is either the identity or a single count write
to the parent's last child, which was null. -/
theorem lastFill_shape (g : GraphState) (k : String) :
    recomputeLastFillStep g k = g ∨
    ∃ (node : BoxNode) (lastChildId : String) (value : Int),
      alookup g.nodes k = some node ∧
      node.childIds.getLast? = some lastChildId ∧
      (∃ lastC, alookup g.nodes lastChildId = some lastC ∧ lastC.n = none) ∧
      recomputeLastFillStep g k
        = { g with nodes := amodify g.nodes lastChildId (fun c => { c with n := some value }) } := by
  rcases h : alookup g.nodes k with _ | node
  · left
    simp only [recomputeLastFillStep, h]
  · by_cases hlen : node.childIds.length > 1
    · rcases hn : node.n with _ | n
      · left
        simp only [recomputeLastFillStep, h, hn, if_pos hlen]
      · rcases hlast : node.childIds.getLast? with _ | lastChildId
        · left
          simp only [recomputeLastFillStep, h, hn, hlast, if_pos hlen]
        · rcases hlc : alookup g.nodes lastChildId with _ | lastC
          · left
            simp only [recomputeLastFillStep, h, hn, hlast, hlc, if_pos hlen]
          · rcases hlcn : lastC.n with _ | lv
            · simp only [recomputeLastFillStep, h, hn, hlast, hlc, hlcn, if_pos hlen]
              split
              · right
                exact ⟨node, lastChildId, _, rfl, hlast, ⟨lastC, hlc, hlcn⟩, rfl⟩
              · left
                rfl
            · left
              simp only [recomputeLastFillStep, h, hn, hlast, hlc, hlcn, if_pos hlen]
    · left
      simp only [recomputeLastFillStep, h, if_neg hlen]

theorem lastFill_intervals (g : GraphState) (k : String) :
    (recomputeLastFillStep g k).intervals = g.intervals := by
  rcases lastFill_shape g k with he | ⟨node, lastChildId, value, _, _, _, he⟩
  · rw [he]
  · rw [he]

theorem lastFill_keys (g : GraphState) (k : String) :
    (recomputeLastFillStep g k).nodes.map Prod.fst = g.nodes.map Prod.fst := by
  rcases lastFill_shape g k with he | ⟨node, lastChildId, value, _, _, _, he⟩
  · rw [he]
  · rw [he]
    show (amodify g.nodes lastChildId (fun c => { c with n := some value })).map Prod.fst = g.nodes.map Prod.fst
    exact amodify_keys _ _ _

theorem lastFill_frame (g : GraphState) (k : String) (x : String)
    (hx : ¬ x ∈ childIdsAt g k) :
    alookup (recomputeLastFillStep g k).nodes x = alookup g.nodes x := by
  rcases lastFill_shape g k with he | ⟨node, lastChildId, value, hnode, hlast, _, he⟩
  · rw [he]
  · rw [he]
    show alookup (amodify g.nodes lastChildId (fun c => { c with n := some value })) x = alookup g.nodes x
    refine alookup_amodify_ne _ _ _ _ ?_
    intro hxe
    apply hx
    unfold childIdsAt
    rw [hnode]
    subst hxe
    exact List.mem_of_mem_getLast? hlast

theorem lastFill_defined_frame (g : GraphState) (k : String) (x : String) (nd : BoxNode)
    (v : Int) (hx : alookup g.nodes x = some nd) (hv : nd.n = some v) :
    alookup (recomputeLastFillStep g k).nodes x = some nd := by
  rcases lastFill_shape g k with he | ⟨node, lastChildId, value, hnode, hlast, hnull, he⟩
  · rw [he]
    exact hx
  · rw [he]
    rcases hnull with ⟨lastC, hlc, hlcn⟩
    have hxne : x ≠ lastChildId := by
      intro hxe
      rw [hxe, hlc] at hx
      rw [← Option.some.inj hx] at hv
      rw [hlcn] at hv
      exact Option.noConfusion hv
    show alookup (amodify g.nodes lastChildId (fun c => { c with n := some value })) x = some nd
    rw [alookup_amodify_ne _ _ _ _ hxne]
    exact hx

theorem lastFill_mem (g : GraphState) (k : String) (pr : String × BoxNode)
    (h2 : pr ∈ (recomputeLastFillStep g k).nodes) :
    ∃ pr0 ∈ g.nodes, pr.1 = pr0.1 ∧ pr.2.id = pr0.2.id ∧
      pr.2.childIds = pr0.2.childIds := by
  rcases lastFill_shape g k with he | ⟨node, lastChildId, value, _, _, _, he⟩
  · rw [he] at h2
    exact ⟨pr, h2, rfl, rfl, rfl⟩
  · rw [he] at h2
    have h3 : pr ∈ amodify g.nodes lastChildId (fun c => { c with n := some value }) := h2
    rcases mem_amodify _ _ _ pr h3 with ⟨pr0, h0, hk0, hv0⟩
    refine ⟨pr0, h0, hk0, ?_, ?_⟩
    · rcases hv0 with he2 | he2 <;> rw [he2]
    · rcases hv0 with he2 | he2 <;> rw [he2]

/-! ### `ivlEntryFor` and the branch delta fold -/

theorem ivlEntryFor_mem (g : GraphState) (p c : String) (j : String) (iv : Interval)
    (h : ivlEntryFor g p c = some (j, iv)) :
    (j, iv) ∈ g.intervals ∧ iv.parentId = p ∧ iv.childId = c := by
  have hmem := List.mem_of_mem_getLast? h
  have h2 := List.mem_filter.mp hmem
  have h3 := h2.2
  simp at h3
  exact ⟨h2.1, h3.1, h3.2⟩

theorem deltaFold_nodes (diff : Int) :
    ∀ (l : List (String × Interval)) (gg : GraphState),
      ((l.foldl (fun gg e => { gg with intervals := amodify gg.intervals e.1 (fun iv => { iv with delta := diff }) }) gg)).nodes = gg.nodes := by
  intro l
  induction l with
  | nil => intro gg; rfl
  | cons e es ih => intro gg; rw [List.foldl_cons, ih]

theorem deltaFold_keys (diff : Int) :
    ∀ (l : List (String × Interval)) (gg : GraphState),
      ((l.foldl (fun gg e => { gg with intervals := amodify gg.intervals e.1 (fun iv => { iv with delta := diff }) }) gg)).intervals.map Prod.fst
        = gg.intervals.map Prod.fst := by
  intro l
  induction l with
  | nil => intro gg; rfl
  | cons e es ih =>
    intro gg
    rw [List.foldl_cons, ih]
    show (amodify gg.intervals e.1 (fun iv => { iv with delta := diff })).map Prod.fst = _
    exact amodify_keys _ _ _

theorem deltaFold_mem (diff : Int) :
    ∀ (l : List (String × Interval)) (gg : GraphState) (pr : String × Interval),
      pr ∈ ((l.foldl (fun gg e => { gg with intervals := amodify gg.intervals e.1 (fun iv => { iv with delta := diff }) }) gg)).intervals →
      ∃ pr0 ∈ gg.intervals, pr.1 = pr0.1 ∧ pr.2.parentId = pr0.2.parentId ∧
        pr.2.childId = pr0.2.childId ∧ pr.2.exclusion = pr0.2.exclusion := by
  intro l
  induction l with
  | nil => intro gg pr h; exact ⟨pr, h, rfl, rfl, rfl, rfl⟩
  | cons e es ih =>
    intro gg pr h
    rw [List.foldl_cons] at h
    rcases ih _ pr h with ⟨pr1, h1, hk, hp, hc, hx⟩
    have h1b : pr1 ∈ amodify gg.intervals e.1 (fun iv => { iv with delta := diff }) := h1
    rcases mem_amodify _ _ _ pr1 h1b with ⟨pr0, h0, hk0, hv0⟩
    refine ⟨pr0, h0, hk.trans hk0, ?_, ?_, ?_⟩
    · rcases hv0 with he | he
      · rw [hp, he]
      · rw [hp, he]
    · rcases hv0 with he | he
      · rw [hc, he]
      · rw [hc, he]
    · rcases hv0 with he | he
      · rw [hx, he]
      · rw [hx, he]

theorem deltaFold_frame (diff : Int) :
    ∀ (l : List (String × Interval)) (gg : GraphState) (j : String),
      (∀ e ∈ l, e.1 ≠ j) →
      alookup ((l.foldl (fun gg e => { gg with intervals := amodify gg.intervals e.1 (fun iv => { iv with delta := diff }) }) gg)).intervals j
        = alookup gg.intervals j := by
  intro l
  induction l with
  | nil => intro gg j _; rfl
  | cons e es ih =>
    intro gg j hj
    rw [List.foldl_cons, ih _ j (fun e2 he2 => hj e2 (List.mem_cons_of_mem e he2))]
    show alookup (amodify gg.intervals e.1 (fun iv => { iv with delta := diff })) j = _
    exact alookup_amodify_ne _ _ _ _ (fun he => (hj e (List.mem_cons_self e es)) he.symm)

/-! ### Pass 4 step lemmas (`recomputeDeltaStep`) -/

theorem DSPack_refl (g : GraphState) (k : String) : DSPack g k g :=
  ⟨rfl, rfl, fun _ _ => rfl, fun _ _ _ hh _ => hh,
    fun pr hh => ⟨pr, hh, rfl, rfl, rfl⟩, fun pr hh => ⟨pr, hh, rfl, rfl, rfl⟩,
    fun _ _ _ _ hh _ => hh⟩

theorem DSPack_amodify_ivl (g : GraphState) (k : String) (g2 : GraphState) (ik : String)
    (iv : Interval) (node : BoxNode) (f : Interval → Interval)
    (hf : ∀ v, (f v).parentId = v.parentId ∧ (f v).childId = v.childId)
    (hp : DSPack g k g2) (hnode : alookup g.nodes k = some node)
    (hmem : (ik, iv) ∈ g.intervals) (hpid : iv.parentId = node.id) :
    DSPack g k { g2 with intervals := amodify g2.intervals ik f } := by
  obtain ⟨k1, k2, fr, df, nm, im, ivfr⟩ := hp
  refine ⟨k1, ?_, fr, df, nm, ?_, ?_⟩
  · show (amodify g2.intervals ik f).map Prod.fst = g.intervals.map Prod.fst
    exact (amodify_keys _ _ _).trans k2
  · intro pr hpr
    have hpr2 : pr ∈ amodify g2.intervals ik f := hpr
    rcases mem_amodify _ _ _ pr hpr2 with ⟨pr1, h1, hk1, hv1⟩
    rcases im pr1 h1 with ⟨pr0, h0, hk0, hp0, hc0⟩
    refine ⟨pr0, h0, hk1.trans hk0, ?_, ?_⟩
    · rcases hv1 with he | he
      · rw [he]; exact hp0
      · rw [he, (hf pr1.2).1]; exact hp0
    · rcases hv1 with he | he
      · rw [he]; exact hc0
      · rw [he, (hf pr1.2).2]; exact hc0
  · intro hnd hkid j jv hj hjp
    have hne : j ≠ ik := by
      intro he
      subst he
      have h2 := alookup_of_mem_nodup g.intervals j iv hnd hmem
      rw [hj] at h2
      apply hjp
      rw [← Option.some.inj h2] at hpid
      rw [hpid, hkid node hnode]
    show alookup (amodify g2.intervals ik f) j = some jv
    rw [alookup_amodify_ne _ _ _ _ hne]
    exact ivfr hnd hkid j jv hj hjp

theorem DSPack_child_write (g : GraphState) (k : String) (node : BoxNode)
    (childId : String) (w : Int) (hnode : alookup g.nodes k = some node)
    (hchild : childId ∈ node.childIds)
    (hnull : (alookup g.nodes childId).bind (fun c => c.n) = none) :
    DSPack g k { g with nodes := amodify g.nodes childId (fun c => { c with n := some w }) } := by
  refine ⟨?_, rfl, ?_, ?_, ?_, fun pr hh => ⟨pr, hh, rfl, rfl, rfl⟩,
    fun _ _ j jv hh _ => hh⟩
  · show (amodify g.nodes childId (fun c => { c with n := some w })).map Prod.fst = _
    exact amodify_keys _ _ _
  · intro x hx
    have hxne : x ≠ childId := by
      intro he
      apply hx
      unfold childIdsAt
      rw [hnode]
      exact he ▸ hchild
    show alookup (amodify g.nodes childId (fun c => { c with n := some w })) x = _
    exact alookup_amodify_ne _ _ _ _ hxne
  · intro x nd v hxl hv
    have hxne : x ≠ childId := by
      intro he
      rw [he] at hxl
      rw [hxl] at hnull
      simp only [Option.bind] at hnull
      rw [hv] at hnull
      exact Option.noConfusion hnull
    show alookup (amodify g.nodes childId (fun c => { c with n := some w })) x = _
    rw [alookup_amodify_ne _ _ _ _ hxne]
    exact hxl
  · intro pr hpr
    have hpr2 : pr ∈ amodify g.nodes childId (fun c => { c with n := some w }) := hpr
    rcases mem_amodify _ _ _ pr hpr2 with ⟨pr0, h0, hk0, hv0⟩
    refine ⟨pr0, h0, hk0, ?_, ?_⟩
    · rcases hv0 with he | he <;> rw [he]
    · rcases hv0 with he | he <;> rw [he]

theorem DSPack_IBC (g : GraphState) (k : String) (node : BoxNode)
    (hnode : alookup g.nodes k = some node) :
    DSPack g k (initializeBranchChildren g node) := by
  refine ⟨IBC_keys g node, ?_, ?_, ?_, fun pr hh => IBC_mem g node pr hh, ?_, ?_⟩
  · rw [IBC_intervals]
  · intro x hx
    refine IBC_frame g node x ?_
    intro hmem
    apply hx
    unfold childIdsAt
    rw [hnode]
    exact hmem
  · intro x nd v hxl hv
    exact IBC_defined_frame g node x nd v hxl hv
  · intro pr hpr
    rw [IBC_intervals] at hpr
    exact ⟨pr, hpr, rfl, rfl, rfl⟩
  · intro _ _ j jv hj _
    rw [IBC_intervals]
    exact hj

theorem DSPack_deltaFold (g : GraphState) (k : String) (g1 : GraphState) (node : BoxNode)
    (D : Int) (entries : List (String × Interval))
    (hp : DSPack g k g1) (hnode : alookup g.nodes k = some node)
    (hiv1 : g1.intervals = g.intervals)
    (hent : ∀ e ∈ entries, (e.1, e.2) ∈ g.intervals ∧ e.2.parentId = node.id) :
    DSPack g k (entries.foldl (fun gg e =>
      { gg with intervals := amodify gg.intervals e.1 (fun iv => { iv with delta := D }) }) g1) := by
  obtain ⟨k1, k2, fr, df, nm, im, ivfr⟩ := hp
  refine ⟨?_, ?_, ?_, ?_, ?_, ?_, ?_⟩
  · rw [deltaFold_nodes]
    exact k1
  · rw [deltaFold_keys]
    exact k2
  · intro x hx
    rw [deltaFold_nodes]
    exact fr x hx
  · intro x nd v hxl hv
    rw [deltaFold_nodes]
    exact df x nd v hxl hv
  · intro pr hpr
    rw [deltaFold_nodes] at hpr
    exact nm pr hpr
  · intro pr hpr
    rcases deltaFold_mem D entries g1 pr hpr with ⟨pr1, h1, hk1, hp1, hc1, _⟩
    rw [hiv1] at h1
    exact ⟨pr1, h1, hk1, hp1, hc1⟩
  · intro hnd hkid j jv hj hjp
    have hkeyne : ∀ e ∈ entries, e.1 ≠ j := by
      intro e he hej
      rcases hent e he with ⟨hmem, hpid⟩
      rw [hej] at hmem
      have h2 := alookup_of_mem_nodup g.intervals j e.2 hnd hmem
      rw [hj] at h2
      apply hjp
      rw [← Option.some.inj h2] at hpid
      rw [hpid, hkid node hnode]
    rw [deltaFold_frame D entries g1 j hkeyne, hiv1]
    exact hj

/-- Every successful `recomputeDeltaStep` call satisfies the frame facts. -/
theorem deltaStep_facts (settings : AppSettings) (g : GraphState) (k : String)
    (h2 : GraphState) (hok : recomputeDeltaStep settings g k = Except.ok h2) :
    DSPack g k h2 := by
  rcases hnode : alookup g.nodes k with _ | node
  · simp only [recomputeDeltaStep, hnode] at hok
    rw [← Except.ok.inj hok]
    exact DSPack_refl g k
  · by_cases hemp : node.childIds = []
    · simp only [recomputeDeltaStep, hnode, if_pos hemp] at hok
      rw [← Except.ok.inj hok]
      exact DSPack_refl g k
    · by_cases hlen : node.childIds.length > 1
      · simp only [recomputeDeltaStep, hnode, if_neg hemp, if_pos hlen] at hok
        rw [← Except.ok.inj hok]
        by_cases hfe : ¬ settings.freeEdit
        · rw [if_pos hfe]
          refine DSPack_deltaFold g k _ node _ _ (DSPack_IBC g k node hnode) hnode
            (IBC_intervals g node) ?_
          intro e he
          rcases List.mem_filterMap.mp he with ⟨cid, _, hive⟩
          have hive2 : ivlEntryFor (initializeBranchChildren g node) node.id cid
              = some (e.1, e.2) := hive
          rcases ivlEntryFor_mem _ _ _ _ _ hive2 with ⟨hmem, hpid, _⟩
          rw [IBC_intervals] at hmem
          exact ⟨hmem, hpid⟩
        · rw [if_neg hfe]
          refine DSPack_deltaFold g k g node _ _ (DSPack_refl g k) hnode rfl ?_
          intro e he
          rcases List.mem_filterMap.mp he with ⟨cid, _, hive⟩
          have hive2 : ivlEntryFor g node.id cid = some (e.1, e.2) := hive
          rcases ivlEntryFor_mem _ _ _ _ _ hive2 with ⟨hmem, hpid, _⟩
          exact ⟨hmem, hpid⟩
      · rcases hhead : node.childIds.head? with _ | childId
        · simp only [recomputeDeltaStep, hnode, if_neg hemp, if_neg hlen, hhead] at hok
          rw [← Except.ok.inj hok]
          exact DSPack_refl g k
        · rcases hivl : ivlEntryFor g node.id childId with _ | entry
          · simp only [recomputeDeltaStep, hnode, if_neg hemp, if_neg hlen, hhead,
              hivl] at hok
            rw [← Except.ok.inj hok]
            exact DSPack_refl g k
          · obtain ⟨ik, iv⟩ := entry
            rcases ivlEntryFor_mem _ _ _ _ _ hivl with ⟨hikmem, hikpid, _⟩
            have hchild : childId ∈ node.childIds := by
              rcases hcs : node.childIds with _ | ⟨c0, rest⟩
              · exact absurd hcs hemp
              · rw [hcs] at hhead
                have hce := Option.some.inj hhead
                rw [← hce]
                exact List.mem_cons_self c0 rest
            have hdelta : ∀ (g2 : GraphState), DSPack g k g2 →
                ∀ (D : Int), DSPack g k { g2 with
                  intervals := amodify g2.intervals ik (fun iv => { iv with delta := D }) } := by
              intro g2 hp D
              exact DSPack_amodify_ivl g k g2 ik iv node _
                (fun v => ⟨rfl, rfl⟩) hp hnode hikmem hikpid
            simp only [recomputeDeltaStep, hnode, if_neg hemp, if_neg hlen, hhead,
              hivl] at hok
            rcases hpn : node.n with _ | pn
            · rw [hpn] at hok
              simp only [] at hok
              rw [← Except.ok.inj hok]
              exact hdelta g (DSPack_refl g k) _
            · rw [hpn] at hok
              simp only [] at hok
              by_cases hauto : settings.autoCalc ∧ ¬ settings.freeEdit
              · rw [if_pos hauto] at hok
                by_cases hc1 : (iv.exclusion.bind (fun ex => ex.total)).isNone
                    ∧ ((alookup g.nodes childId).bind (fun c => c.n)).isSome
                · rw [if_pos hc1] at hok
                  rcases hexc : iv.exclusion with _ | ex
                  · rw [hexc] at hok
                    simp only [] at hok
                    exact Except.noConfusion hok
                  · rw [hexc] at hok
                    simp only [] at hok
                    rw [← Except.ok.inj hok]
                    refine hdelta
                      { g with intervals := amodify g.intervals ik (fun iv => { iv with exclusion := iv.exclusion.map (fun ex => { ex with total := if pn - ((alookup g.nodes childId).bind (fun c => c.n)).getD 0 > 0 then some (pn - ((alookup g.nodes childId).bind (fun c => c.n)).getD 0) else none }) }) } ?_ _
                    exact DSPack_amodify_ivl g k g ik iv node _
                      (fun v => ⟨rfl, rfl⟩) (DSPack_refl g k) hnode hikmem hikpid
                · rw [if_neg hc1] at hok
                  by_cases hc2 : (iv.exclusion.bind (fun ex => ex.total)).isSome
                      ∧ ((alookup g.nodes childId).bind (fun c => c.n)).isNone
                  · rw [if_pos hc2] at hok
                    rcases ht : iv.exclusion.bind (fun ex => ex.total) with _ | t
                    · rw [ht] at hok
                      simp only [] at hok
                      rw [← Except.ok.inj hok]
                      exact hdelta g (DSPack_refl g k) _
                    · rw [ht] at hok
                      simp only [] at hok
                      rcases hclk : alookup g.nodes childId with _ | cnode
                      · rw [hclk] at hok
                        simp only [Option.isSome] at hok
                        exact Except.noConfusion hok
                      · rw [hclk] at hok
                        simp only [Option.isSome] at hok
                        rw [← Except.ok.inj hok]
                        refine hdelta
                          { g with nodes := amodify g.nodes childId (fun c => { c with n := some (pn - t) }) } ?_ _
                        refine DSPack_child_write g k node childId _ hnode hchild ?_
                        have hnl := hc2.2
                        rw [hclk] at hnl
                        rw [hclk]
                        simp only [Option.some_bind] at hnl ⊢
                        exact Option.isNone_iff_eq_none.mp hnl
                  · rw [if_neg hc2] at hok
                    rw [← Except.ok.inj hok]
                    exact hdelta g (DSPack_refl g k) _
              · rw [if_neg hauto] at hok
                rw [← Except.ok.inj hok]
                exact hdelta g (DSPack_refl g k) _

/-! ### Whole-pass and tail lemmas -/

theorem passA_nodes (fresh : Nat → String) (g : GraphState) :
    (recomputePassA fresh g).nodes = g.nodes := by
  refine foldl_pres (fun s : GraphState => s.nodes = g.nodes) _ ?_ _ _ rfl
  intro s x hs
  exact (excStep_nodes fresh s x).trans hs

/-- The child-placement fold of `assignGo` keeps every entry's count. -/
theorem assignGo_foldl_nproj (widths : List (String × Rat)) (f : Nat) (nextY : Rat)
    (k : String)
    (ih : ∀ (nodes : List (String × BoxNode)) (nodeId : String) (c y : Rat),
      (alookup (assignGo widths f nodes nodeId c y) k).map (fun nd => nd.n)
        = (alookup nodes k).map (fun nd => nd.n)) :
    ∀ (l : List (String × Rat)) (acc : List (String × BoxNode) × Rat),
      (alookup ((l.foldl (fun (acc : List (String × BoxNode) × Rat) cw =>
          (assignGo widths f acc.1 cw.1 (ratAdd acc.2 (ratDiv2 cw.2)) nextY,
            ratAdd (ratAdd acc.2 cw.2) BRANCH_GAP_X)) acc).1) k).map (fun nd => nd.n)
        = (alookup acc.1 k).map (fun nd => nd.n) := by
  intro l
  induction l with
  | nil => intro acc; rfl
  | cons cw cs ihl =>
    intro acc
    rw [List.foldl_cons, ihl]
    exact ih acc.1 cw.1 _ _

theorem assignGo_nproj (widths : List (String × Rat)) :
    ∀ (fuel : Nat) (nodes : List (String × BoxNode)) (nodeId : String) (c y : Rat)
      (k : String),
      (alookup (assignGo widths fuel nodes nodeId c y) k).map (fun nd => nd.n)
        = (alookup nodes k).map (fun nd => nd.n) := by
  intro fuel
  induction fuel with
  | zero => intro nodes nodeId c y k; rfl
  | succ f ih =>
    intro nodes nodeId c y k
    rw [show assignGo widths (f + 1) nodes nodeId c y =
      (match alookup nodes nodeId with
       | none => nodes
       | some node =>
         let nodes2 := amodify nodes nodeId
           (fun nd => { nd with position := { x := c, y := y } })
         let nodeHeight := computeNodeHeight node
         if node.childIds = [] then nodes2
         else
           let childWidths := node.childIds.map (fun cid => (alookup widths cid).getD BOX_WIDTH)
           let totalWidth :=
             ratAdd (childWidths.foldl ratAdd 0)
               (ratMul BRANCH_GAP_X (ratSub (ratOfNat childWidths.length) 1))
           let start0 := ratSub c (ratDiv2 totalWidth)
           let nextY := ratAdd (ratAdd y nodeHeight) LEVEL_GAP_Y
           (List.foldl
             (fun (acc : List (String × BoxNode) × Rat) cw =>
               (assignGo widths f acc.1 cw.1 (ratAdd acc.2 (ratDiv2 cw.2)) nextY,
                 ratAdd (ratAdd acc.2 cw.2) BRANCH_GAP_X))
             (nodes2, start0) (node.childIds.zip childWidths)).1) from rfl]
    rcases halk : alookup nodes nodeId with _ | node
    · rfl
    · simp only []
      have hmod : (alookup (amodify nodes nodeId
          (fun nd => { nd with position := { x := c, y := y } })) k).map
            (fun nd => nd.n) = (alookup nodes k).map (fun nd => nd.n) := by
        rw [alookup_amodify]
        by_cases hk : k = nodeId
        · rw [if_pos hk, Option.map_map]
          rfl
        · rw [if_neg hk]
      by_cases hch : node.childIds = []
      · rw [if_pos hch]
        exact hmod
      · rw [if_neg hch]
        exact (assignGo_foldl_nproj widths f _ k (fun a b c d => ih a b c d k) _ _).trans hmod

theorem layoutTree_nproj (nodes : List (String × BoxNode)) (s : Option String)
    (k : String) :
    (alookup (layoutTree nodes s) k).map (fun nd => nd.n)
      = (alookup nodes k).map (fun nd => nd.n) := by
  rcases s with _ | s
  · rfl
  · rw [show layoutTree nodes (some s) =
      (if (alookup nodes s).isSome then
        assignGo (computeWidthGo nodes (nodes.length + 1) [] s).1 (nodes.length + 1) nodes s 0 0
      else nodes) from rfl]
    by_cases h : (alookup nodes s).isSome
    · rw [if_pos h]
      exact assignGo_nproj _ _ nodes s 0 0 k
    · rw [if_neg h]

theorem layoutGraphInPlace_nproj (g : GraphState) (k : String) :
    (alookup (layoutGraphInPlace g).nodes k).map (fun nd => nd.n)
      = (alookup g.nodes k).map (fun nd => nd.n) := by
  rw [show (layoutGraphInPlace g).nodes =
    layoutTree (g.nodes.map (fun p => (p.1,
      { p.2 with childIds := p.2.childIds.filter (fun cid => (g.nodes.map Prod.fst).contains cid) })))
      g.startNodeId from rfl]
  rw [layoutTree_nproj, alookup_prune, Option.map_map]
  rfl

theorem normalizePhases_maps (h : GraphState) (g2 : GraphState)
    (hok : normalizePhases h = Except.ok g2) :
    g2.nodes = h.nodes ∧ g2.intervals = h.intervals := by
  unfold normalizePhases at hok
  simp only [] at hok
  split at hok
  · rw [← Except.ok.inj hok]
    exact ⟨rfl, rfl⟩
  · unfold reflowPhaseRanges at hok
    simp only [] at hok
    split at hok
    · rw [← Except.ok.inj hok]
      exact ⟨rfl, rfl⟩
    · rcases hr : reflowGo (getMainFlowNodes h) ((getMainFlowNodes h).length - 1)
          h.phases.length h.phases (-1) 0 with e | phs
      · rw [hr] at hok
        exact Except.noConfusion hok
      · rw [hr] at hok
        simp only [Except.map] at hok
        rw [← Except.ok.inj hok]
        exact ⟨rfl, rfl⟩

/-! ### Even-split arithmetic -/

theorem evenSplit_sum_ones : ∀ (m : Nat) (base r : Int), (m : Int) ≤ r →
    ((List.range m).map (fun (i : Nat) => base + if (i : Int) < r then 1 else 0)).sum
      = m * (base + 1) := by
  intro m
  induction m with
  | zero => intro base r _; simp
  | succ m ih =>
    intro base r hr
    rw [List.range_succ, List.map_append, List.sum_append]
    have h1 : ((m : Nat) : Int) < r := by push_cast at hr ⊢; omega
    rw [ih base r (by push_cast at hr ⊢; omega)]
    simp only [List.map_cons, List.map_nil, List.sum_cons, List.sum_nil, if_pos h1]
    push_cast
    ring

theorem evenSplit_sum_aux : ∀ (m : Nat) (base r : Int), 0 ≤ r → r ≤ (m : Int) →
    ((List.range m).map (fun (i : Nat) => base + if (i : Int) < r then 1 else 0)).sum
      = m * base + r := by
  intro m
  induction m with
  | zero =>
    intro base r h0 hm
    have : r = 0 := by push_cast at hm; omega
    simp [this]
  | succ m ih =>
    intro base r h0 hm
    by_cases hr : r ≤ (m : Int)
    · rw [List.range_succ, List.map_append, List.sum_append]
      rw [ih base r h0 hr]
      have h1 : ¬ ((m : Nat) : Int) < r := by omega
      simp only [List.map_cons, List.map_nil, List.sum_cons, List.sum_nil, if_neg h1]
      push_cast
      ring
    · have hreq : r = (m : Int) + 1 := by push_cast at hm ⊢; omega
      rw [evenSplit_sum_ones (m + 1) base r (by push_cast; omega)]
      rw [hreq]
      push_cast
      ring

/-- The spec-side even split assigns exactly `n` in total. -/
theorem evenSplitValue_sum (n : Int) (m : Nat) (hm : 0 < m) :
    ((List.range m).map (fun i => evenSplitValue n m i)).sum = n := by
  unfold evenSplitValue
  have hb : (0 : Int) < (m : Int) := by exact_mod_cast hm
  have hfm : n - Int.fdiv n m * m = n.fmod m := by
    have h := Int.fdiv_add_fmod n m
    linarith
  have h0 : 0 ≤ n - Int.fdiv n m * m := by
    rw [hfm]
    exact Int.fmod_nonneg' n hb
  have h1 : n - Int.fdiv n m * m ≤ (m : Int) := by
    rw [hfm]
    exact le_of_lt (Int.fmod_lt_of_pos n hb)
  rw [evenSplit_sum_aux m (Int.fdiv n m) (n - Int.fdiv n m * m) h0 h1]
  ring

/-! ### Claim C4: branch auto-fill even split -/

theorem C4Inv_initStep (settings : AppSettings) (p : String) (cids : List String)
    (n : Int) (h : GraphState) (k : String) (hkp : k ≠ p)
    (hinv : C4Inv p cids n h) : C4Inv p cids n (recomputeInitStep settings h k) := by
  obtain ⟨⟨P2, hP2, hch2, hn2⟩, hchl, hpl⟩ := hinv
  refine ⟨⟨P2, initStep_defined_frame settings h k p P2 n hP2 hn2, hch2, hn2⟩, ?_, ?_⟩
  · intro c hc
    rcases hchl c hc with ⟨C, hC, hCn⟩
    have hcf : ¬ c ∈ childIdsAt h k := by
      intro hmem
      unfold childIdsAt at hmem
      rcases hlk : alookup h.nodes k with _ | X
      · rw [hlk] at hmem
        simp at hmem
      · rw [hlk] at hmem
        simp only [Option.map_some', Option.getD_some] at hmem
        exact hpl (k, X) (alookup_mem _ _ _ hlk) hkp c hc hmem
    refine ⟨C, ?_, hCn⟩
    rw [initStep_frame settings h k c hcf]
    exact hC
  · intro pr hpr hprp c hc
    rcases initStep_mem settings h k pr hpr with ⟨pr0, h0, hk0, _, hch0⟩
    rw [hch0]
    exact hpl pr0 h0 (by rw [← hk0]; exact hprp) c hc

theorem C4Inv_split (settings : AppSettings) (p : String) (cids : List String)
    (n : Int) (H : GraphState) (hfe : settings.freeEdit = false)
    (hm : 2 ≤ cids.length) (hcnodup : cids.Nodup)
    (hinv : C4Inv p cids n H) :
    childrenAssigned cids n (recomputeInitStep settings H p) := by
  obtain ⟨⟨P2, hP2, hch2, hn2⟩, hchl, _⟩ := hinv
  intro i c hc
  have hred : recomputeInitStep settings H p = initializeBranchChildren H P2 := by
    simp only [recomputeInitStep, hP2]
    rw [if_pos]
    constructor
    · rw [hch2]
      omega
    · intro hco
      rw [hfe] at hco
      exact Bool.noConfusion hco
  rw [hred]
  have hass := IBC_assign H P2 n (by rw [hch2]; exact hcnodup)
    (by rw [hch2]; exact hm) hn2
    (by rw [hch2]; intro c2 hc2; exact hchl c2 hc2)
  have hc2 : P2.childIds.get? i = some c := by rw [hch2]; exact hc
  have hval := hass i c hc2
  rw [hch2] at hval
  rcases hchl c (List.get?_mem hc) with ⟨C, hC, hCn⟩
  rw [hC] at hval
  exact ⟨_, hval, rfl⟩

theorem childrenAssigned_initStep (settings : AppSettings) (cids : List String)
    (n : Int) (h : GraphState) (k : String)
    (hq : childrenAssigned cids n h) :
    childrenAssigned cids n (recomputeInitStep settings h k) := by
  intro i c hc
  rcases hq i c hc with ⟨C, hC, hCn⟩
  exact ⟨C, initStep_defined_frame settings h k c C _ hC hCn, hCn⟩

theorem childrenAssigned_lastFill (cids : List String) (n : Int) (h : GraphState)
    (k : String) (hq : childrenAssigned cids n h) :
    childrenAssigned cids n (recomputeLastFillStep h k) := by
  intro i c hc
  rcases hq i c hc with ⟨C, hC, hCn⟩
  exact ⟨C, lastFill_defined_frame h k c C _ hC hCn, hCn⟩

/-- A node count that is defined before pass 4 survives, with its value,
to the final state of a successful recompute tail. -/
theorem recompute_tail_defined (settings : AppSettings) (g3 g2 : GraphState)
    (x : String) (C : BoxNode) (v : Int)
    (hC : alookup g3.nodes x = some C) (hv : C.n = some v)
    (hok : (match (g3.nodes.map Prod.fst).foldlM (recomputeDeltaStep settings) g3 with
      | Except.error e => Except.error e
      | Except.ok g4 => normalizePhases (layoutGraphInPlace g4)) = Except.ok g2) :
    ∃ C2, alookup g2.nodes x = some C2 ∧ C2.n = some v := by
  rcases hd : (g3.nodes.map Prod.fst).foldlM (recomputeDeltaStep settings) g3 with e | g4
  · rw [hd] at hok
    exact Except.noConfusion hok
  · rw [hd] at hok
    simp only [] at hok
    have hQ4 : ∃ C4, alookup g4.nodes x = some C4 ∧ C4.n = some v := by
      refine foldlM_pres (fun h => ∃ C4, alookup h.nodes x = some C4 ∧ C4.n = some v)
        (recomputeDeltaStep settings) ?_ _ _ _ hd ⟨C, hC, hv⟩
      intro s k s2 hs hst
      rcases hs with ⟨C4, hC4, hC4n⟩
      exact ⟨C4, (deltaStep_facts settings s k s2 hst).2.2.2.1 x C4 v hC4 hC4n, hC4n⟩
    rcases hQ4 with ⟨C4, hC4, hC4n⟩
    rcases normalizePhases_maps (layoutGraphInPlace g4) g2 hok with ⟨hgn, _⟩
    have hl := layoutGraphInPlace_nproj g4 x
    rw [hC4] at hl
    rcases hfin : alookup (layoutGraphInPlace g4).nodes x with _ | C5
    · rw [hfin] at hl
      exact Option.noConfusion hl
    · rw [hfin] at hl
      simp only [Option.map_some'] at hl
      refine ⟨C5, ?_, ?_⟩
      · rw [hgn]
        exact hfin
      · rw [Option.some.inj hl, hC4n]

/-- C4: in a tree-shaped graph whose designated parent `p` has at least
two children, a defined count `n`, and all-null children, a successful
`recomputeGraph` with `freeEdit = false` gives child `i` the count
`floor(n / m)` plus one extra unit for the first `n mod m` children;
those values sum to `n`; and whenever some child of a parent already has
a defined count, the split rule `initializeBranchChildren` changes
nothing. -/
theorem C4_branch_even_split (g g2 : GraphState) (settings : AppSettings)
    (fresh : Nat → String) (p : String) (P : BoxNode) (n : Int)
    (hndN : (g.nodes.map Prod.fst).Nodup)
    (hP : alookup g.nodes p = some P)
    (hn : P.n = some n)
    (hm : 2 ≤ P.childIds.length)
    (hcnodup : P.childIds.Nodup)
    (hnull : ∀ c ∈ P.childIds, ∃ C, alookup g.nodes c = some C ∧ C.n = none)
    (hplist : ∀ pr ∈ g.nodes, pr.1 ≠ p → ∀ c ∈ P.childIds, ¬ c ∈ pr.2.childIds)
    (hfe : settings.freeEdit = false)
    (hok : recomputeGraph g settings fresh = Except.ok g2) :
    (∀ (i : Nat) (c : String), P.childIds.get? i = some c →
      ∃ C2, alookup g2.nodes c = some C2 ∧
        C2.n = some (evenSplitValue n P.childIds.length i)) ∧
    ((List.range P.childIds.length).map (evenSplitValue n P.childIds.length)).sum = n ∧
    (∀ (h : GraphState) (par : BoxNode),
      (∃ c ∈ par.childIds, ∃ C, alookup h.nodes c = some C ∧ C.n.isSome = true) →
      initializeBranchChildren h par = h) := by
  have hAn : (recomputePassA fresh g).nodes = g.nodes := passA_nodes fresh g
  obtain ⟨ks1, ks2, hks, hp1, hp2⟩ :=
    nodup_split (g.nodes.map Prod.fst) p hndN (mem_keys_of_alookup _ _ _ hP)
  have hInv1 : C4Inv p P.childIds n
      (ks1.foldl (recomputeInitStep settings) (recomputePassA fresh g)) := by
    refine foldl_pres_mem (C4Inv p P.childIds n) (recomputeInitStep settings) ks1 ?_ _ ?_
    · intro s k hk hs
      exact C4Inv_initStep settings p P.childIds n s k (fun he => hp1 (he ▸ hk)) hs
    · refine ⟨⟨P, by rw [hAn]; exact hP, rfl, hn⟩, ?_, ?_⟩
      · intro c hc
        rcases hnull c hc with ⟨C, hC, hCn⟩
        exact ⟨C, by rw [hAn]; exact hC, hCn⟩
      · intro pr hpr
        rw [hAn] at hpr
        exact hplist pr hpr
  have hBeq : recomputePassB settings (recomputePassA fresh g)
      = ks2.foldl (recomputeInitStep settings)
          (recomputeInitStep settings
            (ks1.foldl (recomputeInitStep settings) (recomputePassA fresh g)) p) := by
    unfold recomputePassB
    rw [show (recomputePassA fresh g).nodes.map Prod.fst = g.nodes.map Prod.fst from
      by rw [hAn]]
    rw [hks, List.foldl_append, List.foldl_cons]
  have hQB : childrenAssigned P.childIds n
      (recomputePassB settings (recomputePassA fresh g)) := by
    rw [hBeq]
    refine foldl_pres (childrenAssigned P.childIds n) (recomputeInitStep settings)
      ?_ ks2 _ ?_
    · intro s k hs
      exact childrenAssigned_initStep settings P.childIds n s k hs
    · exact C4Inv_split settings p P.childIds n _ hfe hm hcnodup hInv1
  have hQC : childrenAssigned P.childIds n
      (recomputePassC settings (recomputePassB settings (recomputePassA fresh g))) := by
    unfold recomputePassC
    split
    · refine foldl_pres (childrenAssigned P.childIds n) recomputeLastFillStep ?_ _ _ hQB
      intro s k hs
      exact childrenAssigned_lastFill P.childIds n s k hs
    · exact hQB
  simp only [recomputeGraph, cloneGraph] at hok
  refine ⟨?_, evenSplitValue_sum n P.childIds.length (by omega), ?_⟩
  · intro i c hc
    rcases hQC i c hc with ⟨C, hC, hCn⟩
    exact recompute_tail_defined settings _ g2 c C _ hC hCn hok
  · intro h par hex
    rcases hex with ⟨c, hc, C, hC, hs⟩
    exact IBC_noop h par c C hc hC hs

/-- Witness for C4 on a concrete two-child branch: 100 splits as 50/50. -/
theorem C4_branch_even_split_witness :
    ∃ g2, recomputeGraph gSplit c4settings c4fresh = Except.ok g2 ∧
      (∃ C2, alookup g2.nodes "a" = some C2 ∧ C2.n = some 50) := by
  have hisok : (recomputeGraph gSplit c4settings c4fresh).isOk = true := by decide
  rcases hok : recomputeGraph gSplit c4settings c4fresh with e | g2
  · rw [hok] at hisok
    exact Bool.noConfusion hisok
  · obtain ⟨hpt, _, _⟩ := C4_branch_even_split gSplit g2 c4settings c4fresh "p"
      splitNodeP 100 (by decide) (by decide) (by decide) (by decide) (by decide)
      (by
        intro c hc
        simp only [splitNodeP, List.mem_cons, List.not_mem_nil, or_false] at hc
        rcases hc with hc | hc
        · subst hc
          exact ⟨splitNodeA, by decide, by decide⟩
        · subst hc
          exact ⟨splitNodeB, by decide, by decide⟩)
      (by decide) (by decide) hok
    rcases hpt 0 "a" (by decide) with ⟨C2, hC2, hC2n⟩
    refine ⟨g2, rfl, C2, hC2, ?_⟩
    rw [hC2n]
    decide

/-! ### Claim C5: last-child fill support -/

theorem foldl_sub_add_zero (f gz : String → Int) :
    ∀ (l : List String) (a : Int), (∀ c ∈ l, gz c = 0) →
      l.foldl (fun acc c => acc - (f c + gz c)) a = a - (l.map f).sum := by
  intro l
  induction l with
  | nil => intro a _; simp
  | cons c cs ih =>
    intro a hz
    rw [List.foldl_cons, ih _ (fun c2 hc2 => hz c2 (List.mem_cons_of_mem c hc2))]
    rw [hz c (List.mem_cons_self c cs)]
    simp only [List.map_cons, List.sum_cons]
    omega

/-- Pass 2 at a branching parent with one defined child is the identity. -/
theorem initStep_p_noop (settings : AppSettings) (h : GraphState) (p : String)
    (P2 : BoxNode) (c0 : String) (C0 : BoxNode)
    (hP2 : alookup h.nodes p = some P2) (hc0 : c0 ∈ P2.childIds)
    (hC0 : alookup h.nodes c0 = some C0) (hs : C0.n.isSome = true) :
    recomputeInitStep settings h p = h := by
  simp only [recomputeInitStep, hP2]
  split
  · exact IBC_noop h P2 c0 C0 hc0 hC0 hs
  · rfl

/-- Pass 4 at a branching parent with one defined child leaves `nodes`
unchanged (the split re-run is a no-op and only deltas are written). -/
theorem deltaStep_branch_nodes (settings : AppSettings) (g : GraphState) (k : String)
    (h2 : GraphState) (node : BoxNode) (c0 : String) (C0 : BoxNode)
    (hnode : alookup g.nodes k = some node)
    (hlen : node.childIds.length > 1)
    (hc0 : c0 ∈ node.childIds) (hC0 : alookup g.nodes c0 = some C0)
    (hs : C0.n.isSome = true)
    (hok : recomputeDeltaStep settings g k = Except.ok h2) : h2.nodes = g.nodes := by
  have hemp : ¬ node.childIds = [] := by
    intro he
    rw [he] at hlen
    simp at hlen
  simp only [recomputeDeltaStep, hnode, if_neg hemp, if_pos hlen] at hok
  rw [← Except.ok.inj hok]
  rw [deltaFold_nodes]
  split
  · rw [IBC_noop g node c0 C0 hc0 hC0 hs]
  · rfl

theorem passB_keys (settings : AppSettings) (h : GraphState) :
    (recomputePassB settings h).nodes.map Prod.fst = h.nodes.map Prod.fst := by
  unfold recomputePassB
  refine foldl_pres (fun s : GraphState => s.nodes.map Prod.fst = h.nodes.map Prod.fst)
    _ ?_ _ _ rfl
  intro s k hs
  exact (initStep_keys settings s k).trans hs

theorem passB_intervals (settings : AppSettings) (h : GraphState) :
    (recomputePassB settings h).intervals = h.intervals := by
  unfold recomputePassB
  refine foldl_pres (fun s : GraphState => s.intervals = h.intervals) _ ?_ _ _ rfl
  intro s k hs
  exact (initStep_intervals settings s k).trans hs

theorem passA_ivl_keys (fresh : Nat → String) (g : GraphState) :
    (recomputePassA fresh g).intervals.map Prod.fst = g.intervals.map Prod.fst := by
  unfold recomputePassA
  refine foldl_pres
    (fun s : GraphState => s.intervals.map Prod.fst = g.intervals.map Prod.fst)
    _ ?_ _ _ rfl
  intro s x hs
  exact (excStep_ivl_keys fresh s x).trans hs

/-- The `n` field of any present node survives the layout and phase
normalization at the end of a recompute. -/
theorem layout_normalize_nproj (g4 g2 : GraphState) (x : String) (C : BoxNode)
    (hok : normalizePhases (layoutGraphInPlace g4) = Except.ok g2)
    (hC : alookup g4.nodes x = some C) :
    ∃ C2, alookup g2.nodes x = some C2 ∧ C2.n = C.n := by
  rcases normalizePhases_maps (layoutGraphInPlace g4) g2 hok with ⟨hgn, _⟩
  have hl := layoutGraphInPlace_nproj g4 x
  rw [hC] at hl
  rcases hfin : alookup (layoutGraphInPlace g4).nodes x with _ | C5
  · rw [hfin] at hl
    exact Option.noConfusion hl
  · rw [hfin] at hl
    simp only [Option.map_some'] at hl
    refine ⟨C5, ?_, Option.some.inj hl⟩
    rw [hgn]
    exact hfin

theorem pairs_not_child (p : String) (cids : List String) (h : GraphState) (k : String)
    (hkp : k ≠ p)
    (hpl : ∀ pr ∈ h.nodes, pr.1 ≠ p → ∀ c ∈ cids, ¬ c ∈ pr.2.childIds) :
    ∀ c ∈ cids, ¬ c ∈ childIdsAt h k := by
  intro c hc hmem
  unfold childIdsAt at hmem
  rcases hlk : alookup h.nodes k with _ | X
  · rw [hlk] at hmem
    simp at hmem
  · rw [hlk] at hmem
    simp only [Option.map_some', Option.getD_some] at hmem
    exact hpl (k, X) (alookup_mem _ _ _ hlk) hkp c hc hmem

theorem C5Inv_nodes_congr (p : String) (cids : List String) (cl : String) (CL : BoxNode)
    (n : Int) (g h h2 : GraphState) (he : h2.nodes = h.nodes)
    (hinv : C5Inv p cids cl CL n g h) : C5Inv p cids cl CL n g h2 := by
  unfold C5Inv at hinv ⊢
  rw [he]
  exact hinv

/-- The last-child-fill fold when every exclusion term of the designated
parent is zero. -/
theorem lastFill_fold_eq (h : GraphState) (p : String)
    (hexcl0 : ∀ cid, ((((ivlEntryFor h p cid).map Prod.snd).bind
      (fun iv => iv.exclusion)).bind (fun ex => ex.total)).getD 0 = 0) :
    ∀ (l : List String) (a : Int),
      l.foldl (fun rem cid =>
        rem - (((alookup h.nodes cid).bind (fun c => c.n)).getD 0 +
          ((((ivlEntryFor h p cid).map Prod.snd).bind
            (fun iv => iv.exclusion)).bind (fun ex => ex.total)).getD 0)) a
      = a - (l.map (fun cid => ((alookup h.nodes cid).bind (fun c => c.n)).getD 0)).sum := by
  intro l
  induction l with
  | nil => intro a; simp
  | cons c cs ih =>
    intro a
    rw [List.foldl_cons, ih, hexcl0 c]
    simp only [List.map_cons, List.sum_cons]
    omega

/-- Pass 3 at the designated parent, characterized: with all of the
parent's interval exclusions cleared and a null last child, the step
either writes the remainder `n - Σ` to the last child (when non-negative)
or changes nothing. -/
theorem lastFill_at_p (h : GraphState) (p : String) (P2 : BoxNode) (n : Int)
    (cl : String) (CL : BoxNode)
    (hP2 : alookup h.nodes p = some P2) (hid2 : P2.id = p)
    (hn2 : P2.n = some n) (hm2 : P2.childIds.length > 1)
    (hlast : P2.childIds.getLast? = some cl)
    (hCL : alookup h.nodes cl = some CL) (hCLn : CL.n = none)
    (hexcl : ∀ pr ∈ h.intervals, pr.2.parentId = p → pr.2.exclusion = none) :
    recomputeLastFillStep h p =
      (if n - (P2.childIds.dropLast.map
            (fun c => ((alookup h.nodes c).bind (fun nd => nd.n)).getD 0)).sum ≥ 0
       then { h with nodes := amodify h.nodes cl (fun c =>
          { c with n := some (n - (P2.childIds.dropLast.map
            (fun cd => ((alookup h.nodes cd).bind (fun nd => nd.n)).getD 0)).sum) }) }
       else h) := by
  have hexcl0 : ∀ cid, ((((ivlEntryFor h p cid).map Prod.snd).bind
      (fun iv => iv.exclusion)).bind (fun ex => ex.total)).getD 0 = 0 := by
    intro cid
    rcases hie : ivlEntryFor h p cid with _ | e
    · rfl
    · obtain ⟨j2, iv2⟩ := e
      rcases ivlEntryFor_mem h p cid j2 iv2 hie with ⟨hmem, hpid, _⟩
      have he2 : iv2.exclusion = none := hexcl (j2, iv2) hmem hpid
      simp only [Option.map_some', Option.some_bind, he2]
      rfl
  simp only [recomputeLastFillStep, hP2]
  rw [if_pos hm2]
  simp only [hn2, hlast, hCL, hCLn, hid2]
  rw [lastFill_fold_eq h p hexcl0 P2.childIds.dropLast n]
  rw [hexcl0 cl]
  simp only [sub_zero]

theorem C5Inv_initStep (settings : AppSettings) (p : String) (cids : List String)
    (cl : String) (CL : BoxNode) (n : Int) (g h : GraphState) (k : String)
    (hclmem : cl ∈ cids) (hne : cids.dropLast ≠ [])
    (hinv : C5Inv p cids cl CL n g h) :
    C5Inv p cids cl CL n g (recomputeInitStep settings h k) := by
  obtain ⟨⟨P2, hP2, hch2, hn2, hid2⟩, hCLh, hdl, hpl⟩ := hinv
  by_cases hkp : k = p
  · subst hkp
    rcases List.exists_mem_of_ne_nil _ hne with ⟨c0, hc0⟩
    rcases hdl c0 hc0 with ⟨C0, v0, hC0g, hv0, hC0h⟩
    have hc0mem : c0 ∈ P2.childIds := by
      rw [hch2]
      exact (List.dropLast_sublist _).subset hc0
    rw [initStep_p_noop settings h k P2 c0 C0 hP2 hc0mem hC0h (by rw [hv0]; rfl)]
    exact ⟨⟨P2, hP2, hch2, hn2, hid2⟩, hCLh, hdl, hpl⟩
  · have hcf := pairs_not_child p cids h k hkp hpl
    refine ⟨⟨P2, initStep_defined_frame settings h k p P2 n hP2 hn2, hch2, hn2, hid2⟩,
      ?_, ?_, ?_⟩
    · rw [initStep_frame settings h k cl (hcf cl hclmem)]
      exact hCLh
    · intro c hc
      rcases hdl c hc with ⟨C, v, hCg, hv, hCh⟩
      exact ⟨C, v, hCg, hv, initStep_defined_frame settings h k c C v hCh hv⟩
    · intro pr hpr hprp c hc
      rcases initStep_mem settings h k pr hpr with ⟨pr0, h0, hk0, _, hch0⟩
      rw [hch0]
      exact hpl pr0 h0 (by rw [← hk0]; exact hprp) c hc

theorem C5Inv_lastFill (p : String) (cids : List String) (cl : String) (CL : BoxNode)
    (n : Int) (g h : GraphState) (k : String) (hkp : k ≠ p) (hclmem : cl ∈ cids)
    (hinv : C5Inv p cids cl CL n g h) :
    C5Inv p cids cl CL n g (recomputeLastFillStep h k) := by
  obtain ⟨⟨P2, hP2, hch2, hn2, hid2⟩, hCLh, hdl, hpl⟩ := hinv
  have hcf := pairs_not_child p cids h k hkp hpl
  refine ⟨⟨P2, lastFill_defined_frame h k p P2 n hP2 hn2, hch2, hn2, hid2⟩, ?_, ?_, ?_⟩
  · rw [lastFill_frame h k cl (hcf cl hclmem)]
    exact hCLh
  · intro c hc
    rcases hdl c hc with ⟨C, v, hCg, hv, hCh⟩
    exact ⟨C, v, hCg, hv, lastFill_defined_frame h k c C v hCh hv⟩
  · intro pr hpr hprp c hc
    rcases lastFill_mem h k pr hpr with ⟨pr0, h0, hk0, _, hch0⟩
    rw [hch0]
    exact hpl pr0 h0 (by rw [← hk0]; exact hprp) c hc

theorem C5Inv_delta (settings : AppSettings) (p : String) (cids : List String)
    (cl : String) (CL : BoxNode) (n : Int) (g h h2 : GraphState) (k : String)
    (hclmem : cl ∈ cids) (hne : cids.dropLast ≠ []) (hm2 : 1 < cids.length)
    (hok : recomputeDeltaStep settings h k = Except.ok h2)
    (hinv : C5Inv p cids cl CL n g h) :
    C5Inv p cids cl CL n g h2 := by
  obtain ⟨⟨P2, hP2, hch2, hn2, hid2⟩, hCLh, hdl, hpl⟩ := hinv
  by_cases hkp : k = p
  · subst hkp
    rcases List.exists_mem_of_ne_nil _ hne with ⟨c0, hc0⟩
    rcases hdl c0 hc0 with ⟨C0, v0, hC0g, hv0, hC0h⟩
    have hc0mem : c0 ∈ P2.childIds := by
      rw [hch2]
      exact (List.dropLast_sublist _).subset hc0
    have hlen : P2.childIds.length > 1 := by
      rw [hch2]
      omega
    have hnn := deltaStep_branch_nodes settings h k h2 P2 c0 C0 hP2 hlen hc0mem hC0h
      (by rw [hv0]; rfl) hok
    exact C5Inv_nodes_congr k cids cl CL n g h h2 hnn
      ⟨⟨P2, hP2, hch2, hn2, hid2⟩, hCLh, hdl, hpl⟩
  · have hF := deltaStep_facts settings h k h2 hok
    have hcf := pairs_not_child p cids h k hkp hpl
    refine ⟨⟨P2, hF.2.2.2.1 p P2 n hP2 hn2, hch2, hn2, hid2⟩, ?_, ?_, ?_⟩
    · rw [hF.2.2.1 cl (hcf cl hclmem)]
      exact hCLh
    · intro c hc
      rcases hdl c hc with ⟨C, v, hCg, hv, hCh⟩
      exact ⟨C, v, hCg, hv, hF.2.2.2.1 c C v hCh hv⟩
    · intro pr hpr hprp c hc
      rcases hF.2.2.2.2.1 pr hpr with ⟨pr0, h0, hk0, _, hch0⟩
      rw [hch0]
      exact hpl pr0 h0 (by rw [← hk0]; exact hprp) c hc

/-- C5 (amended): for a parent with three or more children, a defined
count `n`, a null last child and defined earlier children, a successful
`recomputeGraph` with `autoCalc = true` and `freeEdit = false` gives the
last child the count `n` minus the sum of the other children's counts when
that remainder is non-negative (the branch exclusions having been cleared
in pass 1, their terms contribute zero), and leaves it null otherwise. -/
theorem C5_last_child_fill (g g2 : GraphState) (settings : AppSettings)
    (fresh : Nat → String) (p : String) (P : BoxNode) (n : Int)
    (cl : String) (CL : BoxNode)
    (hndN : (g.nodes.map Prod.fst).Nodup)
    (hndI : (g.intervals.map Prod.fst).Nodup)
    (hP : alookup g.nodes p = some P)
    (hid : P.id = p)
    (hn : P.n = some n)
    (hm : 3 ≤ P.childIds.length)
    (hcl : P.childIds.getLast? = some cl)
    (hCL : alookup g.nodes cl = some CL) (hCLn : CL.n = none)
    (hdef : ∀ c ∈ P.childIds.dropLast, ∃ C v, alookup g.nodes c = some C ∧ C.n = some v)
    (hplist : ∀ pr ∈ g.nodes, pr.1 ≠ p → ∀ c ∈ P.childIds, ¬ c ∈ pr.2.childIds)
    (hauto : settings.autoCalc = true) (hfe : settings.freeEdit = false)
    (hok : recomputeGraph g settings fresh = Except.ok g2) :
    ∃ C2, alookup g2.nodes cl = some C2 ∧
      C2.n = (if n - (P.childIds.dropLast.map
            (fun c => ((alookup g.nodes c).bind (fun nd => nd.n)).getD 0)).sum ≥ 0
        then some (n - (P.childIds.dropLast.map
            (fun c => ((alookup g.nodes c).bind (fun nd => nd.n)).getD 0)).sum)
        else none) := by
  have hAn : (recomputePassA fresh g).nodes = g.nodes := passA_nodes fresh g
  have hclmem : cl ∈ P.childIds := List.mem_of_mem_getLast? hcl
  have hne : P.childIds.dropLast ≠ [] := by
    intro he
    have hl := List.length_dropLast P.childIds
    rw [he] at hl
    simp at hl
    omega
  have hm2 : 1 < P.childIds.length := by omega
  have hIvA : ∀ pr ∈ (recomputePassA fresh g).intervals, pr.2.parentId = p →
      pr.2.exclusion = none := by
    intro pr hpr hpid
    have hndA : ((recomputePassA fresh g).intervals.map Prod.fst).Nodup := by
      rw [passA_ivl_keys]
      exact hndI
    have hlk : alookup (recomputePassA fresh g).intervals pr.1 = some pr.2 :=
      alookup_of_mem_nodup _ _ _ hndA hpr
    rcases hj0 : alookup g.intervals pr.1 with _ | jv0
    · have hmemk : pr.1 ∈ g.intervals.map Prod.fst := by
        rw [← passA_ivl_keys fresh g]
        exact List.mem_map.mpr ⟨pr, hpr, rfl⟩
      rw [alookup_eq_none_iff] at hj0
      exact absurd hmemk hj0
    · rcases passA_total fresh g hndI pr.1 jv0 hj0 with
        ⟨iv2, hiv2, hpid2, _, _, _, hclear, _⟩
      have hiv2b : alookup (recomputePassA fresh g).intervals pr.1 = some iv2 := hiv2
      rw [hlk] at hiv2b
      have hpe : pr.2 = iv2 := Option.some.inj hiv2b
      rw [hpe]
      apply hclear
      have hpidg : jv0.parentId = p := by
        rw [← hpid2, ← hpe]
        exact hpid
      rw [hpidg]
      unfold childIdsAt
      rw [hP]
      simp only [Option.map_some', Option.getD_some]
      omega
  have hInv0 : C5Inv p P.childIds cl CL n g (recomputePassA fresh g) := by
    refine ⟨⟨P, by rw [hAn]; exact hP, rfl, hn, hid⟩, by rw [hAn]; exact hCL, ?_, ?_⟩
    · intro c hc
      rcases hdef c hc with ⟨C, v, hC, hv⟩
      exact ⟨C, v, hC, hv, by rw [hAn]; exact hC⟩
    · intro pr hpr
      rw [hAn] at hpr
      exact hplist pr hpr
  have hInvB : C5Inv p P.childIds cl CL n g
      (recomputePassB settings (recomputePassA fresh g)) := by
    unfold recomputePassB
    refine foldl_pres (C5Inv p P.childIds cl CL n g) (recomputeInitStep settings)
      ?_ _ _ hInv0
    intro s k hs
    exact C5Inv_initStep settings p P.childIds cl CL n g s k hclmem hne hs
  obtain ⟨ks1, ks2, hks, hp1, hp2⟩ :=
    nodup_split (g.nodes.map Prod.fst) p hndN (mem_keys_of_alookup _ _ _ hP)
  have hBkeys : (recomputePassB settings (recomputePassA fresh g)).nodes.map Prod.fst
      = g.nodes.map Prod.fst := by
    rw [passB_keys, hAn]
  have hcond : settings.autoCalc = true ∧ ¬ settings.freeEdit = true :=
    ⟨hauto, by rw [hfe]; exact Bool.false_ne_true⟩
  have hCeq : recomputePassC settings (recomputePassB settings (recomputePassA fresh g))
      = ks2.foldl recomputeLastFillStep (recomputeLastFillStep
          (ks1.foldl recomputeLastFillStep
            (recomputePassB settings (recomputePassA fresh g))) p) := by
    unfold recomputePassC
    rw [if_pos hcond, hBkeys, hks, List.foldl_append, List.foldl_cons]
  set H := ks1.foldl recomputeLastFillStep
    (recomputePassB settings (recomputePassA fresh g)) with hH
  have hInvH : C5Inv p P.childIds cl CL n g H := by
    rw [hH]
    refine foldl_pres_mem (C5Inv p P.childIds cl CL n g) recomputeLastFillStep ks1
      ?_ _ hInvB
    intro s k hk hs
    exact C5Inv_lastFill p P.childIds cl CL n g s k (fun he => hp1 (he ▸ hk)) hclmem hs
  have hHivl : H.intervals = (recomputePassA fresh g).intervals := by
    have h2 : H.intervals
        = (recomputePassB settings (recomputePassA fresh g)).intervals := by
      rw [hH]
      refine foldl_pres (fun s : GraphState => s.intervals
        = (recomputePassB settings (recomputePassA fresh g)).intervals)
        recomputeLastFillStep ?_ _ _ rfl
      intro s k hs
      exact (lastFill_intervals s k).trans hs
    rw [h2, passB_intervals]
  obtain ⟨P2, hP2H, hch2, hn2, hid2⟩ := hInvH.1
  have hCLH : alookup H.nodes cl = some CL := hInvH.2.1
  have hstep := lastFill_at_p H p P2 n cl CL hP2H hid2 hn2
    (by rw [hch2]; omega) (by rw [hch2]; exact hcl) hCLH hCLn
    (by rw [hHivl]; exact hIvA)
  rw [hch2] at hstep
  have hsum : P.childIds.dropLast.map
      (fun c => ((alookup H.nodes c).bind (fun nd => nd.n)).getD 0)
      = P.childIds.dropLast.map
        (fun c => ((alookup g.nodes c).bind (fun nd => nd.n)).getD 0) := by
    refine List.map_congr_left ?_
    intro c hc
    rcases hInvH.2.2.1 c hc with ⟨C, v, hCg, hv, hCH⟩
    rw [hCg, hCH]
  rw [hsum] at hstep
  simp only [recomputeGraph, cloneGraph] at hok
  by_cases hpos : n - (P.childIds.dropLast.map
      (fun c => ((alookup g.nodes c).bind (fun nd => nd.n)).getD 0)).sum ≥ 0
  · rw [if_pos hpos] at hstep
    have hQ : ∃ C2, alookup (recomputePassC settings
        (recomputePassB settings (recomputePassA fresh g))).nodes cl = some C2 ∧
        C2.n = some (n - (P.childIds.dropLast.map
          (fun c => ((alookup g.nodes c).bind (fun nd => nd.n)).getD 0)).sum) := by
      rw [hCeq]
      refine foldl_pres (fun s : GraphState => ∃ C2, alookup s.nodes cl = some C2 ∧
        C2.n = some (n - (P.childIds.dropLast.map
          (fun c => ((alookup g.nodes c).bind (fun nd => nd.n)).getD 0)).sum))
        recomputeLastFillStep ?_ ks2 _ ?_
      · intro s k hs
        rcases hs with ⟨C2, hC2, hC2n⟩
        exact ⟨C2, lastFill_defined_frame s k cl C2 _ hC2 hC2n, hC2n⟩
      · rw [hstep]
        refine ⟨{ CL with n := some (n - (P.childIds.dropLast.map
          (fun c => ((alookup g.nodes c).bind (fun nd => nd.n)).getD 0)).sum) }, ?_, rfl⟩
        show alookup (amodify H.nodes cl (fun c => { c with n := some (n -
          (P.childIds.dropLast.map
            (fun cd => ((alookup g.nodes cd).bind (fun nd => nd.n)).getD 0)).sum) })) cl
          = some ({ CL with n := some (n - (P.childIds.dropLast.map
            (fun c => ((alookup g.nodes c).bind (fun nd => nd.n)).getD 0)).sum) })
        rw [alookup_amodify_self, hCLH]
        rfl
    rcases hQ with ⟨C2, hC2, hC2n⟩
    rcases recompute_tail_defined settings _ g2 cl C2 _ hC2 hC2n hok with ⟨C3, hC3, hC3n⟩
    refine ⟨C3, hC3, ?_⟩
    rw [if_pos hpos, hC3n]
  · rw [if_neg hpos] at hstep
    have hInvC : C5Inv p P.childIds cl CL n g (recomputePassC settings
        (recomputePassB settings (recomputePassA fresh g))) := by
      rw [hCeq, hstep]
      refine foldl_pres_mem (C5Inv p P.childIds cl CL n g) recomputeLastFillStep ks2
        ?_ _ hInvH
      intro s k hk hs
      exact C5Inv_lastFill p P.childIds cl CL n g s k (fun he => hp2 (he ▸ hk)) hclmem hs
    rcases hd : ((recomputePassC settings (recomputePassB settings
        (recomputePassA fresh g))).nodes.map Prod.fst).foldlM
        (recomputeDeltaStep settings)
        (recomputePassC settings (recomputePassB settings (recomputePassA fresh g)))
      with e | g4
    · rw [hd] at hok
      exact Except.noConfusion hok
    · rw [hd] at hok
      simp only [] at hok
      have hInv4 : C5Inv p P.childIds cl CL n g g4 := by
        refine foldlM_pres (C5Inv p P.childIds cl CL n g) (recomputeDeltaStep settings)
          ?_ _ _ _ hd hInvC
        intro s k s2 hs hst
        exact C5Inv_delta settings p P.childIds cl CL n g s s2 k hclmem hne hm2 hst hs
      have hCL4 : alookup g4.nodes cl = some CL := hInv4.2.1
      rcases layout_normalize_nproj g4 g2 cl CL hok hCL4 with ⟨C3, hC3, hC3n⟩
      refine ⟨C3, hC3, ?_⟩
      rw [if_neg hpos, hC3n, hCLn]

/-- C5 counterexample: in `gWide` the parent has three children with a
defined count 100, exactly one child (`a`, which is not the last) is
unset, and the others carry 30 and 40; a successful recompute leaves `a`
unset instead of assigning it the remainder 30 the claim promises. -/
theorem C5_nonlast_unset_counterexample :
    ((alookup gWide.nodes "p").map (fun nd => (nd.n, nd.childIds))
      = some (some 100, ["a", "b", "c"])) ∧
    ((alookup gWide.nodes "a").map (fun nd => nd.n) = some none) ∧
    ((alookup gWide.nodes "b").map (fun nd => nd.n) = some (some 30)) ∧
    ((alookup gWide.nodes "c").map (fun nd => nd.n) = some (some 40)) ∧
    okNodeN (recomputeGraph gWide c4settings c4fresh) "a" = some none := by
  refine ⟨by decide, by decide, by decide, by decide, by decide⟩

/-- Witness for the amended C5 on a concrete three-child branch: the last
child is unset and receives 100 - (30 + 40) = 30. -/
theorem C5_last_child_fill_witness :
    ∃ g2, recomputeGraph gWideFill c4settings c4fresh = Except.ok g2 ∧
      ∃ C2, alookup g2.nodes "c" = some C2 ∧ C2.n = some 30 := by
  have hisok : (recomputeGraph gWideFill c4settings c4fresh).isOk = true := by decide
  rcases hok : recomputeGraph gWideFill c4settings c4fresh with e | g2
  · rw [hok] at hisok
    exact Bool.noConfusion hisok
  · obtain ⟨C2, hC2, hC2n⟩ := C5_last_child_fill gWideFill g2 c4settings c4fresh "p"
      fillNodeP 100 "c" fillNodeC (by decide) (by decide) (by decide) (by decide)
      (by decide) (by decide) (by decide) (by decide) (by decide)
      (by
        intro c hc
        rw [show fillNodeP.childIds.dropLast = ["a", "b"] from rfl] at hc
        simp only [List.mem_cons, List.not_mem_nil, or_false] at hc
        rcases hc with hc | hc
        · subst hc
          exact ⟨fillNodeA, 30, by decide, by decide⟩
        · subst hc
          exact ⟨fillNodeB, 40, by decide, by decide⟩)
      (by decide) (by decide) (by decide) hok
    refine ⟨g2, rfl, C2, hC2, ?_⟩
    rw [hC2n]
    decide

/-! ### Claim C1: linear two-way inference support -/

theorem foldlM_pres_mem (P : σ → Prop) (step : σ → β → Except String σ) :
    ∀ (l : List β), (∀ s x, x ∈ l → ∀ s2, P s → step s x = Except.ok s2 → P s2) →
      ∀ (s : σ) (g2 : σ), l.foldlM step s = Except.ok g2 → P s → P g2 := by
  intro l
  induction l with
  | nil =>
    intro _ s g2 hfold hs
    rw [List.foldlM_nil] at hfold
    rw [← Except.ok.inj hfold]
    exact hs
  | cons x xs ih =>
    intro hstep s g2 hfold hs
    rw [List.foldlM_cons] at hfold
    rcases hx : step s x with e | s2
    · rw [hx] at hfold
      exact Except.noConfusion hfold
    · rw [hx] at hfold
      exact ih (fun s3 y hy s4 h3 h4 => hstep s3 y (List.mem_cons_of_mem x hy) s4 h3 h4)
        s2 g2 hfold (hstep s x (List.mem_cons_self x xs) s2 hs hx)

/-- Splitting a successful `Except` fold over an appended key list. -/
theorem foldlM_append_except (step : σ → β → Except String σ) :
    ∀ (l1 : List β) (l2 : List β) (s : σ) (g2 : σ),
      (l1 ++ l2).foldlM step s = Except.ok g2 →
      ∃ smid, l1.foldlM step s = Except.ok smid ∧ l2.foldlM step smid = Except.ok g2 := by
  intro l1
  induction l1 with
  | nil =>
    intro l2 s g2 hok
    exact ⟨s, rfl, hok⟩
  | cons x xs ih =>
    intro l2 s g2 hok
    rw [List.cons_append, List.foldlM_cons] at hok
    rcases hx : step s x with e | s1
    · rw [hx] at hok
      exact Except.noConfusion hok
    · rw [hx] at hok
      rcases ih l2 s1 g2 hok with ⟨smid, h1, h2⟩
      refine ⟨smid, ?_, h2⟩
      rw [List.foldlM_cons, hx]
      exact h1

theorem passC_keys (settings : AppSettings) (h : GraphState) :
    (recomputePassC settings h).nodes.map Prod.fst = h.nodes.map Prod.fst := by
  unfold recomputePassC
  split
  · refine foldl_pres (fun s : GraphState => s.nodes.map Prod.fst = h.nodes.map Prod.fst)
      _ ?_ _ _ rfl
    intro s k hs
    exact (lastFill_keys s k).trans hs
  · rfl

/-- Pass 2 at a parent with at most one child is the identity. -/
theorem initStep_p_single (settings : AppSettings) (h : GraphState) (p : String)
    (P2 : BoxNode) (hP2 : alookup h.nodes p = some P2)
    (hlen : ¬ P2.childIds.length > 1) : recomputeInitStep settings h p = h := by
  simp only [recomputeInitStep, hP2]
  rw [if_neg]
  intro hcon
  exact hlen hcon.1

/-- Pass 3 at a parent with at most one child is the identity. -/
theorem lastFill_p_single (h : GraphState) (p : String)
    (P2 : BoxNode) (hP2 : alookup h.nodes p = some P2)
    (hlen : ¬ P2.childIds.length > 1) : recomputeLastFillStep h p = h := by
  simp only [recomputeLastFillStep, hP2]
  rw [if_neg hlen]

/-- With unique keys and the designated key holding the only interval of
parent `p`, the filter of `ivlEntryFor` is that single entry. -/
theorem filter_singleton_of_uniq :
    ∀ (l : List (String × Interval)) (ik0 : String) (iv1 : Interval) (p c : String),
      (l.map Prod.fst).Nodup → alookup l ik0 = some iv1 →
      iv1.parentId = p → iv1.childId = c →
      (∀ pr ∈ l, pr.2.parentId = p → pr.1 = ik0) →
      l.filter (fun pr => pr.2.parentId = p ∧ pr.2.childId = c) = [(ik0, iv1)] := by
  intro l
  induction l with
  | nil =>
    intro ik0 iv1 p c _ hlk _ _ _
    exact Option.noConfusion hlk
  | cons pr t ih =>
    intro ik0 iv1 p c hnd hlk hpid hcid huniq
    have hnd2 : (pr.1 :: t.map Prod.fst).Nodup := by
      rw [← List.map_cons]
      exact hnd
    rw [List.filter_cons]
    by_cases hk : pr.1 = ik0
    · have hpr2 : pr.2 = iv1 := by
        rw [alookup_cons, if_pos hk] at hlk
        exact Option.some.inj hlk
      have hcondT : decide (pr.2.parentId = p ∧ pr.2.childId = c) = true := by
        rw [hpr2]
        exact decide_eq_true ⟨hpid, hcid⟩
      rw [if_pos hcondT]
      have hpre : pr = (ik0, iv1) := by
        obtain ⟨a, b⟩ := pr
        simp only [] at hk hpr2
        rw [hk, hpr2]
      have hnone : ∀ x ∈ t, ¬ decide (x.2.parentId = p ∧ x.2.childId = c) = true := by
        intro x hx hcon
        have hcon2 := of_decide_eq_true hcon
        have hx1 := huniq x (List.mem_cons_of_mem pr hx) hcon2.1
        apply (List.nodup_cons.mp hnd2).1
        rw [hk, ← hx1]
        exact List.mem_map.mpr ⟨x, hx, rfl⟩
      rw [List.filter_eq_nil_iff.mpr hnone, hpre]
    · have hcondF : ¬ decide (pr.2.parentId = p ∧ pr.2.childId = c) = true := by
        intro hcon
        exact hk (huniq pr (List.mem_cons_self pr t) (of_decide_eq_true hcon).1)
      rw [if_neg hcondF]
      refine ih ik0 iv1 p c (List.nodup_cons.mp hnd2).2 ?_ hpid hcid ?_
      · rw [alookup_cons, if_neg hk] at hlk
        exact hlk
      · intro x hx
        exact huniq x (List.mem_cons_of_mem pr hx)

theorem ivlEntryFor_unique (s : GraphState) (p c ik0 : String) (iv1 : Interval)
    (hnd : (s.intervals.map Prod.fst).Nodup)
    (hlk : alookup s.intervals ik0 = some iv1)
    (hpid : iv1.parentId = p) (hcid : iv1.childId = c)
    (huniq : ∀ pr ∈ s.intervals, pr.2.parentId = p → pr.1 = ik0) :
    ivlEntryFor s p c = some (ik0, iv1) := by
  unfold ivlEntryFor
  rw [filter_singleton_of_uniq s.intervals ik0 iv1 p c hnd hlk hpid hcid huniq]
  rfl

theorem amodify_uniq_pres (l : List (String × Interval)) (k0 : String)
    (f : Interval → Interval) (hf : ∀ iv, (f iv).parentId = iv.parentId) (p : String)
    (hu : ∀ pr ∈ l, pr.2.parentId = p → pr.1 = k0) :
    ∀ pr ∈ amodify l k0 f, pr.2.parentId = p → pr.1 = k0 := by
  intro pr hpr hp
  rcases mem_amodify l k0 f pr hpr with ⟨pr0, h0, hk0, hv⟩
  rw [hk0]
  refine hu pr0 h0 ?_
  rcases hv with he | he
  · rw [← he]
    exact hp
  · rw [← hf pr0.2, ← he]
    exact hp

theorem amodify_ids_pres (l : List (String × BoxNode)) (k0 : String)
    (f : BoxNode → BoxNode) (hf : ∀ nd, (f nd).id = nd.id)
    (hu : ∀ pr ∈ l, pr.2.id = pr.1) :
    ∀ pr ∈ amodify l k0 f, pr.2.id = pr.1 := by
  intro pr hpr
  rcases mem_amodify l k0 f pr hpr with ⟨pr0, h0, hk0, hv⟩
  rw [hk0]
  rcases hv with he | he
  · rw [he]
    exact hu pr0 h0
  · rw [he, hf pr0.2]
    exact hu pr0 h0

theorem C1Inv_initStep (settings : AppSettings) (p c ik0 : String) (P C : BoxNode)
    (T : Option Int) (h : GraphState) (k : String) (hchP : P.childIds = [c])
    (pn : Int) (hn : P.n = some pn)
    (hinv : C1Inv p c ik0 P C T h) : C1Inv p c ik0 P C T (recomputeInitStep settings h k) := by
  obtain ⟨hPh, hCh, hIV, hnd, hu, hids, hpl⟩ := hinv
  by_cases hkp : k = p
  · subst hkp
    rw [initStep_p_single settings h k P hPh (by rw [hchP]; simp)]
    exact ⟨hPh, hCh, hIV, hnd, hu, hids, hpl⟩
  · have hpl2 : ∀ pr ∈ h.nodes, pr.1 ≠ p → ∀ x ∈ [c], ¬ x ∈ pr.2.childIds := by
      intro pr hpr hne x hx
      rw [List.mem_singleton.mp hx]
      exact hpl pr hpr hne
    have hcf := pairs_not_child p [c] h k hkp hpl2
    refine ⟨initStep_defined_frame settings h k p P pn hPh hn, ?_, ?_, ?_, ?_, ?_, ?_⟩
    · rw [initStep_frame settings h k c (hcf c (List.mem_singleton.mpr rfl))]
      exact hCh
    · rw [initStep_intervals]
      exact hIV
    · rw [initStep_intervals]
      exact hnd
    · rw [initStep_intervals]
      exact hu
    · intro pr hpr
      rcases initStep_mem settings h k pr hpr with ⟨pr0, h0, hk0, hid0, _⟩
      rw [hid0, hk0]
      exact hids pr0 h0
    · intro pr hpr hprp
      rcases initStep_mem settings h k pr hpr with ⟨pr0, h0, hk0, _, hch0⟩
      rw [hch0]
      exact hpl pr0 h0 (by rw [← hk0]; exact hprp)

theorem C1Inv_lastFill (p c ik0 : String) (P C : BoxNode)
    (T : Option Int) (h : GraphState) (k : String) (hchP : P.childIds = [c])
    (pn : Int) (hn : P.n = some pn)
    (hinv : C1Inv p c ik0 P C T h) : C1Inv p c ik0 P C T (recomputeLastFillStep h k) := by
  obtain ⟨hPh, hCh, hIV, hnd, hu, hids, hpl⟩ := hinv
  by_cases hkp : k = p
  · subst hkp
    rw [lastFill_p_single h k P hPh (by rw [hchP]; simp)]
    exact ⟨hPh, hCh, hIV, hnd, hu, hids, hpl⟩
  · have hpl2 : ∀ pr ∈ h.nodes, pr.1 ≠ p → ∀ x ∈ [c], ¬ x ∈ pr.2.childIds := by
      intro pr hpr hne x hx
      rw [List.mem_singleton.mp hx]
      exact hpl pr hpr hne
    have hcf := pairs_not_child p [c] h k hkp hpl2
    refine ⟨lastFill_defined_frame h k p P pn hPh hn, ?_, ?_, ?_, ?_, ?_, ?_⟩
    · rw [lastFill_frame h k c (hcf c (List.mem_singleton.mpr rfl))]
      exact hCh
    · rw [lastFill_intervals]
      exact hIV
    · rw [lastFill_intervals]
      exact hnd
    · rw [lastFill_intervals]
      exact hu
    · intro pr hpr
      rcases lastFill_mem h k pr hpr with ⟨pr0, h0, hk0, hid0, _⟩
      rw [hid0, hk0]
      exact hids pr0 h0
    · intro pr hpr hprp
      rcases lastFill_mem h k pr hpr with ⟨pr0, h0, hk0, _, hch0⟩
      rw [hch0]
      exact hpl pr0 h0 (by rw [← hk0]; exact hprp)

theorem C1Inv_delta (settings : AppSettings) (p c ik0 : String) (P C : BoxNode)
    (T : Option Int) (h h2 : GraphState) (k : String) (hkp : k ≠ p)
    (pn : Int) (hn : P.n = some pn)
    (hok : recomputeDeltaStep settings h k = Except.ok h2)
    (hinv : C1Inv p c ik0 P C T h) : C1Inv p c ik0 P C T h2 := by
  obtain ⟨hPh, hCh, hIV, hnd, hu, hids, hpl⟩ := hinv
  obtain ⟨iv1, hiv1, hpid1, hcid1, hexs1, hT1⟩ := hIV
  have hF := deltaStep_facts settings h k h2 hok
  have hpl2 : ∀ pr ∈ h.nodes, pr.1 ≠ p → ∀ x ∈ [c], ¬ x ∈ pr.2.childIds := by
    intro pr hpr hne x hx
    rw [List.mem_singleton.mp hx]
    exact hpl pr hpr hne
  have hcf := pairs_not_child p [c] h k hkp hpl2
  refine ⟨hF.2.2.2.1 p P pn hPh hn, ?_, ?_, ?_, ?_, ?_, ?_⟩
  · rw [hF.2.2.1 c (hcf c (List.mem_singleton.mpr rfl))]
    exact hCh
  · refine ⟨iv1, ?_, hpid1, hcid1, hexs1, hT1⟩
    refine hF.2.2.2.2.2.2 hnd ?_ ik0 iv1 hiv1 ?_
    · intro nd hnd2
      exact hids (k, nd) (alookup_mem _ _ _ hnd2)
    · rw [hpid1]
      intro he
      exact hkp he.symm
  · rw [hF.2.1]
    exact hnd
  · intro pr hpr hp
    rcases hF.2.2.2.2.2.1 pr hpr with ⟨pr0, h0, hk0, hpid0, _⟩
    rw [hk0]
    exact hu pr0 h0 (by rw [← hpid0]; exact hp)
  · intro pr hpr
    rcases hF.2.2.2.2.1 pr hpr with ⟨pr0, h0, hk0, hid0, _⟩
    rw [hid0, hk0]
    exact hids pr0 h0
  · intro pr hpr hprp
    rcases hF.2.2.2.2.1 pr hpr with ⟨pr0, h0, hk0, _, hch0⟩
    rw [hch0]
    exact hpl pr0 h0 (by rw [← hk0]; exact hprp)

theorem C1Post_delta (settings : AppSettings) (p c ik0 : String) (iv2 : Interval)
    (w : Int) (h h2 : GraphState) (k : String) (hkp : k ≠ p) (hpiv : iv2.parentId = p)
    (hok : recomputeDeltaStep settings h k = Except.ok h2)
    (hinv : C1Post c ik0 iv2 w h) : C1Post c ik0 iv2 w h2 := by
  obtain ⟨hiv, hnd, hids, C2, hC2, hC2n⟩ := hinv
  have hF := deltaStep_facts settings h k h2 hok
  refine ⟨?_, ?_, ?_, C2, hF.2.2.2.1 c C2 w hC2 hC2n, hC2n⟩
  · refine hF.2.2.2.2.2.2 hnd ?_ ik0 iv2 hiv ?_
    · intro nd hnd2
      exact hids (k, nd) (alookup_mem _ _ _ hnd2)
    · rw [hpiv]
      intro he
      exact hkp he.symm
  · rw [hF.2.1]
    exact hnd
  · intro pr hpr
    rcases hF.2.2.2.2.1 pr hpr with ⟨pr0, h0, hk0, hid0, _⟩
    rw [hid0, hk0]
    exact hids pr0 h0

theorem C1Inv_passA (fresh : Nat → String) (g : GraphState) (p c ik0 : String)
    (P C : BoxNode) (iv0 : Interval)
    (hndI : (g.intervals.map Prod.fst).Nodup)
    (hP : alookup g.nodes p = some P) (hch : P.childIds = [c])
    (hC : alookup g.nodes c = some C)
    (hiv0 : alookup g.intervals ik0 = some iv0)
    (hpid0 : iv0.parentId = p) (hcid0 : iv0.childId = c)
    (huniq : ∀ pr ∈ g.intervals, pr.2.parentId = p → pr.1 = ik0)
    (hids : ∀ pr ∈ g.nodes, pr.2.id = pr.1)
    (hplist : ∀ pr ∈ g.nodes, pr.1 ≠ p → ¬ c ∈ pr.2.childIds) :
    C1Inv p c ik0 P C (iv0.exclusion.bind (fun e2 => e2.total))
      (recomputePassA fresh g) := by
  have hAn := passA_nodes fresh g
  have hnb : ¬ (childIdsAt g p).length > 1 := by
    unfold childIdsAt
    rw [hP]
    simp only [Option.map_some', Option.getD_some, hch]
    simp
  refine ⟨by rw [hAn]; exact hP, by rw [hAn]; exact hC, ?_, ?_, ?_, ?_, ?_⟩
  · rcases passA_total fresh g hndI ik0 iv0 hiv0 with
      ⟨iv2, hiv2, hpid2, hcid2, _, _, _, hnbc⟩
    have hnb2 : ¬ (childIdsAt g iv0.parentId).length > 1 := by
      rw [hpid0]
      exact hnb
    rcases hnbc hnb2 with ⟨hisome, htot⟩
    exact ⟨iv2, hiv2, by rw [hpid2, hpid0], by rw [hcid2, hcid0], hisome, htot⟩
  · rw [show (recomputePassA fresh g).intervals.map Prod.fst = g.intervals.map Prod.fst
      from passA_ivl_keys fresh g]
    exact hndI
  · intro pr hpr hp
    have hndA : ((recomputePassA fresh g).intervals.map Prod.fst).Nodup := by
      rw [passA_ivl_keys]
      exact hndI
    have hlk : alookup (recomputePassA fresh g).intervals pr.1 = some pr.2 :=
      alookup_of_mem_nodup _ _ _ hndA hpr
    rcases hj0 : alookup g.intervals pr.1 with _ | jv0
    · have hmemk : pr.1 ∈ g.intervals.map Prod.fst := by
        rw [← passA_ivl_keys fresh g]
        exact List.mem_map.mpr ⟨pr, hpr, rfl⟩
      rw [alookup_eq_none_iff] at hj0
      exact absurd hmemk hj0
    · rcases passA_total fresh g hndI pr.1 jv0 hj0 with
        ⟨jv2, hjv2, hjpid, _, _, _, _, _⟩
      have hjv2b : alookup (recomputePassA fresh g).intervals pr.1 = some jv2 := hjv2
      rw [hlk] at hjv2b
      have hpe : pr.2 = jv2 := Option.some.inj hjv2b
      refine huniq (pr.1, jv0) (alookup_mem _ _ _ hj0) ?_
      show jv0.parentId = p
      rw [← hjpid, ← hpe]
      exact hp
  · intro pr hpr
    rw [hAn] at hpr
    exact hids pr hpr
  · intro pr hpr
    rw [hAn] at hpr
    exact hplist pr hpr

theorem upd1_nodes (s : GraphState) (X : List (String × Interval)) :
    ({ s with intervals := X } : GraphState).nodes = s.nodes := rfl

theorem upd1_intervals (s : GraphState) (X : List (String × Interval)) :
    ({ s with intervals := X } : GraphState).intervals = X := rfl

theorem upd2_nodes (s : GraphState) (N : List (String × BoxNode))
    (X : List (String × Interval)) :
    ({ s with nodes := N, intervals := X } : GraphState).nodes = N := rfl

theorem upd2_intervals (s : GraphState) (N : List (String × BoxNode))
    (X : List (String × Interval)) :
    ({ s with nodes := N, intervals := X } : GraphState).intervals = X := rfl

/-- Pass 4 at the designated linear parent when the exclusion total is
null and the child count defined: the total is inferred only when the
difference is positive, and the delta records the shortfall. -/
theorem deltaStep_linear_A (settings : AppSettings) (s s2 : GraphState)
    (p c ik0 : String) (P C : BoxNode) (iv1 : Interval) (ex : ExclusionBox)
    (pn v : Int)
    (hauto : settings.autoCalc = true) (hfe : settings.freeEdit = false)
    (hP : alookup s.nodes p = some P) (hch : P.childIds = [c]) (hidp : P.id = p)
    (hn : P.n = some pn)
    (hC : alookup s.nodes c = some C) (hCv : C.n = some v)
    (hnd : (s.intervals.map Prod.fst).Nodup)
    (hiv : alookup s.intervals ik0 = some iv1) (hpid : iv1.parentId = p)
    (hcid : iv1.childId = c) (hexc : iv1.exclusion = some ex)
    (hT : iv1.exclusion.bind (fun e2 => e2.total) = none)
    (huniq : ∀ pr ∈ s.intervals, pr.2.parentId = p → pr.1 = ik0)
    (hok : recomputeDeltaStep settings s p = Except.ok s2) :
    s2.nodes = s.nodes ∧
    s2.intervals.map Prod.fst = s.intervals.map Prod.fst ∧
    (∀ pr ∈ s2.intervals, pr.2.parentId = p → pr.1 = ik0) ∧
    ∃ iv2, alookup s2.intervals ik0 = some iv2 ∧ iv2.parentId = p ∧
      (pn - v > 0 → iv2.exclusion.bind (fun e2 => e2.total) = some (pn - v) ∧
        iv2.delta = 0) ∧
      (¬ pn - v > 0 → iv2.exclusion.bind (fun e2 => e2.total) = none ∧
        iv2.delta = pn - v) := by
  have hemp : ¬ P.childIds = [] := by
    rw [hch]
    exact List.cons_ne_nil c []
  have hlen2 : ¬ P.childIds.length > 1 := by
    rw [hch]
    simp
  have hhead : P.childIds.head? = some c := by
    rw [hch]
    rfl
  have hive : ivlEntryFor s P.id c = some (ik0, iv1) := by
    rw [hidp]
    exact ivlEntryFor_unique s p c ik0 iv1 hnd hiv hpid hcid huniq
  have hcond : settings.autoCalc = true ∧ ¬ settings.freeEdit = true :=
    ⟨hauto, by rw [hfe]; exact Bool.false_ne_true⟩
  simp only [recomputeDeltaStep, hP, if_neg hemp, if_neg hlen2, hhead, hive, hn,
    if_pos hcond, hC, Option.some_bind, hCv, Option.getD_some] at hok
  have hcondA : (iv1.exclusion.bind (fun e2 => e2.total)).isNone = true ∧
      (some v).isSome = true := ⟨by rw [hT]; rfl, rfl⟩
  rw [if_pos hcondA] at hok
  rw [hexc] at hok
  simp only [] at hok
  by_cases hdv : pn - v > 0
  · rw [if_pos hdv] at hok
    simp only [alookup_amodify_self, hiv, Option.map_some', Option.some_bind, hP, hn,
      hC, hCv, hexc, Option.getD_some] at hok
    obtain rfl : ({ s with intervals := amodify (amodify s.intervals ik0 (fun iv => { iv with exclusion := iv.exclusion.map (fun e3 => { e3 with total := some (pn - v) }) })) ik0 (fun iv => { iv with delta := pn - (v + (pn - v)) }) } : GraphState) = s2 :=
      Except.ok.inj hok
    refine ⟨rfl, ?_, ?_, ?_⟩
    · rw [upd1_intervals, amodify_keys, amodify_keys]
    · rw [upd1_intervals]
      refine amodify_uniq_pres _ _ _ (fun iv => ?_) p
        (amodify_uniq_pres _ _ _ (fun iv => ?_) p huniq) <;> rfl
    · rw [upd1_intervals, alookup_amodify_self, alookup_amodify_self, hiv]
      simp only [Option.map_some']
      refine ⟨_, rfl, hpid, ?_, ?_⟩
      · intro _
        constructor
        · show (iv1.exclusion.map (fun e3 =>
            { e3 with total := some (pn - v) })).bind (fun e2 => e2.total) = some (pn - v)
          rw [hexc]
          rfl
        · show pn - (v + (pn - v)) = 0
          omega
      · intro hcon
        exact absurd hdv hcon
  · rw [if_neg hdv] at hok
    simp only [alookup_amodify_self, hiv, Option.map_some', Option.some_bind, hP, hn,
      hC, hCv, hexc, Option.getD_some, Option.getD_none] at hok
    obtain rfl : ({ s with intervals := amodify (amodify s.intervals ik0 (fun iv => { iv with exclusion := iv.exclusion.map (fun e3 => { e3 with total := (none : Option Int) }) })) ik0 (fun iv => { iv with delta := pn - (v + 0) }) } : GraphState) = s2 :=
      Except.ok.inj hok
    refine ⟨rfl, ?_, ?_, ?_⟩
    · rw [upd1_intervals, amodify_keys, amodify_keys]
    · rw [upd1_intervals]
      refine amodify_uniq_pres _ _ _ (fun iv => ?_) p
        (amodify_uniq_pres _ _ _ (fun iv => ?_) p huniq) <;> rfl
    · rw [upd1_intervals, alookup_amodify_self, alookup_amodify_self, hiv]
      simp only [Option.map_some']
      refine ⟨_, rfl, hpid, ?_, ?_⟩
      · intro hcon
        exact absurd hcon hdv
      · intro _
        constructor
        · show (iv1.exclusion.map (fun e3 =>
            { e3 with total := (none : Option Int) })).bind (fun e2 => e2.total) = none
          rw [hexc]
          rfl
        · show pn - (v + 0) = pn - v
          omega

/-- Pass 4 at the designated linear parent when the exclusion total is
set and the child count null: the child gets `parent.n - total` and the
delta is zero. -/
theorem deltaStep_linear_B (settings : AppSettings) (s s2 : GraphState)
    (p c ik0 : String) (P C : BoxNode) (iv1 : Interval) (pn t : Int)
    (hauto : settings.autoCalc = true) (hfe : settings.freeEdit = false)
    (hpc : p ≠ c)
    (hP : alookup s.nodes p = some P) (hch : P.childIds = [c]) (hidp : P.id = p)
    (hn : P.n = some pn)
    (hC : alookup s.nodes c = some C) (hCv : C.n = none)
    (hnd : (s.intervals.map Prod.fst).Nodup)
    (hiv : alookup s.intervals ik0 = some iv1) (hpid : iv1.parentId = p)
    (hcid : iv1.childId = c)
    (hT : iv1.exclusion.bind (fun e2 => e2.total) = some t)
    (huniq : ∀ pr ∈ s.intervals, pr.2.parentId = p → pr.1 = ik0)
    (hok : recomputeDeltaStep settings s p = Except.ok s2) :
    s2.nodes = amodify s.nodes c (fun nd => { nd with n := some (pn - t) }) ∧
    s2.intervals.map Prod.fst = s.intervals.map Prod.fst ∧
    (∀ pr ∈ s2.intervals, pr.2.parentId = p → pr.1 = ik0) ∧
    ∃ iv2, alookup s2.intervals ik0 = some iv2 ∧ iv2.parentId = p ∧
      iv2.exclusion.bind (fun e2 => e2.total) = some t ∧ iv2.delta = 0 := by
  have hemp : ¬ P.childIds = [] := by
    rw [hch]
    exact List.cons_ne_nil c []
  have hlen2 : ¬ P.childIds.length > 1 := by
    rw [hch]
    simp
  have hhead : P.childIds.head? = some c := by
    rw [hch]
    rfl
  have hive : ivlEntryFor s P.id c = some (ik0, iv1) := by
    rw [hidp]
    exact ivlEntryFor_unique s p c ik0 iv1 hnd hiv hpid hcid huniq
  have hcond : settings.autoCalc = true ∧ ¬ settings.freeEdit = true :=
    ⟨hauto, by rw [hfe]; exact Bool.false_ne_true⟩
  simp only [recomputeDeltaStep, hP, if_neg hemp, if_neg hlen2, hhead, hive, hn,
    if_pos hcond, hC, Option.some_bind, hCv] at hok
  have hcondF : ¬ ((iv1.exclusion.bind (fun e2 => e2.total)).isNone = true ∧
      (Option.none : Option Int).isSome = true) := by
    intro hcon
    exact Bool.noConfusion hcon.2
  rw [if_neg hcondF] at hok
  have hcondB : (iv1.exclusion.bind (fun e2 => e2.total)).isSome = true ∧
      (Option.none : Option Int).isNone = true := ⟨by rw [hT]; rfl, rfl⟩
  rw [if_pos hcondB] at hok
  rw [hT] at hok
  simp only [] at hok
  rw [if_pos (show (some C).isSome = true from rfl)] at hok
  have hPV : alookup (amodify s.nodes c (fun nd => { nd with n := some (pn - t) })) p
      = some P := by
    rw [alookup_amodify_ne _ _ _ _ hpc]
    exact hP
  simp only [alookup_amodify_self, hPV, hiv, hC, Option.map_some', Option.some_bind,
    Option.getD_some, hn, hT] at hok
  obtain rfl : ({ s with nodes := amodify s.nodes c (fun nd => { nd with n := some (pn - t) }), intervals := amodify s.intervals ik0 (fun iv => { iv with delta := pn - (pn - t + t) }) } : GraphState) = s2 :=
    Except.ok.inj hok
  refine ⟨rfl, ?_, ?_, ?_⟩
  · rw [upd2_intervals, amodify_keys]
  · rw [upd2_intervals]
    refine amodify_uniq_pres _ _ _ (fun iv => ?_) p huniq
    rfl
  · rw [upd2_intervals, alookup_amodify_self, hiv]
    simp only [Option.map_some']
    refine ⟨_, rfl, hpid, ?_, ?_⟩
    · show iv1.exclusion.bind (fun e2 => e2.total) = some t
      exact hT
    · show pn - (pn - t + t) = 0
      omega

/-- C1 (amended): for a tree-shaped graph with a designated linear
interval (parent `p` with single child `c`, one interval of parent `p`),
defined parent count and a successful recompute with `autoCalc = true`
and `freeEdit = false`: when the child count was set and the total null,
the total becomes `parent.n - child.n` only if that difference is
positive (then delta = 0); otherwise the total stays null and the delta
records the non-positive difference. When the total was set and the
child count null, the child becomes `parent.n - total` and delta = 0. -/
theorem C1_linear_two_way (g g2 : GraphState) (settings : AppSettings)
    (fresh : Nat → String) (p c ik0 : String) (P C : BoxNode) (iv0 : Interval)
    (pn : Int)
    (hndN : (g.nodes.map Prod.fst).Nodup)
    (hndI : (g.intervals.map Prod.fst).Nodup)
    (hids : ∀ pr ∈ g.nodes, pr.2.id = pr.1)
    (hpc : p ≠ c)
    (hP : alookup g.nodes p = some P) (hch : P.childIds = [c]) (hn : P.n = some pn)
    (hC : alookup g.nodes c = some C)
    (hiv0 : alookup g.intervals ik0 = some iv0) (hpid0 : iv0.parentId = p)
    (hcid0 : iv0.childId = c)
    (huniq : ∀ pr ∈ g.intervals, pr.2.parentId = p → pr.1 = ik0)
    (hplist : ∀ pr ∈ g.nodes, pr.1 ≠ p → ¬ c ∈ pr.2.childIds)
    (hauto : settings.autoCalc = true) (hfe : settings.freeEdit = false)
    (hok : recomputeGraph g settings fresh = Except.ok g2) :
    (∀ v, C.n = some v → iv0.exclusion.bind (fun e2 => e2.total) = none →
      ∃ iv2, alookup g2.intervals ik0 = some iv2 ∧
        (pn - v > 0 → iv2.exclusion.bind (fun e2 => e2.total) = some (pn - v) ∧
          iv2.delta = 0) ∧
        (¬ pn - v > 0 → iv2.exclusion.bind (fun e2 => e2.total) = none ∧
          iv2.delta = pn - v) ∧
        ∃ C2, alookup g2.nodes c = some C2 ∧ C2.n = some v) ∧
    (∀ t, C.n = none → iv0.exclusion.bind (fun e2 => e2.total) = some t →
      ∃ iv2, alookup g2.intervals ik0 = some iv2 ∧
        iv2.exclusion.bind (fun e2 => e2.total) = some t ∧ iv2.delta = 0 ∧
        ∃ C2, alookup g2.nodes c = some C2 ∧ C2.n = some (pn - t)) := by
  have hAn : (recomputePassA fresh g).nodes = g.nodes := passA_nodes fresh g
  have hInvA := C1Inv_passA fresh g p c ik0 P C iv0 hndI hP hch hC hiv0 hpid0 hcid0
    huniq hids hplist
  have hInvB : C1Inv p c ik0 P C (iv0.exclusion.bind (fun e2 => e2.total))
      (recomputePassB settings (recomputePassA fresh g)) := by
    unfold recomputePassB
    refine foldl_pres (C1Inv p c ik0 P C (iv0.exclusion.bind (fun e2 => e2.total)))
      (recomputeInitStep settings) ?_ _ _ hInvA
    intro s k hs
    exact C1Inv_initStep settings p c ik0 P C _ s k hch pn hn hs
  have hInvC : C1Inv p c ik0 P C (iv0.exclusion.bind (fun e2 => e2.total))
      (recomputePassC settings (recomputePassB settings (recomputePassA fresh g))) := by
    unfold recomputePassC
    split
    · refine foldl_pres (C1Inv p c ik0 P C (iv0.exclusion.bind (fun e2 => e2.total)))
        recomputeLastFillStep ?_ _ _ hInvB
      intro s k hs
      exact C1Inv_lastFill p c ik0 P C _ s k hch pn hn hs
    · exact hInvB
  obtain ⟨ks1, ks2, hks, hp1, hp2⟩ :=
    nodup_split (g.nodes.map Prod.fst) p hndN (mem_keys_of_alookup _ _ _ hP)
  have hkeys3 : (recomputePassC settings (recomputePassB settings
      (recomputePassA fresh g))).nodes.map Prod.fst = g.nodes.map Prod.fst := by
    rw [passC_keys, passB_keys, hAn]
  simp only [recomputeGraph, cloneGraph] at hok
  rcases hd : ((recomputePassC settings (recomputePassB settings
      (recomputePassA fresh g))).nodes.map Prod.fst).foldlM (recomputeDeltaStep settings)
      (recomputePassC settings (recomputePassB settings (recomputePassA fresh g)))
    with e | g4
  · rw [hd] at hok
    exact Except.noConfusion hok
  · rw [hd] at hok
    simp only [] at hok
    rw [hkeys3, hks] at hd
    obtain ⟨sA, h1, hrest⟩ := foldlM_append_except (recomputeDeltaStep settings)
      ks1 (p :: ks2) _ g4 hd
    rw [List.foldlM_cons] at hrest
    rcases hps : recomputeDeltaStep settings sA p with e3 | sB
    · rw [hps] at hrest
      exact Except.noConfusion hrest
    · rw [hps] at hrest
      have h2b : ks2.foldlM (recomputeDeltaStep settings) sB = Except.ok g4 := hrest
      have hInvsA : C1Inv p c ik0 P C (iv0.exclusion.bind (fun e2 => e2.total)) sA := by
        refine foldlM_pres_mem
          (C1Inv p c ik0 P C (iv0.exclusion.bind (fun e2 => e2.total)))
          (recomputeDeltaStep settings) ks1 ?_ _ sA h1 hInvC
        intro s k hk s2 hs hst
        exact C1Inv_delta settings p c ik0 P C _ s s2 k (fun he => hp1 (he ▸ hk))
          pn hn hst hs
      obtain ⟨hPsA, hCsA, ⟨iv1, hiv1, hpid1, hcid1, hexs1, hT1⟩, hndsA, husA, hidssA,
        hplsA⟩ := hInvsA
      have hidpA : P.id = p := hids (p, P) (alookup_mem _ _ _ hP)
      constructor
      · intro v hCv hT
        rw [hT] at hT1
        rcases hexcs : iv1.exclusion with _ | ex
        · rw [hexcs] at hexs1
          exact Bool.noConfusion hexs1
        · have hstep := deltaStep_linear_A settings sA sB p c ik0 P C iv1 ex pn v
            hauto hfe hPsA hch hidpA hn hCsA hCv hndsA hiv1 hpid1 hcid1 hexcs hT1
            husA hps
          obtain ⟨hnodesB, hkeysB, husB, iv2, hiv2, hpiv2, himp1, himp2⟩ := hstep
          have hPostB : C1Post c ik0 iv2 v sB := by
            refine ⟨hiv2, ?_, ?_, C, ?_, hCv⟩
            · rw [hkeysB]
              exact hndsA
            · intro pr hpr
              rw [hnodesB] at hpr
              exact hidssA pr hpr
            · rw [hnodesB]
              exact hCsA
          have hPost4 : C1Post c ik0 iv2 v g4 := by
            refine foldlM_pres_mem (C1Post c ik0 iv2 v) (recomputeDeltaStep settings)
              ks2 ?_ sB g4 h2b hPostB
            intro s k hk s2 hs hst
            exact C1Post_delta settings p c ik0 iv2 v s s2 k (fun he => hp2 (he ▸ hk))
              hpiv2 hst hs
          obtain ⟨hiv4, _, _, C2, hC2, hC2n⟩ := hPost4
          rcases normalizePhases_maps (layoutGraphInPlace g4) g2 hok with ⟨hgn, hgi⟩
          refine ⟨iv2, ?_, himp1, himp2, ?_⟩
          · rw [hgi, layoutGraphInPlace_intervals]
            exact hiv4
          · rcases layout_normalize_nproj g4 g2 c C2 hok hC2 with ⟨C3, hC3, hC3n⟩
            exact ⟨C3, hC3, by rw [hC3n, hC2n]⟩
      · intro t hCv hT
        rw [hT] at hT1
        have hstep := deltaStep_linear_B settings sA sB p c ik0 P C iv1 pn t
          hauto hfe hpc hPsA hch hidpA hn hCsA hCv hndsA hiv1 hpid1 hcid1 hT1 husA hps
        obtain ⟨hnodesB, hkeysB, husB, iv2, hiv2, hpiv2, htot2, hdel2⟩ := hstep
        have hPostB : C1Post c ik0 iv2 (pn - t) sB := by
          refine ⟨hiv2, ?_, ?_, ?_⟩
          · rw [hkeysB]
            exact hndsA
          · intro pr hpr
            rw [hnodesB] at hpr
            refine amodify_ids_pres _ _ _ (fun nd => ?_) hidssA pr hpr
            rfl
          · refine ⟨{ C with n := some (pn - t) }, ?_, rfl⟩
            rw [hnodesB, alookup_amodify_self, hCsA]
            rfl
        have hPost4 : C1Post c ik0 iv2 (pn - t) g4 := by
          refine foldlM_pres_mem (C1Post c ik0 iv2 (pn - t))
            (recomputeDeltaStep settings) ks2 ?_ sB g4 h2b hPostB
          intro s k hk s2 hs hst
          exact C1Post_delta settings p c ik0 iv2 (pn - t) s s2 k
            (fun he => hp2 (he ▸ hk)) hpiv2 hst hs
        obtain ⟨hiv4, _, _, C2, hC2, hC2n⟩ := hPost4
        rcases normalizePhases_maps (layoutGraphInPlace g4) g2 hok with ⟨hgn, hgi⟩
        refine ⟨iv2, ?_, htot2, hdel2, ?_⟩
        · rw [hgi, layoutGraphInPlace_intervals]
          exact hiv4
        · rcases layout_normalize_nproj g4 g2 c C2 hok hC2 with ⟨C3, hC3, hC3n⟩
          exact ⟨C3, hC3, by rw [hC3n, hC2n]⟩

/-- C1 counterexample: in `gLinC1` the linear interval has parent count 5,
child count 7 and a null total; a successful recompute leaves the total
null and sets delta to -2, refuting both the promised definedness and
`delta = 0`. -/
theorem C1_negative_counterexample :
    ((alookup gLinC1.nodes "p").map (fun nd => (nd.n, nd.childIds))
      = some (some 5, ["c"])) ∧
    ((alookup gLinC1.nodes "c").map (fun nd => nd.n) = some (some 7)) ∧
    ((alookup gLinC1.intervals "iv").map
      (fun iv => iv.exclusion.bind (fun e2 => e2.total)) = some none) ∧
    okIvlTD (recomputeGraph gLinC1 c4settings c4fresh) "iv" = some (none, -2) := by
  refine ⟨by decide, by decide, by decide, by decide⟩

/-- Witness for the amended C1 on a concrete linear interval: 10 - 7 = 3
is positive, so the total becomes 3 and the delta 0. -/
theorem C1_linear_two_way_witness :
    ∃ g2, recomputeGraph gLinC1F c4settings c4fresh = Except.ok g2 ∧
      ∃ iv2, alookup g2.intervals "iv" = some iv2 ∧
        iv2.exclusion.bind (fun e2 => e2.total) = some 3 ∧ iv2.delta = 0 := by
  have hisok : (recomputeGraph gLinC1F c4settings c4fresh).isOk = true := by decide
  rcases hok : recomputeGraph gLinC1F c4settings c4fresh with e | g2
  · rw [hok] at hisok
    exact Bool.noConfusion hisok
  · obtain ⟨hA, _⟩ := C1_linear_two_way gLinC1F g2 c4settings c4fresh "p" "c" "iv"
      linC1FNodeP linC1FNodeC linC1Ivl 10 (by decide) (by decide) (by decide)
      (by decide) (by decide) (by decide) (by decide) (by decide) (by decide)
      (by decide) (by decide) (by decide) (by decide) (by decide) (by decide) hok
    rcases hA 7 (by decide) (by decide) with ⟨iv2, hiv2, himp1, _, _⟩
    rcases himp1 (by decide) with ⟨htot, hdel⟩
    refine ⟨g2, rfl, iv2, hiv2, ?_, hdel⟩
    rw [htot]
    decide

end Consort
